import Mathlib

/-!
# Crypti block acceptance core: a shallow embedding

Embedding of `src/block/blockchain.js` (the header decode, `blockFromBytes`,
`blockFromJSON`, `pushBlock`, `addGenesisBlock`) and of
`src/modules/transactions.js` (the pool of unconfirmed transactions and the
`Transfer` handler).

* A call of `pushBlock` is a function from the state before the call to the
  state after it and an `Outcome`: `return true`, `return false`, or an
  uncaught exception (a read past the end of the buffer, a property read on
  `undefined`).
* Header integers are 32-bit two's-complement values.  JavaScript numbers that
  may be fractional (amounts, fees, balances, the two header totals) are exact
  rationals: rounding, NaN and the infinities of doubles are not represented.
* Objects used as maps are association lists in insertion order.
* Collaborators whose code is not among the sources (`block.js`,
  `Constants.js`, the transaction and account processors, the store,
  `bytebuffer`, `bignum`, `crypto`) are fields of `Env`, fields of the decoded
  records, or definitions marked `Modelled from the spec`.  Their predicates
  are pure: they read the state and change nothing.
* The sources read the map `this.blocks` and never write it.  `pushBlock` and
  `addGenesisBlock` are embedded as their lines stand; the entry of a block
  into the map is the separate step `registerBlock`.
-/

namespace Crypti

/-! ## Byte buffers and the ByteBuffer cursor -/

/-- Little-endian value of a byte string. -/
def leNat : List UInt8 → Nat
  | [] => 0
  | b :: bs => b.toNat + 256 * leNat bs

/-- Big-endian value of a byte string (`bignum.fromBuffer` with its default options). -/
def beNat (bs : List UInt8) : Nat :=
  bs.foldl (fun acc b => acc * 256 + b.toNat) 0

/-- Two's-complement reading of a 32-bit pattern. -/
def toInt32 (u : Nat) : Int :=
  if u < 2 ^ 31 then (u : Int) else (u : Int) - 2 ^ 32

/-- Two's-complement reading of a 64-bit pattern. -/
def toInt64 (u : Nat) : Int :=
  if u < 2 ^ 63 then (u : Int) else (u : Int) - 2 ^ 64

/-- The bytes `[off, off + n)` of a buffer. -/
def byteSlice (buf : List UInt8) (off n : Nat) : List UInt8 :=
  (buf.drop off).take n

/-- Cursor read `bb.readByte()`: the byte under the cursor as a signed 8-bit integer; the
cursor advances by one.  `none` is the `RangeError` of a read past the end. -/
def readByte (buf : List UInt8) (off : Nat) : Option (Int × Nat) :=
  match buf.get? off with
  | none => none
  | some b =>
    some (if b.toNat < 128 then (b.toNat : Int) else (b.toNat : Int) - 256, off + 1)

/-- Storing a number into an element of a node `Buffer` keeps its low byte. -/
def toUint8 (v : Int) : UInt8 :=
  UInt8.ofNat (v % 256).toNat

/-- The loop `for (var i = 0; i < n; i++) { dst[i] = bb.readByte(); }`. -/
def readByteLoop (buf : List UInt8) : Nat → Nat → Option (List UInt8 × Nat)
  | 0, off => some ([], off)
  | n + 1, off =>
    match readByte buf off with
    | none => none
    | some (v, off1) =>
      match readByteLoop buf n off1 with
      | none => none
      | some (rest, off2) => some (toUint8 v :: rest, off2)

/-- Cursor read `bb.readInt()`: a signed 32-bit integer in the byte order the buffer was
wrapped with; the cursor advances by four. -/
def readInt (littleEndian : Bool) (buf : List UInt8) (off : Nat) : Option (Int × Nat) :=
  if off + 4 ≤ buf.length then
    let bytes := byteSlice buf off 4
    some (toInt32 (if littleEndian then leNat bytes else beNat bytes), off + 4)
  else none

/-- Cursor read `bb.readLong()`: a signed 64-bit integer; the cursor advances by eight. -/
def readLong (littleEndian : Bool) (buf : List UInt8) (off : Nat) : Option (Int × Nat) :=
  if off + 8 ≤ buf.length then
    let bytes := byteSlice buf off 8
    some (toInt64 (if littleEndian then leNat bytes else beNat bytes), off + 8)
  else none

/-- Cursor read `bb.readFloat64()`: eight bytes in the buffer's byte order, decoded by
`float64` (the IEEE-754 binary64 reading of a 64-bit pattern, a library
function taken as a parameter; NaN and the infinities are not represented). -/
def readFloat64 (float64 : Nat → ℚ) (littleEndian : Bool) (buf : List UInt8) (off : Nat) :
    Option (ℚ × Nat) :=
  if off + 8 ≤ buf.length then
    let bytes := byteSlice buf off 8
    some (float64 (if littleEndian then leNat bytes else beNat bytes), off + 8)
  else none

/-! ## Data model -/

/-- The header fields `pushBlock` assigns to the new block (lines 95-140). -/
structure BlockHeader where
  version : Int
  timestamp : Int
  previousBlock : String
  numberOfAddresses : Int
  numberOfTransactions : Int
  totalAmount : ℚ
  totalFee : ℚ
  payloadLength : Int
  payloadHash : List UInt8
  generatorPublicKey : List UInt8
  generationSignature : List UInt8
  blockSignature : List UInt8
  deriving DecidableEq

/-- The object `blockFromBytes` returns: the properties it assigns.  It never
assigns `numberOfAddresses`, `numberOfTransactions` or `generationSignature`
(those stay `undefined`); the count it reads goes to `numbersOfTransactions`. -/
structure BytesBlock where
  version : Int
  timestamp : Int
  previousBlock : Int
  numbersOfTransactions : Int
  numberOfTransactions : Option Int
  totalAmount : ℚ
  totalFee : ℚ
  payloadLength : Int
  payloadHash : List UInt8
  generatorPublicKey : List UInt8
  generationSignature : Option (List UInt8)
  blockSignature : List UInt8
  deriving DecidableEq

/-- Header decode of `pushBlock` (lines 91-140): `ByteBuffer.wrap(buffer, true)`
is little-endian, `flip()` leaves the cursor at 0.  Returns the header and the
cursor after it; `none` is an exception of a read past the end. -/
def decodeHeader (float64 : Nat → ℚ) (buffer : List UInt8) : Option (BlockHeader × Nat) :=
  match readInt true buffer 0 with
  | none => none
  | some (version, o) =>
  match readInt true buffer o with
  | none => none
  | some (timestamp, o) =>
  match readByteLoop buffer 8 o with
  | none => none
  | some (pb, o) =>
  match readInt true buffer o with
  | none => none
  | some (numberOfAddresses, o) =>
  match readInt true buffer o with
  | none => none
  | some (numberOfTransactions, o) =>
  match readFloat64 float64 true buffer o with
  | none => none
  | some (totalAmount, o) =>
  match readFloat64 float64 true buffer o with
  | none => none
  | some (totalFee, o) =>
  match readInt true buffer o with
  | none => none
  | some (payloadLength, o) =>
  match readByteLoop buffer 32 o with
  | none => none
  | some (payloadHash, o) =>
  match readByteLoop buffer 32 o with
  | none => none
  | some (generatorPublicKey, o) =>
  match readByteLoop buffer 64 o with
  | none => none
  | some (generationSignature, o) =>
  match readByteLoop buffer 64 o with
  | none => none
  | some (blockSignature, o) =>
  some ({ version, timestamp, previousBlock := toString (beNat pb), numberOfAddresses,
          numberOfTransactions, totalAmount, totalFee, payloadLength, payloadHash,
          generatorPublicKey, generationSignature, blockSignature }, o)

/-- The method `blockchain.prototype.blockFromBytes` (lines 44-87): `ByteBuffer.wrap(buffer)`
is big-endian.  Returns the block object and the final cursor. -/
def blockFromBytes (float64 : Nat → ℚ) (buffer : List UInt8) : Option (BytesBlock × Nat) :=
  match readInt false buffer 0 with
  | none => none
  | some (version, o) =>
  match readInt false buffer o with
  | none => none
  | some (timestamp, o) =>
  match readLong false buffer o with
  | none => none
  | some (previousBlock, o) =>
  match readInt false buffer o with
  | none => none
  | some (numbersOfTransactions, o) =>
  match readFloat64 float64 false buffer o with
  | none => none
  | some (totalAmount, o) =>
  match readFloat64 float64 false buffer o with
  | none => none
  | some (totalFee, o) =>
  match readInt false buffer o with
  | none => none
  | some (payloadLength, o) =>
  match readByteLoop buffer 32 o with
  | none => none
  | some (payloadHash, o) =>
  match readByteLoop buffer 32 o with
  | none => none
  | some (generatorPublicKey, o) =>
  match readByteLoop buffer 64 o with
  | none => none
  | some (_, o) =>
  match readByteLoop buffer 64 o with
  | none => none
  | some (blockSignature, o) =>
  some ({ version, timestamp, previousBlock, numbersOfTransactions,
          numberOfTransactions := none, totalAmount, totalFee, payloadLength, payloadHash,
          generatorPublicKey, generationSignature := none, blockSignature }, o)

/-- A transaction as the transaction decoder delivers it.  `id`, `verify` and
`bytes` hold what its methods `getId()`, `verify()` and `getBytes()` return. -/
structure Transaction where
  id : String
  type : Int
  subtype : Int
  timestamp : Int
  deadline : Int
  senderPublicKey : List UInt8
  amount : ℚ
  fee : ℚ
  referencedTransaction : String
  verify : Bool
  bytes : List UInt8
  blockId : Option String
  deriving DecidableEq

/-- A ledger account. -/
structure Account where
  address : String
  publicKey : List UInt8
  balance : ℚ
  unconfirmedBalance : ℚ
  deriving DecidableEq

/-- An account record embedded in a block.  `verify` and `accountVerify` hold
what the record's methods of these names return. -/
structure AddressRecord where
  id : String
  timestamp : Int
  verify : Bool
  accountVerify : Bool
  blockId : Option String
  deriving DecidableEq

/-- What `pushBlock` reads of a block stored in `this.blocks`.  `previousBlock`
is `none` for `null` (the genesis block). -/
structure ChainBlock where
  previousBlock : Option String
  timestamp : Int
  deriving DecidableEq

/-- Calls made on the persistent store, in order. -/
inductive StoreOp where
  | writeBlock (id : String)
  | writeTransaction (id : String)
  | writeAddress (id : String)
  deriving DecidableEq

/-- State of the transaction and account processors. -/
structure Ledger where
  transactions : List Transaction
  unconfirmedTransactions : List Transaction
  accounts : List Account
  deriving DecidableEq

/-- Everything `pushBlock` can read or change: the chain's `blocks` map and
`lastBlock` pointer, the ledger, the address processor's
`unconfirmedAddresses` keys and the log of store calls. -/
structure State where
  blocks : List (String × ChainBlock)
  lastBlock : Option String
  ledger : Ledger
  unconfirmedAddresses : List String
  db : List StoreOp
  deriving DecidableEq

/-- The block object `b` once its payload is loaded (line 184). -/
structure Block where
  header : BlockHeader
  index : Nat
  transactions : List Transaction
  addresses : List (String × AddressRecord)
  forForger : ℚ
  deriving DecidableEq

/-- How a call of `pushBlock` ends: `return true`, `return false`, or an
uncaught exception. -/
inductive Outcome where
  | returned (value : Bool)
  | threw
  deriving DecidableEq

/-- Constants and collaborators of `pushBlock` that are not in the sources:
`Constants.js`, the methods of `block.js`, the record decoders, the
transaction processor's `addTransaction`, and `sha256`.  The predicates are
pure functions of the block and the state they can see. -/
structure Env where
  float64 : Nat → ℚ
  maxPayloadLength : Int
  blockHeaderLength : Int
  getId : BlockHeader → String
  verifyGenerationSignature : State → BlockHeader → Bool
  verifyBlockSignature : State → BlockHeader → Bool
  analyze : State → Block → Bool
  transactionFromBuffer : List UInt8 → Nat → Option (Transaction × Nat)
  addressFromByteBuffer : List UInt8 → Nat → Option (AddressRecord × Nat)
  addTransaction : Ledger → Transaction → Ledger × Bool
  sha256 : List UInt8 → List UInt8

/-! ## Object maps keyed by strings -/

/-- Assignment `m[k] = v`: an existing key keeps its place, a new key goes last.
Enumeration (`for ... in`) is taken to follow the list, that is, insertion
order.  That is the order of JavaScript for keys that are not array indices;
keys that are canonical array indices (such as `8` and `9`) are enumerated
first, in ascending numeric order, so for such keys the visits can come in
another order than the list's.  The place of a key only decides which of
several failures is met first and which record a loop visits last. -/
def setKey {α : Type} (m : List (String × α)) (k : String) (v : α) : List (String × α) :=
  match m with
  | [] => [(k, v)]
  | (k1, v1) :: rest => if k1 = k then (k, v) :: rest else (k1, v1) :: setKey rest k v

/-- Property read `m[k]`; `none` is `undefined`. -/
def getKey {α : Type} (m : List (String × α)) (k : String) : Option α :=
  match m with
  | [] => none
  | (k1, v1) :: rest => if k1 = k then some v1 else getKey rest k

/-! ## Chain and ledger lookups -/

/-- The method `blockchain.prototype.getBlock`. -/
def getBlock (st : State) (id : String) : Option ChainBlock :=
  getKey st.blocks id

/-- The method `blockchain.prototype.getLastBlock`: `this.blocks[this.lastBlock]`. -/
def getLastBlock (st : State) : Option ChainBlock :=
  match st.lastBlock with
  | none => none
  | some id => getKey st.blocks id

/-- Modelled from the spec: the transaction processor's lookup of a confirmed
transaction by id (`transactionprocessor.getTransaction`, not in the sources). -/
def getTransaction (l : Ledger) (id : String) : Option Transaction :=
  l.transactions.find? (fun t => t.id = id)

/-- Modelled from the spec: the pool lookup by id
(`transactionprocessor.getUnconfirmedTransaction`, not in the sources). -/
def getUnconfirmedTransaction (l : Ledger) (id : String) : Option Transaction :=
  l.unconfirmedTransactions.find? (fun t => t.id = id)

/-- Modelled from the spec: the account ledger's lookup by public key
(`accountprocessor.getAccountByPublicKey`, not in the sources). -/
def getAccountByPublicKey (l : Ledger) (pk : List UInt8) : Option Account :=
  l.accounts.find? (fun a => a.publicKey = pk)

/-- Modelled from the spec: the account ledger's lookup by address
(`accountprocessor.getAccountById`, not in the sources). -/
def getAccountById (l : Ledger) (address : String) : Option Account :=
  l.accounts.find? (fun a => a.address = address)

/-- Replace the first element satisfying `p` by its image under `f`: a field
assignment on the object a lookup returned. -/
def updateFirst {α : Type} (p : α → Bool) (f : α → α) : List α → List α
  | [] => []
  | x :: xs => if p x then f x :: xs else x :: updateFirst p f xs

/-- Modelled from the spec: removal of a transaction from the pool
(`transactionprocessor.removeUnconfirmedTransaction`, not in the sources); the
flag tells whether the transaction was resident. -/
def removeUnconfirmedTransaction (l : Ledger) (t : Transaction) : Bool × Ledger :=
  if (getUnconfirmedTransaction l t.id).isSome then
    let pool1 := l.unconfirmedTransactions.filter (fun u => u.id ≠ t.id)
    (true, { l with unconfirmedTransactions := pool1 })
  else (false, l)

/-- The object a lookup returned gets a new `unconfirmedBalance`
(`a.setUnconfirmedBalance(v)` on the account found by public key). -/
def setUnconfirmedBalance (l : Ledger) (pk : List UInt8) (v : ℚ) : Ledger :=
  let accounts1 :=
    updateFirst (fun a => a.publicKey = pk) (fun a => { a with unconfirmedBalance := v })
      l.accounts
  { l with accounts := accounts1 }

/-- The assignment `getTransaction(id).blockId = blockId` (line 304); `none` is the
`TypeError` of assigning to a property of `undefined`. -/
def setTransactionBlockId (l : Ledger) (id blockId : String) : Option Ledger :=
  match getTransaction l id with
  | none => none
  | some _ =>
    let transactions1 :=
      updateFirst (fun t => t.id = id) (fun t => { t with blockId := some blockId })
        l.transactions
    some { l with transactions := transactions1 }

/-! ## pushBlock -/

/-- A phase of `pushBlock` either ends the call or hands on a value. -/
inductive Step (α : Type) where
  | exit (o : Outcome)
  | next (a : α)
  deriving DecidableEq

/-- The loop of lines 172-175: `n` calls of the transaction decoder on the
shared cursor. -/
def readTransactions (env : Env) (buffer : List UInt8) :
    Nat → Nat → Option (List Transaction × Nat)
  | 0, off => some ([], off)
  | n + 1, off =>
    match env.transactionFromBuffer buffer off with
    | none => none
    | some (t, off1) =>
      match readTransactions env buffer n off1 with
      | none => none
      | some (ts, off2) => some (t :: ts, off2)

/-- The loop of lines 177-182: each decoded record gets the block id and is
stored under its own id. -/
def readAddresses (env : Env) (buffer : List UInt8) (blockId : String) :
    Nat → Nat → List (String × AddressRecord) → Option (List (String × AddressRecord) × Nat)
  | 0, off, m => some (m, off)
  | n + 1, off, m =>
    match env.addressFromByteBuffer buffer off with
    | none => none
    | some (addr, off1) =>
      readAddresses env buffer blockId n off1
        (setKey m addr.id { addr with blockId := some blockId })

/-- Lines 91-182: header decode, the previous-block, time, payload-length and
signature checks, then the payload decode. -/
def loadBlock (env : Env) (curTime : Int) (st : State) (buffer : List UInt8) : Step Block :=
  match decodeHeader env.float64 buffer with
  | none => .exit .threw
  | some (h, off) =>
  match getLastBlock st with
  | none => .exit .threw
  | some last =>
  if last.previousBlock = some h.previousBlock then .exit (.returned false) else
  if h.timestamp > curTime ∨ h.timestamp < last.timestamp then .exit (.returned false) else
  if h.payloadLength > env.maxPayloadLength ∨
      h.payloadLength + env.blockHeaderLength ≠ (buffer.length : Int) then
    .exit (.returned false) else
  if (getBlock st (env.getId h)).isSome ∨ ¬ env.verifyGenerationSignature st h ∨
      ¬ env.verifyBlockSignature st h then
    .exit (.returned false) else
  match readTransactions env buffer h.numberOfTransactions.toNat off with
  | none => .exit .threw
  | some (txs, off1) =>
  match readAddresses env buffer (env.getId h) h.numberOfAddresses.toNat off1 [] with
  | none => .exit .threw
  | some (addrs, _) =>
  .next { header := h, index := st.blocks.length + 1, transactions := txs,
          addresses := addrs, forForger := 0 }

/-- The test of line 190 on one account record. -/
def addressFails (curTime : Int) (addr : AddressRecord) : Bool :=
  addr.timestamp > curTime || !addr.verify || !addr.accountVerify

/-- The counter `c` of lines 186-207: records passed before the first failure. -/
def countAddresses (curTime : Int) : List (String × AddressRecord) → Nat
  | [] => 0
  | (_, addr) :: rest =>
    if addressFails curTime addr then 0 else countAddresses curTime rest + 1

/-- The variable `addr` after the loop of lines 187-207: the record at which
the loop broke, or the last one visited, the visits taken in the order of the
list (see `setKey` for the keys JavaScript enumerates in another order). -/
def lastVisited (curTime : Int) :
    List (String × AddressRecord) → Option AddressRecord → Option AddressRecord
  | [], cur => cur
  | (_, addr) :: rest, _ =>
    if addressFails curTime addr then some addr else lastVisited curTime rest (some addr)

/-- The `break` condition of line 220. -/
def walkBreaks (l : Ledger) (curTime blockTimestamp : Int) (t : Transaction) : Bool :=
  t.timestamp > curTime || t.deadline < 1 || t.deadline > 24 ||
  t.timestamp + t.deadline * 60 * 60 < blockTimestamp ||
  t.fee < 0 || t.fee ≥ 99999999 ||
  (getTransaction l t.id).isSome ||
  ((t.referencedTransaction ≠ "0" && (getTransaction l t.referencedTransaction).isNone) ||
    ((getUnconfirmedTransaction l t.id).isSome && !t.verify))

/-- The variables of the legality walk (lines 215-248). -/
structure WalkState where
  i : Nat
  calculatedTotalAmount : ℚ
  calculatedTotalFee : ℚ
  forForger : ℚ
  accumulatedAmounts : List (String × ℚ)
  deriving DecidableEq

/-- The walk's variables before the first iteration. -/
def walkStart : WalkState :=
  { i := 0, calculatedTotalAmount := 0, calculatedTotalFee := 0, forForger := 0,
    accumulatedAmounts := [] }

/-- Lines 225-229: `if (!acc[a]) acc[a] = 0; acc[a] += v`.  A missing or zero
entry is (re)set to 0 first. -/
def accumulate (acc : List (String × ℚ)) (a : String) (v : ℚ) : List (String × ℚ) :=
  let acc1 :=
    match getKey acc a with
    | none => setKey acc a 0
    | some x => if x = 0 then setKey acc a 0 else acc
  setKey acc1 a ((getKey acc1 a).getD 0 + v)

/-- The loop of lines 217-248 on the transactions still to visit.  `some w` are
the variables when the loop ends (by `break` or by exhausting the list), `none`
is the `TypeError` of `sender.address` on a sender that is not found. -/
def walk (l : Ledger) (curTime blockTimestamp : Int) :
    List Transaction → WalkState → Option WalkState
  | [], w => some w
  | t :: ts, w =>
    if walkBreaks l curTime blockTimestamp t then some w else
    match getAccountByPublicKey l t.senderPublicKey with
    | none => none
    | some sender =>
      let acc := accumulate w.accumulatedAmounts sender.address (t.amount + t.fee)
      if t.type = 0 then
        if t.subtype = 0 then
          walk l curTime blockTimestamp ts
            { w with i := w.i + 1, accumulatedAmounts := acc,
                     calculatedTotalAmount := w.calculatedTotalAmount + t.amount,
                     calculatedTotalFee := w.calculatedTotalFee + t.fee }
        else some { w with accumulatedAmounts := acc }
      else if t.type = 1 then
        if t.subtype = 0 then
          walk l curTime blockTimestamp ts
            { w with i := w.i + 1, accumulatedAmounts := acc,
                     calculatedTotalAmount := w.calculatedTotalAmount + t.amount,
                     forForger := w.forForger + t.fee / 2,
                     calculatedTotalFee := w.calculatedTotalFee + t.fee }
        else some { w with accumulatedAmounts := acc }
      else some { w with accumulatedAmounts := acc }

/-- Lines 255-261: `hash.update(getBytes())` for each transaction in order, then
`digest()`; the updates amount to hashing the bytes appended so far. -/
def payloadDigest (env : Env) (txs : List Transaction) : List UInt8 :=
  env.sha256 (txs.foldl (fun acc t => acc ++ t.bytes) [])

/-- The loop of lines 268-275 over the accumulated debits: `some false` when an
account's balance is below its debit, `none` when the account is not found
(`TypeError` on `account.balance`). -/
def checkBalances (l : Ledger) : List (String × ℚ) → Option Bool
  | [] => some true
  | (a, v) :: rest =>
    match getAccountById l a with
    | none => none
    | some account => if account.balance < v then some false else checkBalances l rest

/-- Lines 91-285: everything `pushBlock` does before it changes any state.
`exit` is a `return false` of a check or an exception; `next` carries the block
with its forger reward into the commit. -/
def validate (env : Env) (curTime : Int) (st : State) (buffer : List UInt8) : Step Block :=
  match loadBlock env curTime st buffer with
  | .exit o => .exit o
  | .next b =>
  if (countAddresses curTime b.addresses : Int) ≠ b.header.numberOfAddresses then
    .exit (.returned false) else
  match walk st.ledger curTime b.header.timestamp b.transactions walkStart with
  | none => .exit .threw
  | some w =>
  if w.calculatedTotalAmount ≠ b.header.totalAmount ∨
      w.calculatedTotalFee ≠ b.header.totalFee ∨ w.i ≠ b.transactions.length then
    .exit (.returned false) else
  if payloadDigest env b.transactions ≠ b.header.payloadHash then
    .exit (.returned false) else
  match checkBalances st.ledger w.accumulatedAmounts with
  | none => .exit .threw
  | some false => .exit (.returned false)
  | some true =>
  if ¬ env.analyze st { b with forForger := w.forForger } then .exit (.returned false) else
  .next { b with forForger := w.forForger }

/-- The loop of lines 287-294: each transaction gets the block id and goes to
`addTransaction`; the flag is `false` when a call returned a falsy value. -/
def addTransactions (env : Env) (blockId : String) : List Transaction → Ledger → Ledger × Bool
  | [], l => (l, true)
  | t :: ts, l =>
    match env.addTransaction l { t with blockId := some blockId } with
    | (l1, false) => (l1, false)
    | (l1, true) => addTransactions env blockId ts l1

/-- The loop of lines 296-305: a transaction that was in the pool is removed
and its sender's unconfirmed balance restored by amount + fee; the confirmed
copy gets the block id.  The flag is `false` when the loop threw. -/
def drainPool (blockId : String) : List Transaction → Ledger → Ledger × Bool
  | [], l => (l, true)
  | t :: ts, l =>
    match removeUnconfirmedTransaction l t with
    | (true, l1) =>
      match getAccountByPublicKey l1 t.senderPublicKey with
      | none => (l1, false)
      | some a =>
        let l2 := setUnconfirmedBalance l1 t.senderPublicKey
          (a.unconfirmedBalance + t.amount + t.fee)
        match setTransactionBlockId l2 t.id blockId with
        | none => (l2, false)
        | some l3 => drainPool blockId ts l3
    | (false, l1) =>
      match setTransactionBlockId l1 t.id blockId with
      | none => (l1, false)
      | some l3 => drainPool blockId ts l3

/-- The loop of lines 307-322: once per key of `b.addresses` it deletes the
entry of the variable `addr`, which still holds the record the counting loop
visited last. -/
def dropUnconfirmedAddresses (curTime : Int) (addresses : List (String × AddressRecord))
    (unconfirmed : List String) : List String :=
  match addresses, lastVisited curTime addresses none with
  | _ :: _, some addr => unconfirmed.filter (fun k => k ≠ addr.id)
  | _, _ => unconfirmed

/-- Lines 287-346: the commit. -/
def commit (env : Env) (curTime : Int) (st : State) (b : Block) : State × Outcome :=
  let id := env.getId b.header
  match addTransactions env id b.transactions st.ledger with
  | (l1, false) => ({ st with ledger := l1 }, .returned false)
  | (l1, true) =>
  match drainPool id b.transactions l1 with
  | (l2, false) => ({ st with ledger := l2 }, .threw)
  | (l2, true) =>
  ({ blocks := st.blocks,
     lastBlock := some id,
     ledger := l2,
     unconfirmedAddresses := dropUnconfirmedAddresses curTime b.addresses st.unconfirmedAddresses,
     db := st.db ++ [StoreOp.writeBlock id] ++
       b.transactions.map (fun t => StoreOp.writeTransaction t.id) ++
       b.addresses.map (fun a => StoreOp.writeAddress a.2.id) }, .returned true)

/-- The method `blockchain.prototype.pushBlock` (lines 89-347) at epoch time `curTime`: the
state after the call and how the call ended. -/
def pushBlock (env : Env) (curTime : Int) (st : State) (buffer : List UInt8) : State × Outcome :=
  match validate env curTime st buffer with
  | .exit o => (st, o)
  | .next b => commit env curTime st b

/-! ## Predicates used in the statements -/

/-- The time, deadline and fee conditions under which a transaction is illegal
in a block of timestamp `blockTimestamp` at time `curTime`. -/
@[reducible] def timeOrFeeIllegal (curTime blockTimestamp : Int) (t : Transaction) : Prop :=
  t.timestamp > curTime ∨ t.deadline < 1 ∨ t.deadline > 24 ∨
  t.timestamp + t.deadline * 3600 < blockTimestamp ∨ t.fee < 0 ∨ t.fee ≥ 99999999

/-- The two legal kinds: type 0 or 1, subtype 0. -/
@[reducible] def legalType (t : Transaction) : Prop :=
  (t.type = 0 ∨ t.type = 1) ∧ t.subtype = 0

/-- The sender of a transaction is on the ledger. -/
@[reducible] def senderKnown (l : Ledger) (t : Transaction) : Prop :=
  (getAccountByPublicKey l t.senderPublicKey).isSome = true

/-- The address the walk debits for a transaction: that of the account found
by the sender's public key. -/
def senderAddress (l : Ledger) (t : Transaction) : Option String :=
  (getAccountByPublicKey l t.senderPublicKey).map (fun a => a.address)

/-- Sum of amount + fee over the transactions of a list debited to `address`. -/
def debitTotal (l : Ledger) (address : String) (ts : List Transaction) : ℚ :=
  ((ts.filter (fun t => senderAddress l t = some address)).map
    (fun t => t.amount + t.fee)).sum

/-! ## A concrete node for the examples -/

namespace Example

/-- A transaction codec of eight one-byte fields: id, type, subtype, timestamp,
deadline, sender key, amount, fee. -/
def transactionFromBuffer (buffer : List UInt8) (off : Nat) : Option (Transaction × Nat) :=
  match byteSlice buffer off 8 with
  | [i, ty, sub, ts, dl, pk, am, fe] =>
    some ({ id := toString i.toNat, type := ty.toNat, subtype := sub.toNat,
            timestamp := ts.toNat, deadline := dl.toNat, senderPublicKey := [pk],
            amount := am.toNat, fee := fe.toNat, referencedTransaction := "0",
            verify := true, bytes := [i, ty, sub, ts, dl, pk, am, fe],
            blockId := none }, off + 8)
  | _ => none

/-- An account-record codec of two one-byte fields: id and timestamp. -/
def addressFromByteBuffer (buffer : List UInt8) (off : Nat) : Option (AddressRecord × Nat) :=
  match byteSlice buffer off 2 with
  | [i, ts] =>
    some ({ id := toString i.toNat, timestamp := ts.toNat, verify := true,
            accountVerify := true, blockId := none }, off + 2)
  | _ => none

/-- A stand-in digest: 32 copies of the byte sum. -/
def digest (bs : List UInt8) : List UInt8 :=
  List.replicate 32 (UInt8.ofNat (bs.foldl (fun acc b => acc + b.toNat) 0))

/-- The collaborators of the example node: every signature verifies, the
analysis succeeds, `addTransaction` appends to the confirmed transactions. -/
def env : Env :=
  { float64 := fun n => (n : ℚ)
    maxPayloadLength := 1000
    blockHeaderLength := 236
    getId := fun h => "b" ++ h.previousBlock
    verifyGenerationSignature := fun _ _ => true
    verifyBlockSignature := fun _ _ => true
    analyze := fun _ _ => true
    transactionFromBuffer := transactionFromBuffer
    addressFromByteBuffer := addressFromByteBuffer
    addTransaction := fun l t => ({ l with transactions := l.transactions ++ [t] }, true)
    sha256 := digest }

/-- As `env`, but `addTransaction` refuses the transaction of id 2. -/
def strictEnv : Env :=
  { env with
    addTransaction := fun l t =>
      if t.id = "2" then (l, false)
      else ({ l with transactions := l.transactions ++ [t] }, true) }

/-- A ledger with no transactions and one account, of address 1C and key 1. -/
def ledgerWith (balance : ℚ) : Ledger :=
  { transactions := []
    unconfirmedTransactions := []
    accounts := [{ address := "1C", publicKey := [1], balance := balance,
                   unconfirmedBalance := balance }] }

/-- A chain whose last block has id 5 and previous block 1; the account has
balance 100. -/
def chain : State :=
  { blocks := [("5", { previousBlock := some "1", timestamp := 0 })]
    lastBlock := some "5"
    ledger := ledgerWith 100
    unconfirmedAddresses := []
    db := [] }

/-- The same chain with an account balance of 32. -/
def poorChain : State :=
  { chain with ledger := ledgerWith 32 }

/-- A 236-byte header: version 1, timestamp 5, previous block 7, no account
records, and the given transaction count, totals, payload length and
payload-hash byte. -/
def header (count amount fee payloadLength hash : UInt8) : List UInt8 :=
  [1, 0, 0, 0] ++ [5, 0, 0, 0] ++ [0, 0, 0, 0, 0, 0, 0, 7] ++ [0, 0, 0, 0] ++
  [count, 0, 0, 0] ++ [amount, 0, 0, 0, 0, 0, 0, 0] ++ [fee, 0, 0, 0, 0, 0, 0, 0] ++
  [payloadLength, 0, 0, 0] ++ List.replicate 32 hash ++ List.replicate 32 0 ++
  List.replicate 64 0 ++ List.replicate 64 0

/-- Wire bytes of a transfer of sender key 1 with subtype 0 and timestamp 4. -/
def transferBytes (id kind deadline amount fee : UInt8) : List UInt8 :=
  [id, kind, 0, 4, deadline, 1, amount, fee]

/-- The transaction the codec reads from `transferBytes`. -/
def transfer (id kind deadline amount fee : UInt8) : Transaction :=
  { id := toString id.toNat, type := kind.toNat, subtype := 0, timestamp := 4,
    deadline := deadline.toNat, senderPublicKey := [1], amount := amount.toNat,
    fee := fee.toNat, referencedTransaction := "0", verify := true,
    bytes := transferBytes id kind deadline amount fee, blockId := none }

/-- The block object that `header` and the given transactions decode to on `chain`. -/
def blockOf (count amount fee payloadLength hash : UInt8) (txs : List Transaction) : Block :=
  { header :=
      { version := 1, timestamp := 5, previousBlock := "7", numberOfAddresses := 0,
        numberOfTransactions := count.toNat, totalAmount := amount.toNat,
        totalFee := fee.toNat, payloadLength := payloadLength.toNat,
        payloadHash := List.replicate 32 hash, generatorPublicKey := List.replicate 32 0,
        generationSignature := List.replicate 64 0, blockSignature := List.replicate 64 0 }
    index := 2
    transactions := txs
    addresses := []
    forForger := 0 }

/-- A block on previous block 7 with two transfers (amounts 10 and 20, fees 1
and 2), matching totals and payload hash. -/
def goodBuffer : List UInt8 :=
  header 2 30 3 16 81 ++ transferBytes 1 0 10 10 1 ++ transferBytes 2 1 24 20 2

/-- The block `goodBuffer` decodes to. -/
def goodBlock : Block :=
  blockOf 2 30 3 16 81 [transfer 1 0 10 10 1, transfer 2 1 24 20 2]

/-- The object `blockFromBytes` makes of `goodBuffer`. -/
def goodBytesBlock : BytesBlock :=
  { version := 16777216, timestamp := 83886080, previousBlock := 7,
    numbersOfTransactions := 0, numberOfTransactions := none,
    totalAmount := 144115188579172352, totalFee := 50331648, payloadLength := 0,
    payloadHash := [16, 0, 0, 0] ++ List.replicate 28 81,
    generatorPublicKey := List.replicate 4 81 ++ List.replicate 28 0,
    generationSignature := none,
    blockSignature := List.replicate 64 0 }

/-- As `goodBuffer`, with a declared totalFee of 4 instead of 3. -/
def feeBuffer : List UInt8 :=
  header 2 30 4 16 81 ++ transferBytes 1 0 10 10 1 ++ transferBytes 2 1 24 20 2

/-- The block `feeBuffer` decodes to. -/
def feeBlock : Block :=
  blockOf 2 30 4 16 81 [transfer 1 0 10 10 1, transfer 2 1 24 20 2]

/-- Three transfers, the second with deadline 25. -/
def lateBuffer : List UInt8 :=
  header 3 35 4 24 106 ++ transferBytes 1 0 10 10 1 ++ transferBytes 2 1 25 20 2 ++
    transferBytes 3 0 10 5 1

/-- The block `lateBuffer` decodes to. -/
def lateBlock : Block :=
  blockOf 3 35 4 24 106 [transfer 1 0 10 10 1, transfer 2 1 25 20 2, transfer 3 0 10 5 1]

/-- Three transfers, the second of type 2. -/
def typeBuffer : List UInt8 :=
  header 3 35 4 24 106 ++ transferBytes 1 0 10 10 1 ++ transferBytes 2 2 24 20 2 ++
    transferBytes 3 0 10 5 1

/-- The block `typeBuffer` decodes to. -/
def typeBlock : Block :=
  blockOf 3 35 4 24 106 [transfer 1 0 10 10 1, transfer 2 2 24 20 2, transfer 3 0 10 5 1]

/-- A block on previous block 7 without transactions or account records: the
header alone, with the digest of the empty payload. -/
def emptyBuffer : List UInt8 :=
  header 0 0 0 0 0

/-- The state after `emptyBuffer` is accepted on `chain`: the blocks map is as
before, lastBlock is the new id and the store saw one block. -/
def acceptedEmpty : State :=
  { chain with lastBlock := some "b7", db := [StoreOp.writeBlock "b7"] }

/-- The state after `strictEnv` refuses the second transaction of `goodBuffer`:
the first transfer is already confirmed. -/
def halfCommitted : State :=
  { chain with
    ledger :=
      { ledgerWith 100 with
        transactions := [{ transfer 1 0 10 10 1 with blockId := some "b7" }] } }

end Example

/-! ## blockFromJSON -/

/-- A value that `JSON.parse` can return. -/
inductive Json where
  | null
  | bool (b : Bool)
  | num (n : ℚ)
  | str (s : String)
  | arr (items : List Json)
  | obj (fields : List (String × Json))

/-- Property read `data[name]` for one of the block field names: a
`TypeError` (`none`) on `null`, the own property of an object, `undefined`
(`some none`) on every other value. -/
def Json.getProp (data : Json) (name : String) : Option (Option Json) :=
  match data with
  | .null => none
  | .obj fields => some (getKey fields name)
  | _ => some none

/-- The object `new block(...)` builds from the twelve constructor arguments;
an argument that is `undefined` stays `none`.  (`new block()` without arguments
is what `pushBlock` and `blockFromBytes` start from.) -/
structure JsonBlock where
  version : Option Json
  id : Option Json
  timestamp : Option Json
  previousBlock : Option Json
  transactions : Option Json
  totalAmount : Option Json
  totalFee : Option Json
  payloadLength : Option Json
  payloadHash : Option Json
  generatorPublicKey : Option Json
  generationSignature : Option Json
  blockSignature : Option Json

/-- How a call ends that may throw: the returned value or an uncaught exception. -/
inductive Completion (α : Type) where
  | returned (value : α)
  | threw

/-- The statement `try { body } catch (e) { return handler }`. -/
def tryCatch {α : Type} (body : Completion α) (handler : α) : Completion α :=
  match body with
  | .returned v => .returned v
  | .threw => .returned handler

/-- The `try` block of `blockFromJSON` (lines 37-38).  `jsonParse` is the
built-in `JSON.parse` (`none`: a `SyntaxError`). -/
def blockFromJSONBody (jsonParse : String → Option Json) (jsonObj : String) :
    Completion (Option JsonBlock) :=
  match jsonParse jsonObj with
  | none => .threw
  | some data =>
    match data with
    | .null => .threw
    | _ =>
      let field := fun name => (data.getProp name).getD none
      .returned (some
        { version := field "version", id := field "id", timestamp := field "timestamp",
          previousBlock := field "previousBlock", transactions := field "transactions",
          totalAmount := field "totalAmount", totalFee := field "totalFee",
          payloadLength := field "payloadLength", payloadHash := field "payloadHash",
          generatorPublicKey := field "generatorPublicKey",
          generationSignature := field "generationSignature",
          blockSignature := field "blockSignature" })

/-- The method `blockchain.prototype.blockFromJSON` (lines 35-42); `none` is `null`. -/
def blockFromJSON (jsonParse : String → Option Json) (jsonObj : String) :
    Completion (Option JsonBlock) :=
  tryCatch (blockFromJSONBody jsonParse jsonObj) none

/-! ## addGenesisBlock -/

/-- What `addGenesisBlock` needs from `genesisblock.js`, the transaction and
block classes and the store: the genesis block id, the id of the genesis
transaction, the results of `t.verify()`, `b.getId()` and `b.analyze()`, and
the errors (if any) the two store calls report. -/
structure GenesisEnv where
  blockId : String
  transactionId : String
  verify : Bool
  getId : String
  analyze : State → Bool
  writeBlockError : Option String
  writeTransactionError : Option String

/-- How a call of `addGenesisBlock` ends: `return null` without the callback,
or the callback invoked with an error or without one. -/
inductive GenesisOutcome where
  | returnedNull
  | calledBack (err : Option String)
  deriving DecidableEq

/-- The function `addGenesisBlock` (lines 349-400). -/
def addGenesisBlock (g : GenesisEnv) (st : State) : State × GenesisOutcome :=
  match getBlock st g.blockId with
  | some _ => (st, .calledBack none)
  | none =>
    if ¬ g.verify then (st, .returnedNull) else
    let st1 : State := { st with lastBlock := some g.getId }
    if ¬ g.analyze st1 then (st1, .returnedNull) else
    let st2 : State := { st1 with db := st1.db ++ [StoreOp.writeBlock g.getId] }
    match g.writeBlockError with
    | some err => (st2, .calledBack (some err))
    | none =>
      ({ st2 with db := st2.db ++ [StoreOp.writeTransaction g.transactionId] },
        .calledBack g.writeTransactionError)

/-! ## The transactions module (`src/modules/transactions.js`) -/

namespace Transactions

/-- A transaction object as the module handles it. -/
structure Trs where
  id : String
  senderPublicKey : String
  recipientId : String
  amount : ℚ
  blockId : Option String
  signatures : List String
  deriving DecidableEq

/-- An account of `modules.accounts`, with its multisignature settings. -/
structure Account where
  address : String
  publicKey : Option String
  balance : ℚ
  unconfirmedBalance : ℚ
  keysgroup : List String
  min : Nat
  deriving DecidableEq

/-- An element of `private.unconfirmedTransactions`: a transaction, or the
value `false` that a removal leaves in its place. -/
inductive Slot where
  | transaction (trs : Trs)
  | tombstone
  deriving DecidableEq

/-- The private fields of the module, the accounts it reaches through
`modules.accounts`, and the messages it put on the bus.  `strayUndefined`
records that the array has received the property `undefined` (with value
`false`), which happens when a removal finds no index for its id. -/
structure Module where
  unconfirmedTransactions : List Slot
  strayUndefined : Bool
  unconfirmedTransactionsIdIndex : List (String × Nat)
  doubleSpendingTransactions : List (String × Trs)
  accounts : List Account
  bus : List (Trs × Bool)
  deriving DecidableEq

/-- The collaborators `genesisblock.js` and `library.logic.transaction`, which
are not among the sources.  `process` gives the transaction its callback
receives (`none`: `undefined`); `verify`, `applyUnconfirmed` and
`undoUnconfirmed` give the error their callbacks receive, if any. -/
structure Logic where
  genesisBlockId : String
  ready : Trs → Option Account → Bool
  process : Trs → Option Account → Option Trs
  verify : Trs → Option Account → Option String
  applyUnconfirmed : List Account → Trs → Account → List Account × Option String
  undoUnconfirmed : List Account → Trs → Option Account → List Account × Option String

/-- How an asynchronous call ends: its callback is invoked with an error or
without one, or an exception escapes. -/
inductive Outcome where
  | called (err : Option String)
  | threw
  deriving DecidableEq

/-- The statement `delete m[k]`. -/
def eraseKey {α : Type} (m : List (String × α)) (k : String) : List (String × α) :=
  match m with
  | [] => []
  | (k1, v1) :: rest => if k1 = k then eraseKey rest k else (k1, v1) :: eraseKey rest k

/-- Modelled from the spec: lookup of an account by public key
(`modules.accounts.getAccountByPublicKey`, not in the sources). -/
def getAccountByPublicKey (accounts : List Account) (publicKey : String) : Option Account :=
  accounts.find? (fun a => a.publicKey = some publicKey)

/-- Modelled from the spec: get-or-create of an account by public key
(`modules.accounts.getAccountOrCreateByPublicKey`, not in the sources); a new
account has zero balances, no multisignature group and `address` for its
address. -/
def getAccountOrCreateByPublicKey (address : String → String) (accounts : List Account)
    (publicKey : String) : List Account × Account :=
  match getAccountByPublicKey accounts publicKey with
  | some a => (accounts, a)
  | none =>
    let a : Account :=
      { address := address publicKey, publicKey := some publicKey, balance := 0,
        unconfirmedBalance := 0, keysgroup := [], min := 0 }
    (accounts ++ [a], a)

/-- The method `Transactions.prototype.getUnconfirmedTransaction` (lines 444-447):
`none` is `undefined`, `some .tombstone` is `false`. -/
def getUnconfirmedTransaction (m : Module) (id : String) : Option Slot :=
  match getKey m.unconfirmedTransactionsIdIndex id with
  | some index => m.unconfirmedTransactions.get? index
  | none => if m.strayUndefined then some .tombstone else none

/-- The method `Transactions.prototype.addDoubleSpending` (lines 449-451). -/
def addDoubleSpending (m : Module) (transaction : Trs) : Module :=
  { m with
    doubleSpendingTransactions := setKey m.doubleSpendingTransactions transaction.id transaction }

/-- The method `Transactions.prototype.getUnconfirmedTransactionList` (lines 465-474). -/
def getUnconfirmedTransactionList (m : Module) (reverse : Bool) : List Trs :=
  let a := m.unconfirmedTransactions.filterMap
    (fun s => match s with
      | .transaction t => some t
      | .tombstone => none)
  if reverse then a.reverse else a

/-- The method `Transactions.prototype.removeUnconfirmedTransaction` (lines 476-480).
Without an index for the id, the assignment goes to the property `undefined`
of the array and touches no slot. -/
def removeUnconfirmedTransaction (m : Module) (id : String) : Module :=
  match getKey m.unconfirmedTransactionsIdIndex id with
  | some index =>
    { m with
      unconfirmedTransactionsIdIndex := eraseKey m.unconfirmedTransactionsIdIndex id
      unconfirmedTransactions := m.unconfirmedTransactions.set index .tombstone }
  | none =>
    { m with
      unconfirmedTransactionsIdIndex := eraseKey m.unconfirmedTransactionsIdIndex id
      strayUndefined := true }

/-- The method `Transactions.prototype.applyUnconfirmed` (lines 552-562): the new
accounts and the error handed to the callback, if any. -/
def applyUnconfirmed (lg : Logic) (address : String → String) (accounts : List Account)
    (transaction : Trs) : List Account × Option String :=
  if (getAccountByPublicKey accounts transaction.senderPublicKey).isNone ∧
      transaction.blockId ≠ some lg.genesisBlockId then
    (accounts, some ("Failed account: " ++ transaction.id))
  else
    match getAccountOrCreateByPublicKey address accounts transaction.senderPublicKey with
    | (accounts1, sender) => lg.applyUnconfirmed accounts1 transaction sender

/-- The method `Transactions.prototype.undoUnconfirmed` (lines 564-568). -/
def undoUnconfirmed (lg : Logic) (accounts : List Account) (transaction : Trs) :
    List Account × Option String :=
  lg.undoUnconfirmed accounts transaction
    (getAccountByPublicKey accounts transaction.senderPublicKey)

/-- The function `private.addUnconfirmedTransaction` (lines 428-441): the module
afterwards and the error handed to the callback, if any. -/
def addUnconfirmedTransaction (lg : Logic) (address : String → String) (m : Module)
    (transaction : Trs) : Module × Option String :=
  match applyUnconfirmed lg address m.accounts transaction with
  | (accounts1, some err) =>
    (addDoubleSpending { m with accounts := accounts1 } transaction, some err)
  | (accounts1, none) =>
    let index := m.unconfirmedTransactions.length
    ({ m with
       accounts := accounts1
       unconfirmedTransactions := m.unconfirmedTransactions ++ [Slot.transaction transaction]
       unconfirmedTransactionsIdIndex :=
         setKey m.unconfirmedTransactionsIdIndex transaction.id index }, none)

/-- The inner function `done` of `processUnconfirmedTransaction` (lines 485-499),
for the transaction the outer call received. -/
def processDone (lg : Logic) (address : String → String) (m : Module) (transaction : Trs)
    (broadcast : Bool) (err : Option String) : Module × Outcome :=
  match err with
  | some e => (m, .called (some e))
  | none =>
    match addUnconfirmedTransaction lg address m transaction with
    | (m1, some e) => (m1, .called (some e))
    | (m1, none) => ({ m1 with bus := m1.bus ++ [(transaction, broadcast)] }, .called none)

/-- The method `Transactions.prototype.processUnconfirmedTransaction` (lines 482-513). -/
def processUnconfirmedTransaction (lg : Logic) (address : String → String) (m : Module)
    (transaction : Trs) (broadcast : Bool) : Module × Outcome :=
  let sender := getAccountByPublicKey m.accounts transaction.senderPublicKey
  if ¬ lg.ready transaction sender then
    processDone lg address m transaction broadcast none
  else
    match lg.process transaction sender with
    | none => (m, .threw)
    | some processed =>
      if (getKey m.unconfirmedTransactionsIdIndex processed.id).isSome ∨
          (getKey m.doubleSpendingTransactions processed.id).isSome then
        (m, .called (some "This transaction already exists"))
      else
        processDone lg address m transaction broadcast (lg.verify processed sender)

/-- The method `Transactions.prototype.applyUnconfirmedList` (lines 515-526),
the ids taken in order.  An id whose lookup gives `undefined` makes the read of
`transaction.senderPublicKey` throw.  An id whose lookup gives `false` reads
`undefined` for every property: no account is found, the apply fails, the
removal runs, and the registry receives `false` under the key `undefined`,
which no lookup takes for a transaction and which is left out here. -/
def applyUnconfirmedList (lg : Logic) (address : String → String) :
    List String → Module → Module × Outcome
  | [], m => (m, .called none)
  | id :: ids, m =>
    match getUnconfirmedTransaction m id with
    | none => (m, .threw)
    | some .tombstone =>
      applyUnconfirmedList lg address ids (removeUnconfirmedTransaction m id)
    | some (.transaction transaction) =>
      match applyUnconfirmed lg address m.accounts transaction with
      | (accounts1, some _) =>
        applyUnconfirmedList lg address ids
          (addDoubleSpending
            (removeUnconfirmedTransaction { m with accounts := accounts1 } id) transaction)
      | (accounts1, none) =>
        applyUnconfirmedList lg address ids { m with accounts := accounts1 }

/-- How a call of `undoUnconfirmedList` ends: the callback receives an error (or
none) and the collected ids, or it is never invoked; `undone` are the ids
pushed up to then. -/
inductive UndoOutcome where
  | called (err : Option String) (ids : List String)
  | neverCalled (undone : List String)
  deriving DecidableEq

/-- The `async.eachSeries` of `undoUnconfirmedList` (lines 530-537) on the slots
still to visit.  The iterator calls its `cb` only from `undoUnconfirmed`, so at
a slot holding `false` the series never continues and the final callback never
runs; an error from `undoUnconfirmed` ends the series at once. -/
def undoSeries (lg : Logic) : List Slot → List Account → List String →
    List Account × UndoOutcome
  | [], accounts, ids => (accounts, .called none ids)
  | .tombstone :: _, accounts, ids => (accounts, .neverCalled ids)
  | .transaction transaction :: rest, accounts, ids =>
    match undoUnconfirmed lg accounts transaction with
    | (accounts1, some err) => (accounts1, .called (some err) (ids ++ [transaction.id]))
    | (accounts1, none) => undoSeries lg rest accounts1 (ids ++ [transaction.id])

/-- The method `Transactions.prototype.undoUnconfirmedList` (lines 528-538). -/
def undoUnconfirmedList (lg : Logic) (m : Module) : Module × UndoOutcome :=
  match undoSeries lg m.unconfirmedTransactions m.accounts [] with
  | (accounts1, outcome) => ({ m with accounts := accounts1 }, outcome)

end Transactions

/-! ## The Transfer handler -/

namespace Transfer

/-- Multiply by ten until the value reaches 1 (at most `fuel` times). -/
def scaleUp : Nat → ℚ → ℚ
  | 0, x => x
  | fuel + 1, x => if x < 1 then scaleUp fuel (x * 10) else x

/-- Divide by ten until the value is below 10 (at most `fuel` times). -/
def scaleDown : Nat → ℚ → ℚ
  | 0, x => x
  | fuel + 1, x => if 10 ≤ x then scaleDown fuel (x / 10) else x

/-- First significant decimal digit of a positive number. -/
def leadingDigit (x : ℚ) : Int :=
  Rat.floor (scaleDown x.num.natAbs (scaleUp x.den x))

/-- The built-in `parseInt` applied to a non-negative number: the number is
first written as a string, in plain decimal notation from 0.000001 up to (not
including) 10^21 and in exponent notation (`d.ddde-7`, `d.ddde+21`) outside
that range; then the leading run of decimal digits is read. -/
def parseIntNonneg (x : ℚ) : Int :=
  if x = 0 then 0
  else if x < 1 / 1000000 then leadingDigit x
  else if x < 1000000000000000000000 then Rat.floor x
  else leadingDigit x

/-- The built-in `parseInt` applied to a number. -/
def parseInt (x : ℚ) : Int :=
  if x < 0 then - parseIntNonneg (- x) else parseIntNonneg x

/-- The method `Transfer.calculateFee` (lines 32-35); `blockFee` is what
`library.logic.block.calculateFee()` returns. -/
def calculateFee (blockFee : ℚ) (trs : Transactions.Trs) : Int :=
  let fee := parseInt (trs.amount / 100 * blockFee)
  if fee = 0 then 1 else fee

end Transfer

/-! ## Notions used in the statements about the pool -/

namespace Transactions

/-- The ids held in the non-tombstoned slots, in slot order. -/
def liveIds (m : Module) : List String :=
  (getUnconfirmedTransactionList m false).map (fun t => t.id)

/-- The errors (or none) of the unconfirmed applies of a list of transactions
taken in order, each on the accounts the previous one left. -/
def applyResults (lg : Logic) (address : String → String) :
    List Trs → List Account → List (Option String)
  | [], _ => []
  | t :: ts, accounts =>
    (applyUnconfirmed lg address accounts t).2 ::
      applyResults lg address ts (applyUnconfirmed lg address accounts t).1

/-- The accounts after the unconfirmed applies of a list of transactions taken
in order. -/
def applyAccounts (lg : Logic) (address : String → String) :
    List Trs → List Account → List Account
  | [], accounts => accounts
  | t :: ts, accounts =>
    applyAccounts lg address ts (applyUnconfirmed lg address accounts t).1

end Transactions

/-! ## Examples for blockFromJSON, addGenesisBlock and the pool -/

namespace Example

/-- A JSON text with a version and nothing else. -/
def versionOnly : String := "\x7b\"version\":1\x7d"

/-- A stand-in for `JSON.parse` that knows two texts: `versionOnly` and `null`. -/
def jsonParse (s : String) : Option Json :=
  if s = versionOnly then some (.obj [("version", .num 1)])
  else if s = "null" then some .null
  else none

/-- A genesis setup in which the signature verifies, the analysis succeeds and
the store reports no error. -/
def genesis : GenesisEnv :=
  { blockId := "g", transactionId := "gt", verify := true, getId := "g",
    analyze := fun _ => true, writeBlockError := none, writeTransactionError := none }

/-- A chain without blocks. -/
def emptyChain : State :=
  { blocks := [], lastBlock := none, ledger := ledgerWith 0, unconfirmedAddresses := [],
    db := [] }

/-- The state after the first genesis bootstrap on `emptyChain`. -/
def bootstrapped : State :=
  { emptyChain with
    lastBlock := some "g"
    db := [StoreOp.writeBlock "g", StoreOp.writeTransaction "gt"] }

end Example

namespace Transactions.Example

/-- A transfer of the sender with key `k1`. -/
def trs (id : String) (amount : ℚ) : Trs :=
  { id := id, senderPublicKey := "k1", recipientId := "2C", amount := amount,
    blockId := none, signatures := [] }

/-- The sender: unconfirmed balance 50. -/
def sender : Account :=
  { address := "1C", publicKey := some "k1", balance := 50, unconfirmedBalance := 50,
    keysgroup := [], min := 0 }

/-- A logic layer whose unconfirmed apply debits the sender's unconfirmed
balance by the amount and fails when it does not suffice; every transaction
is ready and verifies. -/
def logic : Logic :=
  { genesisBlockId := "g"
    ready := fun _ _ => true
    process := fun t _ => some t
    verify := fun _ _ => none
    applyUnconfirmed := fun accounts t s =>
      if s.unconfirmedBalance < t.amount then (accounts, some "INSUFFICIENT_FUNDS")
      else
        (updateFirst (fun a => a.publicKey = s.publicKey)
          (fun a => { a with unconfirmedBalance := a.unconfirmedBalance - t.amount })
          accounts, none)
    undoUnconfirmed := fun accounts t _ =>
      (updateFirst (fun a => a.publicKey = some t.senderPublicKey)
        (fun a => { a with unconfirmedBalance := a.unconfirmedBalance + t.amount })
        accounts, none) }

/-- As `logic`, but no transaction is ready and none verifies. -/
def pendingLogic : Logic :=
  { logic with
    ready := fun _ _ => false
    verify := fun _ _ => some "INVALID_SIGNATURE" }

/-- Address of a new account. -/
def address (publicKey : String) : String := publicKey ++ "C"

/-- The module before any transaction arrived. -/
def emptyModule : Module :=
  { unconfirmedTransactions := [], strayUndefined := false,
    unconfirmedTransactionsIdIndex := [], doubleSpendingTransactions := [],
    accounts := [sender], bus := [] }

/-- A pool with three slots, the middle one emptied by a removal. -/
def holedModule : Module :=
  { emptyModule with
    unconfirmedTransactions :=
      [Slot.transaction (trs "a" 10), Slot.tombstone, Slot.transaction (trs "c" 5)]
    unconfirmedTransactionsIdIndex := [("a", 0), ("c", 2)] }

/-- A pool holding a transfer of 45 and a transfer of 10 of the same sender. -/
def pooledModule : Module :=
  { emptyModule with
    unconfirmedTransactions := [Slot.transaction (trs "big" 45), Slot.transaction (trs "a" 10)]
    unconfirmedTransactionsIdIndex := [("big", 0), ("a", 1)] }

/-- A module whose double-spend registry already holds the id `a`. -/
def spentModule : Module :=
  { emptyModule with doubleSpendingTransactions := [("a", trs "a" 70)] }

/-- The module after `trs "a" 10` was admitted once from `emptyModule`. -/
def onceModule : Module :=
  { emptyModule with
    unconfirmedTransactions := [Slot.transaction (trs "a" 10)]
    unconfirmedTransactionsIdIndex := [("a", 0)]
    accounts := [{ sender with unconfirmedBalance := 40 }]
    bus := [(trs "a" 10, true)] }

/-- The module after `trs "a" 10` was admitted a second time. -/
def twiceModule : Module :=
  { emptyModule with
    unconfirmedTransactions := [Slot.transaction (trs "a" 10), Slot.transaction (trs "a" 10)]
    unconfirmedTransactionsIdIndex := [("a", 1)]
    accounts := [{ sender with unconfirmedBalance := 30 }]
    bus := [(trs "a" 10, true), (trs "a" 10, true)] }

end Transactions.Example

/-! ## The Transfer handler: verify, apply, undo, ready -/

namespace Transfer

/-- The method `String.prototype.toLowerCase`, on the letters A to Z.  No
character outside them lower-cases to a digit, to `c` or to the bar, which is
all the pattern of `verify` looks for. -/
def toLowerCase (s : String) : String :=
  ⟨s.data.map Char.toLower⟩

/-- The class `[C|c]` of the pattern: within brackets the bar stands for
itself, so the class holds the letter in both cases and the bar. -/
def inClass (c : Char) : Bool :=
  c = 'C' || c = '|' || c = 'c'

/-- The pattern after its first digit: `[0-9]*[C|c]$`.  Digits and the class
are disjoint, so the last character alone has to be in the class. -/
def afterDigit : List Char → Bool
  | [] => false
  | [c] => inClass c
  | c :: rest => c.isDigit && afterDigit rest

/-- The test `/^[0-9]+[C|c]$/g.test(s)` on the newly made pattern of line 38. -/
def isAddress (s : String) : Bool :=
  match s.data with
  | [] => false
  | c :: rest => c.isDigit && afterDigit rest

/-- What the callback of `verify` receives: an error, named by the key handed
to `errorCode`, or no error and the transaction. -/
inductive Verified where
  | error (code : String)
  | ok (trs : Transactions.Trs)
  deriving DecidableEq

/-- The method `Transfer.verify` (lines 37-48). -/
def verify (trs : Transactions.Trs) (_sender : Option Transactions.Account) : Verified :=
  if ¬ isAddress (toLowerCase trs.recipientId) then .error "TRANSACTIONS.INVALID_RECIPIENT"
  else if trs.amount ≤ 0 then .error "TRANSACTIONS.INVALID_AMOUNT"
  else .ok trs

/-- Modelled from the spec: lookup of an account by address
(`modules.accounts.getAccountByAddress`, not in the sources). -/
def getAccountByAddress (accounts : List Transactions.Account) (address : String) :
    Option Transactions.Account :=
  accounts.find? (fun a => a.address = address)

/-- Modelled from the spec: get-or-create of an account by address
(`modules.accounts.getAccountOrCreateByAddress`, not in the sources); a new
account has zero balances, no public key and no multisignature group. -/
def getAccountOrCreateByAddress (accounts : List Transactions.Account) (address : String) :
    List Transactions.Account × Transactions.Account :=
  match getAccountByAddress accounts address with
  | some a => (accounts, a)
  | none =>
    let a : Transactions.Account :=
      { address := address, publicKey := none, balance := 0, unconfirmedBalance := 0,
        keysgroup := [], min := 0 }
    (accounts ++ [a], a)

/-- Modelled from the spec: the account method `addToUnconfirmedBalance` (not in
the sources), called on the account object of this address. -/
def addToUnconfirmedBalance (accounts : List Transactions.Account) (address : String)
    (amount : ℚ) : List Transactions.Account :=
  updateFirst (fun a => a.address = address)
    (fun a => { a with unconfirmedBalance := a.unconfirmedBalance + amount }) accounts

/-- Modelled from the spec: the account method `addToBalance` (not in the
sources), called on the account object of this address. -/
def addToBalance (accounts : List Transactions.Account) (address : String)
    (amount : ℚ) : List Transactions.Account :=
  updateFirst (fun a => a.address = address)
    (fun a => { a with balance := a.balance + amount }) accounts

/-- The method `Transfer.apply` (lines 58-65): the accounts afterwards and the
error handed to the callback (always none). -/
def apply (accounts : List Transactions.Account) (trs : Transactions.Trs)
    (_sender : Option Transactions.Account) : List Transactions.Account × Option String :=
  match getAccountOrCreateByAddress accounts trs.recipientId with
  | (accounts1, recipient) =>
    let accounts2 := addToUnconfirmedBalance accounts1 recipient.address trs.amount
    let accounts3 := addToBalance accounts2 recipient.address trs.amount
    (accounts3, none)

/-- The method `Transfer.undo` (lines 67-74). -/
def undo (accounts : List Transactions.Account) (trs : Transactions.Trs)
    (_sender : Option Transactions.Account) : List Transactions.Account × Option String :=
  match getAccountOrCreateByAddress accounts trs.recipientId with
  | (accounts1, recipient) =>
    let accounts2 := addToUnconfirmedBalance accounts1 recipient.address (- trs.amount)
    let accounts3 := addToBalance accounts2 recipient.address (- trs.amount)
    (accounts3, none)

/-- The method `Transfer.applyUnconfirmed` (lines 76-78): it only calls back. -/
def applyUnconfirmed (accounts : List Transactions.Account) (_trs : Transactions.Trs)
    (_sender : Option Transactions.Account) : List Transactions.Account × Option String :=
  (accounts, none)

/-- The method `Transfer.undoUnconfirmed` (lines 80-82): it only calls back. -/
def undoUnconfirmed (accounts : List Transactions.Account) (_trs : Transactions.Trs)
    (_sender : Option Transactions.Account) : List Transactions.Account × Option String :=
  (accounts, none)

/-- The method `Transfer.ready` (lines 96-102). -/
def ready (trs : Transactions.Trs) (sender : Transactions.Account) : Bool :=
  if sender.keysgroup.length ≠ 0 then decide (trs.signatures.length ≥ sender.min)
  else true

/-- A string has the address format: one or more decimal digits, then one
letter C in either case, and nothing else. -/
@[reducible] def addressFormat (s : String) : Prop :=
  ∃ ds : List Char, ds ≠ [] ∧ (∀ d ∈ ds, d.isDigit = true) ∧
    (s.data = ds ++ ['C'] ∨ s.data = ds ++ ['c'])

/-- The strings the pattern of `verify` accepts: one or more decimal digits,
then one character out of C, c and the bar. -/
@[reducible] def patternFormat (s : String) : Prop :=
  ∃ (ds : List Char) (c : Char), ds ≠ [] ∧ (∀ d ∈ ds, d.isDigit = true) ∧
    (c = 'C' ∨ c = 'c' ∨ c = '|') ∧ s.data = ds ++ [c]

end Transfer

namespace Transfer.Example

/-- A transfer of amount 1 whose recipient is written with a bar in place of
the letter. -/
def barTrs : Transactions.Trs :=
  { id := "a", senderPublicKey := "k1", recipientId := "1|", amount := 1, blockId := none,
    signatures := [] }

/-- The recipient of the example transfers, with balance 7 and unconfirmed
balance 3. -/
def recipient : Transactions.Account :=
  { address := "2C", publicKey := none, balance := 7, unconfirmedBalance := 3,
    keysgroup := [], min := 0 }

/-- The recipient after a credit of 10 to both balances. -/
def creditedRecipient : Transactions.Account :=
  { recipient with balance := 17, unconfirmedBalance := 13 }

/-- An account that has never been credited: what get-or-create makes of the
address 2C. -/
def newRecipient : Transactions.Account :=
  { address := "2C", publicKey := none, balance := 0, unconfirmedBalance := 0,
    keysgroup := [], min := 0 }

/-- A sender under a two-key multisignature group that asks for two signatures. -/
def groupSender : Transactions.Account :=
  { Transactions.Example.sender with keysgroup := ["k2", "k3"], min := 2 }

end Transfer.Example

/-! ## Notions used in the statements about account records -/

/-- The account records that `n` calls of the record decoder deliver from the
cursor `off`, in the order met. -/
def decodeAddresses (env : Env) (buffer : List UInt8) :
    Nat → Nat → Option (List AddressRecord × Nat)
  | 0, off => some ([], off)
  | n + 1, off =>
    match env.addressFromByteBuffer buffer off with
    | none => none
    | some (addr, off1) =>
      match decodeAddresses env buffer n off1 with
      | none => none
      | some (rs, off2) => some (addr :: rs, off2)

/-- The account records embedded in a buffer, in the order met: those the
record decoder delivers in numberOfAddresses calls on the cursor that the
header and the transactions left. -/
def embeddedAddresses (env : Env) (buffer : List UInt8) : Option (List AddressRecord) :=
  match decodeHeader env.float64 buffer with
  | none => none
  | some (h, off) =>
    match readTransactions env buffer h.numberOfTransactions.toNat off with
    | none => none
    | some (_, off1) =>
      match decodeAddresses env buffer h.numberOfAddresses.toNat off1 with
      | none => none
      | some (rs, _) => some rs

/-- The map `b.addresses` after the records of a list were stored under their
ids one after the other, each with the block id. -/
def storeAddresses (blockId : String) :
    List AddressRecord → List (String × AddressRecord) → List (String × AddressRecord)
  | [], m => m
  | r :: rs, m => storeAddresses blockId rs (setKey m r.id { r with blockId := some blockId })

/-- The number of records of a list that pass, counted in order up to the
first one that fails. -/
def passedBeforeFailure (curTime : Int) (records : List AddressRecord) : Nat :=
  (records.takeWhile (fun r => !addressFails curTime r)).length

namespace Example

/-- A 236-byte header as `header`, for a block without transactions that
declares `addresses` account records in a payload of `payloadLength` bytes. -/
def addressHeader (addresses payloadLength : UInt8) : List UInt8 :=
  [1, 0, 0, 0] ++ [5, 0, 0, 0] ++ [0, 0, 0, 0, 0, 0, 0, 7] ++ [addresses, 0, 0, 0] ++
  [0, 0, 0, 0] ++ [0, 0, 0, 0, 0, 0, 0, 0] ++ [0, 0, 0, 0, 0, 0, 0, 0] ++
  [payloadLength, 0, 0, 0] ++ List.replicate 32 0 ++ List.replicate 32 0 ++
  List.replicate 64 0 ++ List.replicate 64 0

/-- The record the codec reads from the bytes `id` and `timestamp`. -/
def record (id timestamp : UInt8) : AddressRecord :=
  { id := toString id.toNat, timestamp := timestamp.toNat, verify := true,
    accountVerify := true, blockId := none }

/-- The block object that `addressHeader` and the given map of records decode
to on `chain`. -/
def addressBlock (addresses payloadLength : UInt8)
    (records : List (String × AddressRecord)) : Block :=
  { header :=
      { version := 1, timestamp := 5, previousBlock := "7",
        numberOfAddresses := addresses.toNat, numberOfTransactions := 0, totalAmount := 0,
        totalFee := 0, payloadLength := payloadLength.toNat,
        payloadHash := List.replicate 32 0, generatorPublicKey := List.replicate 32 0,
        generationSignature := List.replicate 64 0, blockSignature := List.replicate 64 0 }
    index := 2
    transactions := []
    addresses := records
    forForger := 0 }

/-- Two account records with the ids 8 and 9, both valid at time 10. -/
def recordsBuffer : List UInt8 :=
  addressHeader 2 4 ++ [8, 3] ++ [9, 4]

/-- The block `recordsBuffer` decodes to. -/
def recordsBlock : Block :=
  addressBlock 2 4
    [("8", { record 8 3 with blockId := some "b7" }),
     ("9", { record 9 4 with blockId := some "b7" })]

/-- Two account records that share the id 9. -/
def twinBuffer : List UInt8 :=
  addressHeader 2 4 ++ [9, 3] ++ [9, 4]

/-- The block `twinBuffer` decodes to: the second record took the place of the
first in the map. -/
def twinBlock : Block :=
  addressBlock 2 4 [("9", { record 9 4 with blockId := some "b7" })]

/-- Two account records, the second with timestamp 11. -/
def staleBuffer : List UInt8 :=
  addressHeader 2 4 ++ [8, 3] ++ [9, 11]

/-- The block `staleBuffer` decodes to. -/
def staleBlock : Block :=
  addressBlock 2 4
    [("8", { record 8 3 with blockId := some "b7" }),
     ("9", { record 9 11 with blockId := some "b7" })]

end Example

/-! ## Registration of an accepted block -/

/-- Modelled from the spec: a block that was accepted is added to the chain, so
that it is found under its id and is the block the last-block pointer names.
The sources read the map `this.blocks` (lines 24, 28 and 162) and never write
it; the write belongs to code that is not among them.  `registerBlock` is that
write, `this.blocks[id] = block`, made on the state a call leaves. -/
def registerBlock (st : State) (id : String) (block : ChainBlock) : State :=
  { st with blocks := setKey st.blocks id block }

/-- What `pushBlock` reads of a block with the given header once it is in the
map: its previous block and its timestamp. -/
def chainBlockOf (h : BlockHeader) : ChainBlock :=
  { previousBlock := some h.previousBlock, timestamp := h.timestamp }

/-- The block `addGenesisBlock` builds (line 370): timestamp 0 and `null` for
the previous block. -/
def genesisChainBlock : ChainBlock :=
  { previousBlock := none, timestamp := 0 }

namespace Example

/-- The state `acceptedEmpty` with the accepted block in the blocks map. -/
def registeredEmpty : State :=
  registerBlock acceptedEmpty "b7" { previousBlock := some "7", timestamp := 5 }

/-- The state `bootstrapped` with the genesis block in the blocks map. -/
def registeredGenesis : State :=
  registerBlock bootstrapped "g" genesisChainBlock

/-- Wire bytes of a transfer of the sender key 2, which is on no ledger of the
examples: id 1, type 0, deadline 10, amount 10, fee 1. -/
def strangerBytes : List UInt8 :=
  [1, 0, 0, 4, 10, 2, 10, 1]

/-- The transaction the codec reads from `strangerBytes`. -/
def stranger : Transaction :=
  { transfer 1 0 10 10 1 with senderPublicKey := [2], bytes := strangerBytes }

/-- Two transfers: the first of the unknown sender key 2, the second of the
known sender with deadline 25. -/
def strangerBuffer : List UInt8 :=
  header 2 30 3 16 81 ++ strangerBytes ++ transferBytes 2 1 25 20 2

/-- The block `strangerBuffer` decodes to. -/
def strangerBlock : Block :=
  blockOf 2 30 3 16 81 [stranger, transfer 2 1 25 20 2]

end Example

namespace Transactions.Example

/-- The module after `trs "a" 30` was admitted once from `emptyModule`: the
sender's unconfirmed balance is down to 20. -/
def admittedModule : Module :=
  { emptyModule with
    unconfirmedTransactions := [Slot.transaction (trs "a" 30)]
    unconfirmedTransactionsIdIndex := [("a", 0)]
    accounts := [{ sender with unconfirmedBalance := 20 }]
    bus := [(trs "a" 30, true)] }

/-- The module after the unconfirmed apply of `trs "a" 30` failed on
`admittedModule`: the pool is as before and the registry holds the id. -/
def refusedModule : Module :=
  { admittedModule with doubleSpendingTransactions := [("a", trs "a" 30)] }

end Transactions.Example

/-! ## Header decoding -/

theorem toUint8_readByte (b : UInt8) :
    toUint8 (if b.toNat < 128 then (b.toNat : Int) else (b.toNat : Int) - 256) = b := by
  have h := b.toNat_lt
  apply UInt8.ext
  unfold toUint8
  rw [UInt8.toNat_ofNat_of_lt]
  · split <;> omega
  · have : UInt8.size = 256 := rfl
    omega

theorem readByteLoop_eq (buf : List UInt8) (n off : Nat) (h : off + n ≤ buf.length) :
    readByteLoop buf n off = some (byteSlice buf off n, off + n) := by
  induction n generalizing off with
  | zero => simp [readByteLoop, byteSlice]
  | succ n ih =>
    have h1 : off < buf.length := by omega
    have h2 : buf.get? off = some buf[off] := by simp [List.get?_eq_getElem?, h1]
    rw [readByteLoop, readByte, h2]
    simp only []
    rw [ih (off + 1) (by omega), toUint8_readByte]
    simp only [byteSlice]
    rw [List.drop_eq_getElem_cons h1, List.take_succ_cons]
    simp [Nat.add_assoc, Nat.add_comm 1 n]

/-! ## The legality walk -/

theorem walkBreaks_of_timeOrFeeIllegal (l : Ledger) (curTime blockTimestamp : Int)
    (t : Transaction) (h : timeOrFeeIllegal curTime blockTimestamp t) :
    walkBreaks l curTime blockTimestamp t = true := by
  unfold timeOrFeeIllegal at h
  have h3600 : t.deadline * 60 * 60 = t.deadline * 3600 := by ring
  simp only [walkBreaks, Bool.or_eq_true, decide_eq_true_eq, h3600]
  tauto

theorem walk_stops (l : Ledger) (curTime blockTimestamp : Int) (t : Transaction)
    (post : List Transaction)
    (ht : walkBreaks l curTime blockTimestamp t = true ∨ (senderKnown l t ∧ ¬ legalType t)) :
    ∀ (pre : List Transaction) (w : WalkState), (∀ u ∈ pre, senderKnown l u) →
      ∃ w1, walk l curTime blockTimestamp (pre ++ t :: post) w = some w1 ∧
        w1.i ≤ w.i + pre.length := by
  intro pre
  induction pre with
  | nil =>
    intro w _
    simp only [List.nil_append, List.length_nil, Nat.add_zero]
    unfold walk
    by_cases hb : walkBreaks l curTime blockTimestamp t = true
    · exact ⟨w, by simp [hb], Nat.le_refl _⟩
    · have hk : senderKnown l t ∧ ¬ legalType t := by
        rcases ht with h | h
        · exact absurd h hb
        · exact h
      obtain ⟨sender, hsender⟩ := Option.isSome_iff_exists.mp hk.1
      have hl := hk.2
      unfold legalType at hl
      simp only [hb, hsender]
      by_cases h0 : t.type = 0 <;> by_cases h1 : t.type = 1 <;>
        by_cases hs : t.subtype = 0 <;> simp_all
  | cons u pre ih =>
    intro w hs
    have hu : senderKnown l u := hs u (List.mem_cons_self _ _)
    have hrest : ∀ v ∈ pre, senderKnown l v := fun v hv => hs v (List.mem_cons_of_mem _ hv)
    obtain ⟨sender, hsender⟩ := Option.isSome_iff_exists.mp hu
    simp only [List.cons_append, List.length_cons]
    unfold walk
    by_cases hb : walkBreaks l curTime blockTimestamp u = true
    · exact ⟨w, by simp [hb], by omega⟩
    · simp only [hb, hsender]
      by_cases h0 : u.type = 0
      · by_cases hsub : u.subtype = 0
        · simp only [h0, hsub, if_true]
          obtain ⟨w1, hw1, hi⟩ := ih _ hrest
          exact ⟨w1, hw1, by simp only [] at hi; omega⟩
        · simp [h0, hsub]
      · by_cases h1 : u.type = 1
        · by_cases hsub : u.subtype = 0
          · simp only [h0, h1, hsub, if_true, if_false]
            obtain ⟨w1, hw1, hi⟩ := ih _ hrest
            exact ⟨w1, hw1, by simp only [] at hi; omega⟩
          · simp [h0, h1, hsub]
        · simp [h0, h1]

theorem getKey_setKey {α : Type} (m : List (String × α)) (k k1 : String) (v : α) :
    getKey (setKey m k v) k1 = if k = k1 then some v else getKey m k1 := by
  induction m with
  | nil =>
    by_cases h : k = k1 <;> simp [setKey, getKey, h]
  | cons p rest ih =>
    obtain ⟨k2, v2⟩ := p
    by_cases h2 : k2 = k
    · subst h2
      by_cases h : k2 = k1 <;> simp [setKey, getKey, h]
    · by_cases h : k2 = k1
      · subst h
        have h3 : ¬ k = k2 := fun e => h2 e.symm
        simp [setKey, getKey, h2, h3]
      · simp [setKey, getKey, h2, h, ih]

theorem getKey_accumulate (acc : List (String × ℚ)) (a a1 : String) (v : ℚ) :
    getKey (accumulate acc a v) a1 =
      if a = a1 then some ((getKey acc a).getD 0 + v) else getKey acc a1 := by
  unfold accumulate
  cases hg : getKey acc a with
  | none =>
    simp only [getKey_setKey, if_true, Option.getD_some, Option.getD_none]
    by_cases h : a = a1
    · simp only [h, if_true]
    · simp only [h, if_false]
  | some x =>
    by_cases hx : x = 0
    · simp only [hx, if_true, getKey_setKey, Option.getD_some]
      by_cases h : a = a1
      · simp only [h, if_true]
      · simp only [h, if_false]
    · simp only [hx, if_false, getKey_setKey, hg, Option.getD_some]

theorem walk_complete (l : Ledger) (curTime blockTimestamp : Int) :
    ∀ (ts : List Transaction) (w w1 : WalkState),
      walk l curTime blockTimestamp ts w = some w1 → w1.i = w.i + ts.length →
      (∀ t ∈ ts, walkBreaks l curTime blockTimestamp t = false ∧ senderKnown l t ∧
        legalType t) ∧
      w1.calculatedTotalAmount = w.calculatedTotalAmount + (ts.map (fun t => t.amount)).sum ∧
      w1.calculatedTotalFee = w.calculatedTotalFee + (ts.map (fun t => t.fee)).sum ∧
      w1.forForger = w.forForger +
        ((ts.filter (fun t => t.type = 1)).map (fun t => t.fee / 2)).sum ∧
      (∀ a, (getKey w1.accumulatedAmounts a).getD 0 =
        (getKey w.accumulatedAmounts a).getD 0 + debitTotal l a ts) ∧
      ∀ a, ((getKey w.accumulatedAmounts a).isSome = true ∨
          ∃ t ∈ ts, senderAddress l t = some a) →
        (getKey w1.accumulatedAmounts a).isSome = true := by
  intro ts
  induction ts with
  | nil =>
    intro w w1 h _
    simp only [walk, Option.some.injEq] at h
    subst h
    simp [debitTotal]
  | cons t ts ih =>
    intro w w1 h hi
    simp only [List.length_cons] at hi
    unfold walk at h
    by_cases hb : walkBreaks l curTime blockTimestamp t = true
    · simp only [hb, if_true, Option.some.injEq] at h
      subst h; omega
    · have hbf : walkBreaks l curTime blockTimestamp t = false := by simpa using hb
      simp only [hbf, Bool.false_eq_true, if_false] at h
      cases hsender : getAccountByPublicKey l t.senderPublicKey with
      | none => simp [hsender] at h
      | some sender =>
        have hk : senderKnown l t := by simp [senderKnown, hsender]
        have haddr : senderAddress l t = some sender.address := by
          simp [senderAddress, hsender]
        simp only [hsender] at h
        have hstep : legalType t ∧
            walk l curTime blockTimestamp ts
              { i := w.i + 1
                calculatedTotalAmount := w.calculatedTotalAmount + t.amount
                calculatedTotalFee := w.calculatedTotalFee + t.fee
                forForger := w.forForger + (if t.type = 1 then t.fee / 2 else 0)
                accumulatedAmounts :=
                  accumulate w.accumulatedAmounts sender.address (t.amount + t.fee) }
              = some w1 := by
          by_cases h0 : t.type = 0
          · by_cases hsub : t.subtype = 0
            · simp only [h0, hsub, if_true] at h
              have h1 : ¬ t.type = 1 := by omega
              refine ⟨⟨Or.inl h0, hsub⟩, ?_⟩
              rw [← h]; simp [h0]
            · simp [h0, hsub] at h
              rw [← h] at hi; simp only [] at hi; omega
          · by_cases h1 : t.type = 1
            · by_cases hsub : t.subtype = 0
              · simp [h1, hsub] at h
                refine ⟨⟨Or.inr h1, hsub⟩, ?_⟩
                rw [← h]; simp [h1]
              · simp [h1, hsub] at h
                rw [← h] at hi; simp only [] at hi; omega
            · simp [h0, h1] at h
              rw [← h] at hi; simp only [] at hi; omega
        obtain ⟨hlegal, hw2⟩ := hstep
        obtain ⟨hall, hamt, hfee, hforger, hdebit, hkeys⟩ :=
          ih _ w1 hw2 (by simp only []; omega)
        simp only [] at hamt hfee hforger hdebit hkeys
        refine ⟨?_, ?_, ?_, ?_, ?_, ?_⟩
        · intro u hu
          rcases List.mem_cons.mp hu with rfl | hu
          · exact ⟨hbf, hk, hlegal⟩
          · exact hall u hu
        · rw [hamt]; simp only [List.map_cons, List.sum_cons]; ring
        · rw [hfee]; simp only [List.map_cons, List.sum_cons]; ring
        · rw [hforger]
          by_cases h1 : t.type = 1
          · simp only [h1, if_true, List.filter_cons, decide_True, List.map_cons, List.sum_cons]
            ring
          · simp only [h1, if_false, List.filter_cons, decide_False, add_zero]
            simp
        · intro a
          rw [hdebit a, getKey_accumulate]
          unfold debitTotal
          by_cases ha1 : sender.address = a
          · subst ha1
            simp only [if_true, Option.getD_some, List.filter_cons, haddr, decide_True,
              List.map_cons, List.sum_cons]
            ring
          · have hne : ¬ some sender.address = some a := fun e => ha1 (Option.some.inj e)
            simp only [ha1, if_false, List.filter_cons, haddr, hne, decide_False]
            simp
        · intro a ha
          apply hkeys a
          rw [getKey_accumulate]
          by_cases ha1 : sender.address = a
          · simp [ha1]
          · simp only [ha1, if_false]
            rcases ha with ha | ⟨u, hu, hua⟩
            · exact Or.inl ha
            · rcases List.mem_cons.mp hu with rfl | hu
              · rw [haddr] at hua
                exact absurd (Option.some.inj hua) ha1
              · exact Or.inr ⟨u, hu, hua⟩

theorem checkBalances_true (l : Ledger) :
    ∀ acc : List (String × ℚ), checkBalances l acc = some true →
      ∀ a v, getKey acc a = some v →
        ∃ account, getAccountById l a = some account ∧ v ≤ account.balance := by
  intro acc
  induction acc with
  | nil => intro _ a v h; simp [getKey] at h
  | cons p rest ih =>
    obtain ⟨k, x⟩ := p
    intro h a v hg
    unfold checkBalances at h
    cases hacc : getAccountById l k with
    | none => simp [hacc] at h
    | some account =>
      simp only [hacc] at h
      by_cases hlt : account.balance < x
      · simp [hlt] at h
      · simp only [hlt, if_false] at h
        unfold getKey at hg
        by_cases hk : k = a
        · simp only [hk, if_true, Option.some.injEq] at hg
          subst hg; subst hk
          exact ⟨account, hacc, not_lt.mp hlt⟩
        · simp only [hk, if_false] at hg
          exact ih h a v hg

/-! ## Phases of pushBlock -/

theorem loadBlock_exit (env : Env) (curTime : Int) (st : State) (buffer : List UInt8)
    (o : Outcome) (h : loadBlock env curTime st buffer = .exit o) :
    o ≠ .returned true := by
  unfold loadBlock at h
  repeat' split at h
  all_goals first
    | (injection h with h; subst h; simp)
    | cases h

theorem validate_exit (env : Env) (curTime : Int) (st : State) (buffer : List UInt8)
    (o : Outcome) (h : validate env curTime st buffer = .exit o) :
    o ≠ .returned true := by
  unfold validate at h
  split at h
  · rename_i o1 hl
    injection h with h; subst h
    exact loadBlock_exit env curTime st buffer _ hl
  · repeat' split at h
    all_goals first
      | (injection h with h; subst h; simp)
      | cases h

theorem validate_next (env : Env) (curTime : Int) (st : State) (buffer : List UInt8)
    (b1 : Block) (h : validate env curTime st buffer = .next b1) :
    ∃ b w, loadBlock env curTime st buffer = .next b ∧
      (countAddresses curTime b.addresses : Int) = b.header.numberOfAddresses ∧
      walk st.ledger curTime b.header.timestamp b.transactions walkStart = some w ∧
      w.calculatedTotalAmount = b.header.totalAmount ∧
      w.calculatedTotalFee = b.header.totalFee ∧
      w.i = b.transactions.length ∧
      payloadDigest env b.transactions = b.header.payloadHash ∧
      checkBalances st.ledger w.accumulatedAmounts = some true ∧
      env.analyze st { b with forForger := w.forForger } = true ∧
      b1 = { b with forForger := w.forForger } := by
  unfold validate at h
  cases hl : loadBlock env curTime st buffer with
  | exit o => simp [hl] at h
  | next b =>
    simp only [hl] at h
    by_cases hc : (countAddresses curTime b.addresses : Int) ≠ b.header.numberOfAddresses
    · simp [hc] at h
    · simp only [hc, if_false] at h
      cases hw : walk st.ledger curTime b.header.timestamp b.transactions walkStart with
      | none => simp [hw] at h
      | some w =>
        simp only [hw] at h
        by_cases ht : w.calculatedTotalAmount ≠ b.header.totalAmount ∨
            w.calculatedTotalFee ≠ b.header.totalFee ∨ w.i ≠ b.transactions.length
        · simp [ht] at h
        · simp only [ht, if_false] at h
          by_cases hp : payloadDigest env b.transactions ≠ b.header.payloadHash
          · simp [hp] at h
          · simp only [hp, if_false] at h
            cases hbal : checkBalances st.ledger w.accumulatedAmounts with
            | none => simp [hbal] at h
            | some r =>
              cases r with
              | false => simp [hbal] at h
              | true =>
                simp only [hbal] at h
                by_cases ha : ¬ env.analyze st { b with forForger := w.forForger } = true
                · simp [ha] at h
                · simp only [ha, if_false] at h
                  injection h with h
                  push_neg at hc ht hp ha
                  exact ⟨b, w, rfl, hc, hw, ht.1, ht.2.1, ht.2.2, hp, hbal, ha, h.symm⟩

theorem loadBlock_next (env : Env) (curTime : Int) (st : State) (buffer : List UInt8)
    (b : Block) (hl : loadBlock env curTime st buffer = .next b) :
    (∃ off, decodeHeader env.float64 buffer = some (b.header, off)) ∧
      getBlock st (env.getId b.header) = none ∧
      ∃ last, getLastBlock st = some last ∧
        last.previousBlock ≠ some b.header.previousBlock := by
  unfold loadBlock at hl
  cases hd : decodeHeader env.float64 buffer with
  | none => simp [hd] at hl
  | some p =>
    obtain ⟨h, off⟩ := p
    simp only [hd] at hl
    cases hlast : getLastBlock st with
    | none => simp [hlast] at hl
    | some last =>
      simp only [hlast] at hl
      by_cases h1 : last.previousBlock = some h.previousBlock
      · rw [if_pos h1] at hl; cases hl
      · rw [if_neg h1] at hl
        by_cases h2 : h.timestamp > curTime ∨ h.timestamp < last.timestamp
        · rw [if_pos h2] at hl; cases hl
        · rw [if_neg h2] at hl
          by_cases h3 : h.payloadLength > env.maxPayloadLength ∨
              h.payloadLength + env.blockHeaderLength ≠ (buffer.length : Int)
          · rw [if_pos h3] at hl; cases hl
          · rw [if_neg h3] at hl
            by_cases h4 : (getBlock st (env.getId h)).isSome ∨
                ¬ env.verifyGenerationSignature st h ∨ ¬ env.verifyBlockSignature st h
            · rw [if_pos h4] at hl; cases hl
            · rw [if_neg h4] at hl
              cases htx : readTransactions env buffer h.numberOfTransactions.toNat off with
              | none => simp [htx] at hl
              | some q =>
                obtain ⟨txs, off1⟩ := q
                simp only [htx] at hl
                cases had : readAddresses env buffer (env.getId h)
                    h.numberOfAddresses.toNat off1 [] with
                | none => simp [had] at hl
                | some r =>
                  obtain ⟨addrs, off2⟩ := r
                  simp only [had] at hl
                  injection hl with hl
                  subst hl
                  simp only [not_or] at h4
                  refine ⟨⟨off, rfl⟩, ?_, last, rfl, h1⟩
                  cases hg : getBlock st (env.getId h) with
                  | none => rfl
                  | some x => simp [hg] at h4

theorem commit_returned_false (env : Env) (curTime : Int) (st st1 : State) (b : Block)
    (h : commit env curTime st b = (st1, .returned false)) :
    st1.blocks = st.blocks ∧ st1.lastBlock = st.lastBlock ∧ st1.db = st.db ∧
      st1.unconfirmedAddresses = st.unconfirmedAddresses := by
  unfold commit at h
  simp only [] at h
  split at h
  · injection h with h1 h2
    subst h1
    exact ⟨rfl, rfl, rfl, rfl⟩
  · split at h
    · injection h with h1 h2
      cases h2
    · injection h with h1 h2
      cases h2

theorem commit_returned_true (env : Env) (curTime : Int) (st st1 : State) (b : Block)
    (h : commit env curTime st b = (st1, .returned true)) :
    st1.blocks = st.blocks ∧ st1.lastBlock = some (env.getId b.header) := by
  unfold commit at h
  simp only [] at h
  split at h
  · injection h with h1 h2
    cases h2
  · split at h
    · injection h with h1 h2
      cases h2
    · injection h with h1 h2
      subst h1
      exact ⟨rfl, rfl⟩

theorem pushBlock_accepted (env : Env) (curTime : Int) (st : State) (buffer : List UInt8)
    (h : (pushBlock env curTime st buffer).2 = .returned true) :
    ∃ b w, loadBlock env curTime st buffer = .next b ∧
      (countAddresses curTime b.addresses : Int) = b.header.numberOfAddresses ∧
      walk st.ledger curTime b.header.timestamp b.transactions walkStart = some w ∧
      w.calculatedTotalAmount = b.header.totalAmount ∧
      w.calculatedTotalFee = b.header.totalFee ∧
      w.i = b.transactions.length ∧
      payloadDigest env b.transactions = b.header.payloadHash ∧
      checkBalances st.ledger w.accumulatedAmounts = some true ∧
      env.analyze st { b with forForger := w.forForger } = true ∧
      pushBlock env curTime st buffer = commit env curTime st { b with forForger := w.forForger } := by
  unfold pushBlock at h
  cases hv : validate env curTime st buffer with
  | exit o =>
    simp only [hv] at h
    exact absurd h (validate_exit env curTime st buffer o hv)
  | next b1 =>
    obtain ⟨b, w, h1, h2, h3, h4, h5, h6, h7, h8, h9, h10⟩ :=
      validate_next env curTime st buffer b1 hv
    refine ⟨b, w, h1, h2, h3, h4, h5, h6, h7, h8, h9, ?_⟩
    unfold pushBlock
    rw [hv, h10]

theorem pushBlock_of_walk_mismatch (env : Env) (curTime : Int) (st : State)
    (buffer : List UInt8) (b : Block) (w : WalkState)
    (hl : loadBlock env curTime st buffer = .next b)
    (hw : walk st.ledger curTime b.header.timestamp b.transactions walkStart = some w)
    (hm : w.calculatedTotalAmount ≠ b.header.totalAmount ∨
      w.calculatedTotalFee ≠ b.header.totalFee ∨ w.i ≠ b.transactions.length) :
    pushBlock env curTime st buffer = (st, .returned false) := by
  unfold pushBlock validate
  simp only [hl, hw]
  by_cases hc : (countAddresses curTime b.addresses : Int) ≠ b.header.numberOfAddresses
  · simp [hc]
  · simp [hc, hm]

theorem walk_stops_exact (l : Ledger) (curTime blockTimestamp : Int) (t : Transaction)
    (post : List Transaction)
    (ht : walkBreaks l curTime blockTimestamp t = true ∨ (senderKnown l t ∧ ¬ legalType t)) :
    ∀ (pre : List Transaction) (w : WalkState),
      (∀ u ∈ pre, walkBreaks l curTime blockTimestamp u = false ∧ senderKnown l u ∧
        legalType u) →
      ∃ w1, walk l curTime blockTimestamp (pre ++ t :: post) w = some w1 ∧
        w1.i = w.i + pre.length := by
  intro pre
  induction pre with
  | nil =>
    intro w _
    obtain ⟨w1, h1, h2⟩ := walk_stops l curTime blockTimestamp t post ht [] w (by simp)
    have h3 : w.i ≤ w1.i := by
      simp only [List.nil_append] at h1
      unfold walk at h1
      by_cases hb : walkBreaks l curTime blockTimestamp t = true
      · simp [hb] at h1; rw [← h1]
      · have hk : senderKnown l t ∧ ¬ legalType t := by
          rcases ht with h | h
          · exact absurd h hb
          · exact h
        obtain ⟨sender, hsender⟩ := Option.isSome_iff_exists.mp hk.1
        have hl := hk.2
        unfold legalType at hl
        simp only [hb, hsender] at h1
        by_cases h0 : t.type = 0 <;> by_cases h1' : t.type = 1 <;>
          by_cases hs : t.subtype = 0 <;> simp_all <;> rw [← h1]
    exact ⟨w1, h1, by simp only [List.length_nil, Nat.add_zero] at h2 ⊢; omega⟩
  | cons u pre ih =>
    intro w hs
    obtain ⟨hbu, hku, hlu⟩ := hs u (List.mem_cons_self _ _)
    have hrest : ∀ v ∈ pre, walkBreaks l curTime blockTimestamp v = false ∧ senderKnown l v ∧
        legalType v := fun v hv => hs v (List.mem_cons_of_mem _ hv)
    obtain ⟨sender, hsender⟩ := Option.isSome_iff_exists.mp hku
    simp only [List.cons_append, List.length_cons]
    unfold walk
    simp only [hbu, Bool.false_eq_true, if_false, hsender]
    obtain ⟨htype, hsub⟩ := hlu
    rcases htype with h0 | h1
    · simp only [h0, hsub, if_true]
      obtain ⟨w1, hw1, hi⟩ := ih _ hrest
      exact ⟨w1, hw1, by simp only [] at hi; omega⟩
    · have h0 : ¬ u.type = 0 := by omega
      simp only [h0, h1, hsub, if_true, if_false]
      obtain ⟨w1, hw1, hi⟩ := ih _ hrest
      exact ⟨w1, hw1, by simp only [] at hi; omega⟩

theorem foldl_append_bytes (ts : List Transaction) (acc : List UInt8) :
    ts.foldl (fun acc t => acc ++ t.bytes) acc = acc ++ (ts.map (fun t => t.bytes)).flatten := by
  induction ts generalizing acc with
  | nil => simp
  | cons t ts ih => simp [ih, List.append_assoc]

theorem walk_bound (l : Ledger) (curTime blockTimestamp : Int) (t : Transaction)
    (post : List Transaction) (ht : walkBreaks l curTime blockTimestamp t = true) :
    ∀ (pre : List Transaction) (w w1 : WalkState),
      walk l curTime blockTimestamp (pre ++ t :: post) w = some w1 →
      w1.i ≤ w.i + pre.length := by
  intro pre
  induction pre with
  | nil =>
    intro w w1 h
    simp only [List.nil_append] at h
    unfold walk at h
    simp only [ht, if_true] at h
    injection h with h
    rw [← h]
    simp
  | cons u pre ih =>
    intro w w1 h
    simp only [List.cons_append] at h
    unfold walk at h
    simp only [List.length_cons]
    by_cases hb : walkBreaks l curTime blockTimestamp u = true
    · simp only [hb, if_true] at h
      injection h with h
      rw [← h]
      omega
    · simp only [hb] at h
      cases hs : getAccountByPublicKey l u.senderPublicKey with
      | none => simp [hs] at h
      | some sender =>
        simp only [hs] at h
        by_cases h0 : u.type = 0
        · by_cases hsub : u.subtype = 0
          · simp only [h0, hsub, if_true] at h
            have hi := ih _ _ h
            simp only [] at hi
            omega
          · simp [h0, hsub] at h
            rw [← h]
            simp only []
            omega
        · by_cases h1 : u.type = 1
          · by_cases hsub : u.subtype = 0
            · simp only [h0, h1, hsub, if_true, if_false] at h
              have hi := ih _ _ h
              simp only [] at hi
              omega
            · simp [h0, h1, hsub] at h
              rw [← h]
              simp only []
              omega
          · simp [h0, h1] at h
            rw [← h]
            simp only []
            omega

/-! ## Properties of pushBlock and of the header decoders -/

/-- C2 as amended: in a block that reaches the legality walk, a transaction
with timestamp > currentTime, deadline outside 1..24, timestamp +
deadline*3600 before the block timestamp, fee < 0 or fee >= 99999999 keeps
pushBlock from accepting the block, whatever transactions follow: the call
leaves the state unchanged and either returns false or, when the sender of an
earlier transaction is not on the ledger, ends in the exception of line 225;
the walk never gets past that transaction.  When the senders of the earlier
transactions are on the ledger, the walk stops no later than at that
transaction (exactly there when every earlier transaction passes) and
pushBlock returns false. -/
theorem pushBlock_never_accepts_illegal_transaction (env : Env) (curTime : Int) (st : State)
    (buffer : List UInt8) (b : Block) (pre : List Transaction) (t : Transaction)
    (post : List Transaction)
    (hload : loadBlock env curTime st buffer = .next b)
    (hsplit : b.transactions = pre ++ t :: post)
    (hbad : timeOrFeeIllegal curTime b.header.timestamp t) :
    (pushBlock env curTime st buffer = (st, .returned false) ∨
      ((∃ u ∈ pre, ¬ senderKnown st.ledger u) ∧
        pushBlock env curTime st buffer = (st, .threw))) ∧
    (∀ w, walk st.ledger curTime b.header.timestamp b.transactions walkStart = some w →
      w.i ≤ pre.length) ∧
    ((∀ u ∈ pre, senderKnown st.ledger u) →
      (∃ w, walk st.ledger curTime b.header.timestamp b.transactions walkStart = some w ∧
        w.i ≤ pre.length ∧
        ((∀ u ∈ pre, walkBreaks st.ledger curTime b.header.timestamp u = false ∧
            legalType u) →
          w.i = pre.length)) ∧
      pushBlock env curTime st buffer = (st, .returned false)) := by
  have hbreak := walkBreaks_of_timeOrFeeIllegal st.ledger curTime b.header.timestamp t hbad
  have hbound : ∀ w, walk st.ledger curTime b.header.timestamp b.transactions walkStart
      = some w → w.i ≤ pre.length := by
    intro w hw
    rw [hsplit] at hw
    have hi := walk_bound st.ledger curTime b.header.timestamp t post hbreak pre walkStart w hw
    simpa [walkStart] using hi
  have hlen : pre.length < b.transactions.length := by
    rw [hsplit]
    simp only [List.length_append, List.length_cons]
    omega
  have hknown : (∀ u ∈ pre, senderKnown st.ledger u) →
      ∃ w, walk st.ledger curTime b.header.timestamp b.transactions walkStart = some w := by
    intro hpre
    obtain ⟨w, hw, _⟩ :=
      walk_stops st.ledger curTime b.header.timestamp t post (Or.inl hbreak) pre walkStart hpre
    rw [← hsplit] at hw
    exact ⟨w, hw⟩
  refine ⟨?_, hbound, ?_⟩
  · cases hw : walk st.ledger curTime b.header.timestamp b.transactions walkStart with
    | some w =>
      left
      apply pushBlock_of_walk_mismatch env curTime st buffer b w hload hw
      right; right
      have := hbound w hw
      omega
    | none =>
      by_cases hc : (countAddresses curTime b.addresses : Int) ≠ b.header.numberOfAddresses
      · left
        unfold pushBlock validate
        simp [hload, hc]
      · right
        constructor
        · by_contra hall
          push_neg at hall
          obtain ⟨w, hw1⟩ := hknown hall
          rw [hw] at hw1
          cases hw1
        · unfold pushBlock validate
          simp [hload, hc, hw]
  · intro hpre
    obtain ⟨w, hw⟩ := hknown hpre
    have hi0 := hbound w hw
    refine ⟨⟨w, hw, hi0, ?_⟩, ?_⟩
    · intro hall
      obtain ⟨w1, hw1, hi1⟩ :=
        walk_stops_exact st.ledger curTime b.header.timestamp t post (Or.inl hbreak) pre
          walkStart (fun u hu => ⟨(hall u hu).1, hpre u hu, (hall u hu).2⟩)
      rw [← hsplit, hw] at hw1
      injection hw1 with hw1
      rw [hw1, hi1]; simp [walkStart]
    · apply pushBlock_of_walk_mismatch env curTime st buffer b w hload hw
      right; right
      omega

/-- C3: every transaction of a block that pushBlock accepts has type 0 or 1 and
subtype 0; and a block that reaches the legality walk with a transaction of
another type or subtype is rejected: pushBlock returns false with the state
unchanged (the senders up to that transaction being on the ledger, so that the
walk raises no exception). -/
theorem pushBlock_transaction_types (env : Env) (curTime : Int) (st : State)
    (buffer : List UInt8) :
    ((pushBlock env curTime st buffer).2 = .returned true →
      ∃ b, loadBlock env curTime st buffer = .next b ∧ ∀ t ∈ b.transactions, legalType t) ∧
    (∀ (b : Block) (pre : List Transaction) (t : Transaction) (post : List Transaction),
      loadBlock env curTime st buffer = .next b → b.transactions = pre ++ t :: post →
      ¬ legalType t → (∀ u ∈ pre, senderKnown st.ledger u) → senderKnown st.ledger t →
      pushBlock env curTime st buffer = (st, .returned false)) := by
  constructor
  · intro h
    obtain ⟨b, w, hl, _, hw, _, _, hi, _⟩ := pushBlock_accepted env curTime st buffer h
    refine ⟨b, hl, fun t ht => ?_⟩
    have hc := walk_complete st.ledger curTime b.header.timestamp b.transactions walkStart w hw
      (by simpa [walkStart] using hi)
    exact (hc.1 t ht).2.2
  · intro b pre t post hload hsplit hbad hpre ht
    obtain ⟨w, hw, hi⟩ :=
      walk_stops st.ledger curTime b.header.timestamp t post (Or.inr ⟨ht, hbad⟩) pre
        walkStart hpre
    rw [← hsplit] at hw
    have hi0 : w.i ≤ pre.length := by simpa [walkStart] using hi
    apply pushBlock_of_walk_mismatch env curTime st buffer b w hload hw
    right; right
    rw [hsplit]; simp only [List.length_append, List.length_cons]; omega

/-- C4: for a block that pushBlock accepts, the declared totalAmount is the sum
of the transactions' amounts and the declared totalFee the sum of their fees;
a block that reaches the legality walk with a declared totalFee one above or
one below the fee sum is not accepted, and pushBlock returns false with the
state unchanged whenever the walk raises no exception. -/
theorem pushBlock_totals (env : Env) (curTime : Int) (st : State) (buffer : List UInt8) :
    ((pushBlock env curTime st buffer).2 = .returned true →
      ∃ b, loadBlock env curTime st buffer = .next b ∧
        b.header.totalAmount = (b.transactions.map (fun t => t.amount)).sum ∧
        b.header.totalFee = (b.transactions.map (fun t => t.fee)).sum) ∧
    (∀ b : Block, loadBlock env curTime st buffer = .next b →
      (b.header.totalFee = (b.transactions.map (fun t => t.fee)).sum + 1 ∨
        b.header.totalFee = (b.transactions.map (fun t => t.fee)).sum - 1) →
      (pushBlock env curTime st buffer).2 ≠ .returned true ∧
      ((walk st.ledger curTime b.header.timestamp b.transactions walkStart).isSome = true →
        pushBlock env curTime st buffer = (st, .returned false))) := by
  have hacc : (pushBlock env curTime st buffer).2 = .returned true →
      ∃ b, loadBlock env curTime st buffer = .next b ∧
        b.header.totalAmount = (b.transactions.map (fun t => t.amount)).sum ∧
        b.header.totalFee = (b.transactions.map (fun t => t.fee)).sum := by
    intro h
    obtain ⟨b, w, hl, _, hw, ha, hf, hi, _⟩ := pushBlock_accepted env curTime st buffer h
    have hc := walk_complete st.ledger curTime b.header.timestamp b.transactions walkStart w hw
      (by simpa [walkStart] using hi)
    refine ⟨b, hl, ?_, ?_⟩
    · rw [← ha, hc.2.1]; simp [walkStart]
    · rw [← hf, hc.2.2.1]; simp [walkStart]
  refine ⟨hacc, ?_⟩
  intro b hl hoff
  have hne : b.header.totalFee ≠ (b.transactions.map (fun t => t.fee)).sum := by
    rcases hoff with h | h <;> rw [h] <;> intro e <;> linarith
  constructor
  · intro h
    obtain ⟨b1, hl1, _, hf1⟩ := hacc h
    rw [hl] at hl1
    injection hl1 with hb
    subst hb
    exact hne hf1
  · intro hsome
    obtain ⟨w, hw⟩ := Option.isSome_iff_exists.mp hsome
    apply pushBlock_of_walk_mismatch env curTime st buffer b w hl hw
    by_cases hi : w.i = b.transactions.length
    · have hc := walk_complete st.ledger curTime b.header.timestamp b.transactions walkStart w
        hw (by simpa [walkStart] using hi)
      right; left
      rw [hc.2.2.1]
      simpa [walkStart] using fun e => hne e.symm
    · exact Or.inr (Or.inr hi)

/-- C5: for a block that pushBlock accepts and every transaction in it, the
sender is found by public key, the account found under the sender's address
exists, and its balance at validation time is at least the sum of
amount + fee over all transactions of the block debited to that address;
so a block in which the transactions of one sender together exceed the
sender's balance is not accepted, however affordable each one is alone. -/
theorem pushBlock_aggregate_solvency (env : Env) (curTime : Int) (st : State)
    (buffer : List UInt8) :
    ((pushBlock env curTime st buffer).2 = .returned true →
      ∃ b, loadBlock env curTime st buffer = .next b ∧
        ∀ t ∈ b.transactions, ∃ sender account,
          getAccountByPublicKey st.ledger t.senderPublicKey = some sender ∧
          getAccountById st.ledger sender.address = some account ∧
          debitTotal st.ledger sender.address b.transactions ≤ account.balance) ∧
    (∀ (b : Block) (t : Transaction) (sender account : Account),
      loadBlock env curTime st buffer = .next b → t ∈ b.transactions →
      getAccountByPublicKey st.ledger t.senderPublicKey = some sender →
      getAccountById st.ledger sender.address = some account →
      account.balance < debitTotal st.ledger sender.address b.transactions →
      (pushBlock env curTime st buffer).2 ≠ .returned true) := by
  have hacc : (pushBlock env curTime st buffer).2 = .returned true →
      ∃ b, loadBlock env curTime st buffer = .next b ∧
        ∀ t ∈ b.transactions, ∃ sender account,
          getAccountByPublicKey st.ledger t.senderPublicKey = some sender ∧
          getAccountById st.ledger sender.address = some account ∧
          debitTotal st.ledger sender.address b.transactions ≤ account.balance := by
    intro h
    obtain ⟨b, w, hl, _, hw, _, _, hi, _, hbal, _⟩ :=
      pushBlock_accepted env curTime st buffer h
    have hc := walk_complete st.ledger curTime b.header.timestamp b.transactions walkStart w
      hw (by simpa [walkStart] using hi)
    obtain ⟨hall, _, _, _, hdebit, hkeys⟩ := hc
    refine ⟨b, hl, fun t ht => ?_⟩
    obtain ⟨sender, hsender⟩ := Option.isSome_iff_exists.mp (hall t ht).2.1
    have haddr : senderAddress st.ledger t = some sender.address := by
      simp [senderAddress, hsender]
    obtain ⟨v, hv⟩ := Option.isSome_iff_exists.mp
      (hkeys sender.address (Or.inr ⟨t, ht, haddr⟩))
    obtain ⟨account, hacc, hle⟩ := checkBalances_true st.ledger _ hbal sender.address v hv
    refine ⟨sender, account, hsender, hacc, ?_⟩
    have hd := hdebit sender.address
    rw [hv] at hd
    simp [walkStart, getKey] at hd
    rw [← hd]; exact hle
  refine ⟨hacc, ?_⟩
  intro b t sender account hl ht hsender haccount hlt h
  obtain ⟨b1, hl1, hall⟩ := hacc h
  rw [hl] at hl1
  injection hl1 with hb
  subst hb
  obtain ⟨sender1, account1, hs1, ha1, hle⟩ := hall t ht
  rw [hsender] at hs1
  injection hs1 with hs1
  subst hs1
  rw [haccount] at ha1
  injection ha1 with ha1
  subst ha1
  exact absurd hlt (not_lt.mpr hle)

/-- C6: for a block that pushBlock accepts, payloadHash equals sha256 of the
concatenation, in block order, of the transactions' getBytes(). -/
theorem pushBlock_payload_hash (env : Env) (curTime : Int) (st : State)
    (buffer : List UInt8) (h : (pushBlock env curTime st buffer).2 = .returned true) :
    ∃ b, loadBlock env curTime st buffer = .next b ∧
      b.header.payloadHash = env.sha256 (b.transactions.map (fun t => t.bytes)).flatten := by
  obtain ⟨b, w, hl, _, _, _, _, _, hp, _⟩ := pushBlock_accepted env curTime st buffer h
  refine ⟨b, hl, ?_⟩
  rw [← hp, payloadDigest, foldl_append_bytes]
  simp

/-- C8: for every buffer that pushBlock accepts, the header decodes, the chain
pointer names the new block, and on the resulting state with that block in
the chain (found under its id) a second call with the same buffer, at any
time, returns false and leaves the state as it is. -/
theorem pushBlock_same_buffer_twice (env : Env) (curTime curTime1 : Int) (st st1 : State)
    (buffer : List UInt8) (h : pushBlock env curTime st buffer = (st1, .returned true)) :
    ∃ hd off, decodeHeader env.float64 buffer = some (hd, off) ∧
      st1.lastBlock = some (env.getId hd) ∧
      getBlock (registerBlock st1 (env.getId hd) (chainBlockOf hd)) (env.getId hd) =
        some (chainBlockOf hd) ∧
      pushBlock env curTime1 (registerBlock st1 (env.getId hd) (chainBlockOf hd)) buffer =
        (registerBlock st1 (env.getId hd) (chainBlockOf hd), .returned false) := by
  have h2 : (pushBlock env curTime st buffer).2 = .returned true := by rw [h]
  obtain ⟨b, w, hl, _, _, _, _, _, _, _, _, hcommit⟩ :=
    pushBlock_accepted env curTime st buffer h2
  rw [hcommit] at h
  obtain ⟨_, hlast⟩ := commit_returned_true env curTime st st1 _ h
  simp only [] at hlast
  obtain ⟨⟨off, hd⟩, _, _⟩ := loadBlock_next env curTime st buffer b hl
  have hget : getKey (setKey st1.blocks (env.getId b.header) (chainBlockOf b.header))
      (env.getId b.header) = some (chainBlockOf b.header) := by
    rw [getKey_setKey]
    simp
  have hlb : getLastBlock (registerBlock st1 (env.getId b.header) (chainBlockOf b.header))
      = some (chainBlockOf b.header) := by
    simp only [getLastBlock, registerBlock, hlast, hget]
  refine ⟨b.header, off, hd, hlast, hget, ?_⟩
  unfold pushBlock validate loadBlock
  simp only [hd, hlb]
  simp [chainBlockOf]

/-- C7: when pushBlock returns false, the blocks map, the lastBlock pointer,
the log of store calls (writeBlock, writeTransaction, writeAddress) and the
unconfirmed-address table are as before the call; and when the rejection comes
from the validation phase (before the commit loop) the whole state, ledger and
pool included, is as before. -/
theorem pushBlock_returned_false_frame (env : Env) (curTime : Int) (st st1 : State)
    (buffer : List UInt8) (h : pushBlock env curTime st buffer = (st1, .returned false)) :
    st1.blocks = st.blocks ∧ st1.lastBlock = st.lastBlock ∧ st1.db = st.db ∧
      st1.unconfirmedAddresses = st.unconfirmedAddresses ∧
      (∀ o, validate env curTime st buffer = .exit o → st1 = st) := by
  unfold pushBlock at h
  cases hv : validate env curTime st buffer with
  | exit o =>
    simp only [hv] at h
    injection h with h1 h2
    subst h1
    exact ⟨rfl, rfl, rfl, rfl, fun _ _ => rfl⟩
  | next b =>
    simp only [hv] at h
    obtain ⟨h1, h2, h3, h4⟩ := commit_returned_false env curTime st st1 b h
    exact ⟨h1, h2, h3, h4, fun o ho => by cases ho⟩

theorem blockFromBytes_layout (float64 : Nat → ℚ) (buffer : List UInt8)
    (hlen : 232 ≤ buffer.length) :
    blockFromBytes float64 buffer = some (
      { version := toInt32 (beNat (byteSlice buffer 0 4)),
        timestamp := toInt32 (beNat (byteSlice buffer 4 4)),
        previousBlock := toInt64 (beNat (byteSlice buffer 8 8)),
        numbersOfTransactions := toInt32 (beNat (byteSlice buffer 16 4)),
        numberOfTransactions := none,
        totalAmount := float64 (beNat (byteSlice buffer 20 8)),
        totalFee := float64 (beNat (byteSlice buffer 28 8)),
        payloadLength := toInt32 (beNat (byteSlice buffer 36 4)),
        payloadHash := byteSlice buffer 40 32,
        generatorPublicKey := byteSlice buffer 72 32,
        generationSignature := none,
        blockSignature := byteSlice buffer 168 64 }, 232) := by
  have r4 : ∀ off, off + 4 ≤ 232 → readInt false buffer off
      = some (toInt32 (beNat (byteSlice buffer off 4)), off + 4) := by
    intro off h
    simp [readInt, show off + 4 ≤ buffer.length by omega]
  have r8 : ∀ off, off + 8 ≤ 232 → readFloat64 float64 false buffer off
      = some (float64 (beNat (byteSlice buffer off 8)), off + 8) := by
    intro off h
    simp [readFloat64, show off + 8 ≤ buffer.length by omega]
  have rl : ∀ off, off + 8 ≤ 232 → readLong false buffer off
      = some (toInt64 (beNat (byteSlice buffer off 8)), off + 8) := by
    intro off h
    simp [readLong, show off + 8 ≤ buffer.length by omega]
  have rb : ∀ n off, off + n ≤ 232 → readByteLoop buffer n off
      = some (byteSlice buffer off n, off + n) :=
    fun n off h => readByteLoop_eq buffer n off (by omega)
  unfold blockFromBytes
  rw [r4 0 (by omega)]; simp only []
  rw [r4 _ (by omega)]; simp only []
  rw [rl _ (by omega)]; simp only []
  rw [r4 _ (by omega)]; simp only []
  rw [r8 _ (by omega)]; simp only []
  rw [r8 _ (by omega)]; simp only []
  rw [r4 _ (by omega)]; simp only []
  rw [rb 32 _ (by omega)]; simp only []
  rw [rb 32 _ (by omega)]; simp only []
  rw [rb 64 _ (by omega)]; simp only []
  rw [rb 64 _ (by omega)]

/-- C9: for every buffer of at least 236 bytes the header decode of pushBlock
succeeds and takes version, timestamp, previousBlock, numberOfAddresses,
numberOfTransactions, totalAmount, totalFee, payloadLength, payloadHash,
generatorPublicKey, generationSignature and blockSignature from the bytes at
offsets 0, 4, 8, 16, 20, 24, 32, 40, 44, 76, 108 and 172, with widths 4, 4, 8,
4, 4, 8, 8, 4, 32, 32, 64 and 64; previousBlock is the unsigned big-endian
value of its eight bytes as a decimal string; the cursor ends at 236. -/
theorem pushBlock_header_layout (float64 : Nat → ℚ) (buffer : List UInt8)
    (hlen : 236 ≤ buffer.length) :
    decodeHeader float64 buffer = some (
      { version := toInt32 (leNat (byteSlice buffer 0 4)),
        timestamp := toInt32 (leNat (byteSlice buffer 4 4)),
        previousBlock := toString (beNat (byteSlice buffer 8 8)),
        numberOfAddresses := toInt32 (leNat (byteSlice buffer 16 4)),
        numberOfTransactions := toInt32 (leNat (byteSlice buffer 20 4)),
        totalAmount := float64 (leNat (byteSlice buffer 24 8)),
        totalFee := float64 (leNat (byteSlice buffer 32 8)),
        payloadLength := toInt32 (leNat (byteSlice buffer 40 4)),
        payloadHash := byteSlice buffer 44 32,
        generatorPublicKey := byteSlice buffer 76 32,
        generationSignature := byteSlice buffer 108 64,
        blockSignature := byteSlice buffer 172 64 }, 236) := by
  have r4 : ∀ off, off + 4 ≤ 236 → readInt true buffer off
      = some (toInt32 (leNat (byteSlice buffer off 4)), off + 4) := by
    intro off h
    simp [readInt, show off + 4 ≤ buffer.length by omega]
  have r8 : ∀ off, off + 8 ≤ 236 → readFloat64 float64 true buffer off
      = some (float64 (leNat (byteSlice buffer off 8)), off + 8) := by
    intro off h
    simp [readFloat64, show off + 8 ≤ buffer.length by omega]
  have rb : ∀ n off, off + n ≤ 236 → readByteLoop buffer n off
      = some (byteSlice buffer off n, off + n) :=
    fun n off h => readByteLoop_eq buffer n off (by omega)
  unfold decodeHeader
  rw [r4 0 (by omega)]; simp only []
  rw [r4 _ (by omega)]; simp only []
  rw [rb 8 _ (by omega)]; simp only []
  rw [r4 _ (by omega)]; simp only []
  rw [r4 _ (by omega)]; simp only []
  rw [r8 _ (by omega)]; simp only []
  rw [r8 _ (by omega)]; simp only []
  rw [r4 _ (by omega)]; simp only []
  rw [rb 32 _ (by omega)]; simp only []
  rw [rb 32 _ (by omega)]; simp only []
  rw [rb 64 _ (by omega)]; simp only []
  rw [rb 64 _ (by omega)]

/-! ## The properties at the example node -/

set_option maxRecDepth 4000

/-- C1 at a concrete input: the last block of the chain has id 5, the buffer
declares previous block 7, and pushBlock accepts it (returns true and moves
lastBlock to the new block); the only previous-block test of the code
compares with the previousBlock of the last block, here 1. -/
theorem pushBlock_accepts_other_previousBlock :
    Example.chain.lastBlock = some "5" ∧
    (getLastBlock Example.chain).map (fun last => last.previousBlock) = some (some "1") ∧
    (decodeHeader Example.env.float64 Example.emptyBuffer).map
      (fun p => p.1.previousBlock) = some "7" ∧
    pushBlock Example.env 10 Example.chain Example.emptyBuffer =
      (Example.acceptedEmpty, .returned true) := by
  with_unfolding_all decide

/-- C2 refuted at a concrete input: the second transaction of the block has
deadline 25, and pushBlock does not return false: the sender of the first
transaction is on no ledger, so the read of sender.address at line 225 throws
before the second transaction is visited. -/
theorem pushBlock_throws_before_illegal_transaction :
    loadBlock Example.env 10 Example.chain Example.strangerBuffer =
      .next Example.strangerBlock ∧
    Example.strangerBlock.transactions = [Example.stranger, Example.transfer 2 1 25 20 2] ∧
    (Example.transfer 2 1 25 20 2).deadline > 24 ∧
    getAccountByPublicKey Example.chain.ledger Example.stranger.senderPublicKey = none ∧
    pushBlock Example.env 10 Example.chain Example.strangerBuffer =
      (Example.chain, .threw) := by
  with_unfolding_all decide

/-- Witness of C2: a block whose second transaction has deadline 25 and whose
third is valid is rejected with the state unchanged, and so is not accepted;
its first sender is on the ledger. -/
theorem pushBlock_never_accepts_illegal_transaction_witness :
    loadBlock Example.env 10 Example.chain Example.lateBuffer = .next Example.lateBlock ∧
    timeOrFeeIllegal 10 Example.lateBlock.header.timestamp (Example.transfer 2 1 25 20 2) ∧
    pushBlock Example.env 10 Example.chain Example.lateBuffer =
      (Example.chain, .returned false) :=
  ⟨by with_unfolding_all decide, Or.inr (Or.inr (Or.inl (by decide))),
   ((pushBlock_never_accepts_illegal_transaction Example.env 10 Example.chain
      Example.lateBuffer Example.lateBlock [Example.transfer 1 0 10 10 1]
      (Example.transfer 2 1 25 20 2) [Example.transfer 3 0 10 5 1]
      (by with_unfolding_all decide) (by with_unfolding_all decide)
      (Or.inr (Or.inr (Or.inl (by decide))))).2.2 (by with_unfolding_all decide)).2⟩

/-- Witness of C3: the transfers of an accepted block have legal types, and a
block whose second transaction has type 2 is rejected. -/
theorem pushBlock_transaction_types_witness :
    (∃ b, loadBlock Example.env 10 Example.chain Example.goodBuffer = .next b ∧
      ∀ t ∈ b.transactions, legalType t) ∧
    pushBlock Example.env 10 Example.chain Example.typeBuffer =
      (Example.chain, .returned false) :=
  ⟨(pushBlock_transaction_types Example.env 10 Example.chain Example.goodBuffer).1
      (by with_unfolding_all decide),
   (pushBlock_transaction_types Example.env 10 Example.chain Example.typeBuffer).2
      Example.typeBlock [Example.transfer 1 0 10 10 1] (Example.transfer 2 2 24 20 2)
      [Example.transfer 3 0 10 5 1]
      (by with_unfolding_all decide) (by with_unfolding_all decide)
      (by with_unfolding_all decide) (by with_unfolding_all decide)
      (by with_unfolding_all decide)⟩

/-- Witness of C4: the declared totals of an accepted block are the sums, and
the same block with totalFee 4 instead of 3 is rejected. -/
theorem pushBlock_totals_witness :
    (∃ b, loadBlock Example.env 10 Example.chain Example.goodBuffer = .next b ∧
      b.header.totalAmount = (b.transactions.map (fun t => t.amount)).sum ∧
      b.header.totalFee = (b.transactions.map (fun t => t.fee)).sum) ∧
    pushBlock Example.env 10 Example.chain Example.feeBuffer =
      (Example.chain, .returned false) :=
  ⟨(pushBlock_totals Example.env 10 Example.chain Example.goodBuffer).1
      (by with_unfolding_all decide),
   ((pushBlock_totals Example.env 10 Example.chain Example.feeBuffer).2
      Example.feeBlock (by with_unfolding_all decide)
      (Or.inl (by with_unfolding_all decide))).2 (by with_unfolding_all decide)⟩

/-- Witness of C5: in the accepted block the sender's balance 100 covers the
debits, and with balance 32 the two transfers (11 and 22 with fees) are each
affordable but the block is not accepted: pushBlock returns false. -/
theorem pushBlock_aggregate_solvency_witness :
    (∃ b, loadBlock Example.env 10 Example.chain Example.goodBuffer = .next b ∧
      ∀ t ∈ b.transactions, ∃ sender account,
        getAccountByPublicKey Example.chain.ledger t.senderPublicKey = some sender ∧
        getAccountById Example.chain.ledger sender.address = some account ∧
        debitTotal Example.chain.ledger sender.address b.transactions ≤ account.balance) ∧
    (pushBlock Example.env 10 Example.poorChain Example.goodBuffer).2 ≠ .returned true ∧
    pushBlock Example.env 10 Example.poorChain Example.goodBuffer =
      (Example.poorChain, .returned false) :=
  ⟨(pushBlock_aggregate_solvency Example.env 10 Example.chain Example.goodBuffer).1
      (by with_unfolding_all decide),
   (pushBlock_aggregate_solvency Example.env 10 Example.poorChain Example.goodBuffer).2
      Example.goodBlock (Example.transfer 1 0 10 10 1)
      { address := "1C", publicKey := [1], balance := 32, unconfirmedBalance := 32 }
      { address := "1C", publicKey := [1], balance := 32, unconfirmedBalance := 32 }
      (by with_unfolding_all decide) (by with_unfolding_all decide)
      (by with_unfolding_all decide) (by with_unfolding_all decide)
      (by with_unfolding_all decide),
   by with_unfolding_all decide⟩

/-- Witness of C6: the payload hash of the accepted example block. -/
theorem pushBlock_payload_hash_witness :
    ∃ b, loadBlock Example.env 10 Example.chain Example.goodBuffer = .next b ∧
      b.header.payloadHash =
        Example.env.sha256 (b.transactions.map (fun t => t.bytes)).flatten :=
  pushBlock_payload_hash Example.env 10 Example.chain Example.goodBuffer
    (by with_unfolding_all decide)

/-- Witness of C7: a rejection in the commit loop (the second transaction is
refused after the first was confirmed) leaves blocks, lastBlock, the store log
and the unconfirmed addresses as they were; a rejection by a validation check
leaves the whole state as it was. -/
theorem pushBlock_returned_false_frame_witness :
    (Example.halfCommitted.blocks = Example.chain.blocks ∧
      Example.halfCommitted.lastBlock = Example.chain.lastBlock ∧
      Example.halfCommitted.db = Example.chain.db ∧
      Example.halfCommitted.unconfirmedAddresses = Example.chain.unconfirmedAddresses) ∧
    (validate Example.env 10 Example.chain Example.lateBuffer = .exit (.returned false) →
      Example.chain = Example.chain) :=
  have h := pushBlock_returned_false_frame Example.strictEnv 10 Example.chain
    Example.halfCommitted Example.goodBuffer (by with_unfolding_all decide)
  ⟨⟨h.1, h.2.1, h.2.2.1, h.2.2.2.1⟩,
   (pushBlock_returned_false_frame Example.env 10 Example.chain Example.chain
      Example.lateBuffer (by with_unfolding_all decide)).2.2.2.2 _⟩

/-- Witness of C8: the header-only buffer is accepted on the example chain,
and with the accepted block in the chain the second call returns false and
changes nothing. -/
theorem pushBlock_same_buffer_twice_witness :
    pushBlock Example.env 10 Example.chain Example.emptyBuffer =
      (Example.acceptedEmpty, .returned true) ∧
    pushBlock Example.env 11 Example.registeredEmpty Example.emptyBuffer =
      (Example.registeredEmpty, .returned false) := by
  have hfirst : pushBlock Example.env 10 Example.chain Example.emptyBuffer =
      (Example.acceptedEmpty, .returned true) := by with_unfolding_all decide
  obtain ⟨hd, off, hdec, _, _, hpush⟩ :=
    pushBlock_same_buffer_twice Example.env 10 11 Example.chain Example.acceptedEmpty
      Example.emptyBuffer hfirst
  have hdec1 : decodeHeader Example.env.float64 Example.emptyBuffer =
      some ((Example.blockOf 0 0 0 0 0 []).header, 236) := by with_unfolding_all decide
  rw [hdec1] at hdec
  injection hdec with hdec
  injection hdec with hhd _
  subst hhd
  exact ⟨hfirst, hpush⟩

/-- Witness of C9 on the 252-byte example buffer. -/
theorem pushBlock_header_layout_witness :
    236 ≤ Example.goodBuffer.length ∧
    decodeHeader Example.env.float64 Example.goodBuffer =
      some (Example.goodBlock.header, 236) :=
  ⟨by decide,
   (pushBlock_header_layout Example.env.float64 Example.goodBuffer (by decide)).trans
     (by with_unfolding_all decide)⟩

/-- C10 at a concrete input: on the same buffer the header decode of pushBlock
yields version 1, timestamp 5, 2 transactions, totals 30 and 3, payload length
16, a payload hash of 32 bytes 81 and ends at 236, while blockFromBytes yields
version 16777216, timestamp 83886080, no numberOfTransactions (it sets
numbersOfTransactions, read from the bytes of numberOfAddresses), other totals,
payload length 0, a payload hash that starts four bytes early, no
generationSignature, and ends at 232. -/
theorem blockFromBytes_differs_from_pushBlock_decode :
    decodeHeader Example.env.float64 Example.goodBuffer =
      some (Example.goodBlock.header, 236) ∧
    blockFromBytes Example.env.float64 Example.goodBuffer =
      some (Example.goodBytesBlock, 232) :=
  ⟨(pushBlock_header_layout Example.env.float64 Example.goodBuffer (by decide)).trans
     (by decide),
   (blockFromBytes_layout Example.env.float64 Example.goodBuffer (by decide)).trans
     (by decide)⟩

/-! ## blockFromJSON and addGenesisBlock -/

theorem addGenesisBlock_found (g : GenesisEnv) (st : State) (b : ChainBlock)
    (h : getBlock st g.blockId = some b) :
    addGenesisBlock g st = (st, .calledBack none) := by
  simp [addGenesisBlock, h]

/-- C12: when the genesis block id is found in the chain, addGenesisBlock
leaves the state as it is (no store call, lastBlock unchanged) and calls back
without error; and after a run that did not find the id and succeeded (the
chain pointer set, the block and the transaction written once), a further run
on the resulting state with the genesis block in the chain finds it and is
such a no-op.  The block is found when it is in the chain under the
designated genesis block id, which is the id the built block computes
whenever a registration under the computed id is to be found. -/
theorem addGenesisBlock_idempotent (g : GenesisEnv) (st : State) :
    (∀ b, getBlock st g.blockId = some b → addGenesisBlock g st = (st, .calledBack none)) ∧
    (∀ st1, getBlock st g.blockId = none →
      addGenesisBlock g st = (st1, .calledBack none) →
      st1.blocks = st.blocks ∧ st1.ledger = st.ledger ∧
      st1.lastBlock = some g.getId ∧
      st1.db = st.db ++ [StoreOp.writeBlock g.getId, StoreOp.writeTransaction g.transactionId] ∧
      addGenesisBlock g (registerBlock st1 g.blockId genesisChainBlock) =
        (registerBlock st1 g.blockId genesisChainBlock, .calledBack none) ∧
      (g.getId = g.blockId →
        addGenesisBlock g (registerBlock st1 g.getId genesisChainBlock) =
          (registerBlock st1 g.getId genesisChainBlock, .calledBack none))) := by
  refine ⟨fun b hb => addGenesisBlock_found g st b hb, ?_⟩
  intro st1 hnone hrun
  have hreg : ∀ id, id = g.blockId →
      addGenesisBlock g (registerBlock st1 id genesisChainBlock) =
        (registerBlock st1 id genesisChainBlock, .calledBack none) := by
    intro id hid
    apply addGenesisBlock_found g _ genesisChainBlock
    simp only [getBlock, registerBlock, getKey_setKey, hid, if_true]
  unfold addGenesisBlock at hrun
  simp only [hnone] at hrun
  by_cases hv : g.verify = true
  · simp only [hv, not_true_eq_false, if_false] at hrun
    by_cases ha : g.analyze { st with lastBlock := some g.getId } = true
    · simp only [ha, not_true_eq_false, if_false] at hrun
      cases hwb : g.writeBlockError with
      | some e => simp [hwb] at hrun
      | none =>
        simp only [hwb] at hrun
        injection hrun with hst _
        subst hst
        exact ⟨rfl, rfl, rfl, by simp, hreg _ rfl, fun hid => hreg _ hid⟩
    · simp [ha] at hrun
  · simp [hv] at hrun

/-- C11 as amended: blockFromJSON never throws; a text that JSON.parse rejects,
and the text of JSON null, give null; a JSON object gives a block object whose
fields are the object's properties of the same names, a missing one being
undefined. -/
theorem blockFromJSON_result (jsonParse : String → Option Json) (jsonObj : String) :
    (∃ r, blockFromJSON jsonParse jsonObj = .returned r) ∧
    (jsonParse jsonObj = none → blockFromJSON jsonParse jsonObj = .returned none) ∧
    (jsonParse jsonObj = some .null → blockFromJSON jsonParse jsonObj = .returned none) ∧
    (∀ fields, jsonParse jsonObj = some (.obj fields) →
      blockFromJSON jsonParse jsonObj = .returned (some
        { version := getKey fields "version", id := getKey fields "id",
          timestamp := getKey fields "timestamp",
          previousBlock := getKey fields "previousBlock",
          transactions := getKey fields "transactions",
          totalAmount := getKey fields "totalAmount", totalFee := getKey fields "totalFee",
          payloadLength := getKey fields "payloadLength",
          payloadHash := getKey fields "payloadHash",
          generatorPublicKey := getKey fields "generatorPublicKey",
          generationSignature := getKey fields "generationSignature",
          blockSignature := getKey fields "blockSignature" })) := by
  refine ⟨?_, ?_, ?_, ?_⟩
  · unfold blockFromJSON tryCatch
    cases blockFromJSONBody jsonParse jsonObj with
    | returned v => exact ⟨v, rfl⟩
    | threw => exact ⟨none, rfl⟩
  · intro h
    simp [blockFromJSON, blockFromJSONBody, tryCatch, h]
  · intro h
    simp [blockFromJSON, blockFromJSONBody, tryCatch, h]
  · intro fields h
    simp [blockFromJSON, blockFromJSONBody, tryCatch, h, Json.getProp]

/-- Witness of C11 as amended, on the texts of the example parser. -/
theorem blockFromJSON_result_witness :
    blockFromJSON Example.jsonParse "not json" = .returned none ∧
    blockFromJSON Example.jsonParse "null" = .returned none ∧
    blockFromJSON Example.jsonParse Example.versionOnly = .returned (some
      { version := some (.num 1), id := none, timestamp := none, previousBlock := none,
        transactions := none, totalAmount := none, totalFee := none,
        payloadLength := none, payloadHash := none, generatorPublicKey := none,
        generationSignature := none, blockSignature := none }) :=
  ⟨(blockFromJSON_result Example.jsonParse "not json").2.1 rfl,
   (blockFromJSON_result Example.jsonParse "null").2.2.1 rfl,
   (blockFromJSON_result Example.jsonParse Example.versionOnly).2.2.2
     [("version", .num 1)] rfl⟩

/-- Counterexample to C11: a JSON object without payloadHash and blockSignature
does not give null but a block object in which these fields are undefined. -/
theorem blockFromJSON_missing_field_not_null :
    (∃ b, blockFromJSON Example.jsonParse Example.versionOnly = .returned (some b) ∧
      b.payloadHash = none ∧ b.blockSignature = none) ∧
    blockFromJSON Example.jsonParse Example.versionOnly ≠ .returned none :=
  ⟨⟨_, rfl, rfl, rfl⟩, by
    intro h
    have h2 : blockFromJSON Example.jsonParse Example.versionOnly = .returned (some _) := rfl
    rw [h2] at h
    cases h⟩

/-- Witness of C12: on a chain without blocks the genesis bootstrap succeeds
and writes the block and the transaction; with the genesis block in the chain
the second bootstrap changes nothing. -/
theorem addGenesisBlock_idempotent_witness :
    addGenesisBlock Example.genesis Example.emptyChain =
      (Example.bootstrapped, .calledBack none) ∧
    addGenesisBlock Example.genesis Example.registeredGenesis =
      (Example.registeredGenesis, .calledBack none) :=
  ⟨by with_unfolding_all decide,
   ((addGenesisBlock_idempotent Example.genesis Example.emptyChain).2 Example.bootstrapped
      (by decide) (by with_unfolding_all decide)).2.2.2.2.1⟩

/-! ## The unconfirmed pool -/

namespace Transactions

theorem getKey_eraseKey {α : Type} (m : List (String × α)) (k k1 : String) :
    getKey (eraseKey m k) k1 = if k = k1 then none else getKey m k1 := by
  induction m with
  | nil => simp [eraseKey, getKey]
  | cons p rest ih =>
    obtain ⟨k2, v2⟩ := p
    by_cases h2 : k2 = k
    · subst h2
      by_cases h : k2 = k1
      · subst h
        simpa [eraseKey] using ih
      · simp [eraseKey, getKey, h, ih]
    · by_cases h : k2 = k1
      · subst h
        have h3 : ¬ k = k2 := fun e => h2 e.symm
        simp [eraseKey, getKey, h2, h3]
      · simp [eraseKey, getKey, h2, h, ih]

theorem eraseKey_eraseKey {α : Type} (m : List (String × α)) (k : String) :
    eraseKey (eraseKey m k) k = eraseKey m k := by
  induction m with
  | nil => simp [eraseKey]
  | cons p rest ih =>
    obtain ⟨k2, v2⟩ := p
    by_cases h2 : k2 = k
    · simp [eraseKey, h2, ih]
    · simp [eraseKey, h2, ih]

theorem removeUnconfirmedTransaction_of_none (m : Module) (id : String)
    (h : getKey m.unconfirmedTransactionsIdIndex id = none) :
    (removeUnconfirmedTransaction m id).unconfirmedTransactions = m.unconfirmedTransactions ∧
    (removeUnconfirmedTransaction m id).unconfirmedTransactionsIdIndex =
      eraseKey m.unconfirmedTransactionsIdIndex id := by
  unfold removeUnconfirmedTransaction
  rw [h]
  exact ⟨rfl, rfl⟩

theorem addUnconfirmedTransaction_ok (lg : Logic) (address : String → String) (m m1 : Module)
    (t : Trs) (h : addUnconfirmedTransaction lg address m t = (m1, none)) :
    m1.unconfirmedTransactions = m.unconfirmedTransactions ++ [Slot.transaction t] ∧
    m1.unconfirmedTransactionsIdIndex =
      setKey m.unconfirmedTransactionsIdIndex t.id m.unconfirmedTransactions.length ∧
    m1.doubleSpendingTransactions = m.doubleSpendingTransactions ∧
    m1.strayUndefined = m.strayUndefined ∧
    (applyUnconfirmed lg address m.accounts t).2 = none := by
  unfold addUnconfirmedTransaction at h
  cases hr : applyUnconfirmed lg address m.accounts t with
  | mk accounts1 err =>
    cases err with
    | some e => simp [hr] at h
    | none =>
      simp only [hr] at h
      injection h with h1 h2
      subst h1
      exact ⟨rfl, rfl, rfl, rfl, rfl⟩

theorem getUnconfirmedTransaction_of_slots (m : Module) (t : Trs) (slots : List Slot)
    (index : List (String × Nat))
    (h1 : m.unconfirmedTransactions = slots ++ [Slot.transaction t])
    (h2 : m.unconfirmedTransactionsIdIndex = setKey index t.id slots.length) :
    getUnconfirmedTransaction m t.id = some (.transaction t) := by
  unfold getUnconfirmedTransaction
  rw [h2, getKey_setKey]
  simp [h1]

/-- C13: when admission of a transaction succeeds, in
private.addUnconfirmedTransaction as in processUnconfirmedTransaction (the
callback gets no error), getUnconfirmedTransaction of its id returns that
transaction. -/
theorem admitted_transaction_is_retrievable (lg : Logic) (address : String → String)
    (m m1 : Module) (t : Trs) (broadcast : Bool) :
    (addUnconfirmedTransaction lg address m t = (m1, none) →
      getUnconfirmedTransaction m1 t.id = some (.transaction t)) ∧
    (processUnconfirmedTransaction lg address m t broadcast = (m1, .called none) →
      getUnconfirmedTransaction m1 t.id = some (.transaction t)) := by
  have hadd : ∀ m2, addUnconfirmedTransaction lg address m t = (m2, none) →
      getUnconfirmedTransaction m2 t.id = some (.transaction t) := by
    intro m2 h
    obtain ⟨h1, h2, _⟩ := addUnconfirmedTransaction_ok lg address m m2 t h
    exact getUnconfirmedTransaction_of_slots m2 t _ _ h1 h2
  have hdone : ∀ err, processDone lg address m t broadcast err = (m1, .called none) →
      getUnconfirmedTransaction m1 t.id = some (.transaction t) := by
    intro err h
    unfold processDone at h
    cases err with
    | some e => simp at h
    | none =>
      simp only [] at h
      cases hr : addUnconfirmedTransaction lg address m t with
      | mk m2 e2 =>
        cases e2 with
        | some e => simp [hr] at h
        | none =>
          simp only [hr] at h
          injection h with h1 _
          subst h1
          have := hadd m2 hr
          simpa [getUnconfirmedTransaction] using this
  refine ⟨hadd m1, ?_⟩
  intro h
  unfold processUnconfirmedTransaction at h
  simp only [] at h
  by_cases hready : lg.ready t (getAccountByPublicKey m.accounts t.senderPublicKey) = true
  · simp only [hready, not_true_eq_false, if_false] at h
    cases hp : lg.process t (getAccountByPublicKey m.accounts t.senderPublicKey) with
    | none => simp [hp] at h
    | some p =>
      simp only [hp] at h
      split at h
      · simp at h
      · exact hdone _ h
  · have hr : lg.ready t (getAccountByPublicKey m.accounts t.senderPublicKey) = false := by
      simpa using hready
    simp only [hr, Bool.false_eq_true, not_false_eq_true, if_true] at h
    exact hdone _ h

/-- C14: after removeUnconfirmedTransaction of an id, getUnconfirmedTransaction
of that id returns no transaction (undefined or false); a second removal of
the same id is defined as well and leaves the slot sequence and the id index
as the first removal left them. -/
theorem removeUnconfirmedTransaction_idempotent (m : Module) (id : String) :
    (getUnconfirmedTransaction (removeUnconfirmedTransaction m id) id = none ∨
      getUnconfirmedTransaction (removeUnconfirmedTransaction m id) id = some .tombstone) ∧
    (removeUnconfirmedTransaction (removeUnconfirmedTransaction m id) id).unconfirmedTransactions
      = (removeUnconfirmedTransaction m id).unconfirmedTransactions ∧
    (removeUnconfirmedTransaction
        (removeUnconfirmedTransaction m id) id).unconfirmedTransactionsIdIndex
      = (removeUnconfirmedTransaction m id).unconfirmedTransactionsIdIndex := by
  have hidx : getKey (removeUnconfirmedTransaction m id).unconfirmedTransactionsIdIndex id
      = none := by
    unfold removeUnconfirmedTransaction
    cases getKey m.unconfirmedTransactionsIdIndex id <;> simp [getKey_eraseKey]
  have hidx2 : (removeUnconfirmedTransaction m id).unconfirmedTransactionsIdIndex
      = eraseKey m.unconfirmedTransactionsIdIndex id := by
    unfold removeUnconfirmedTransaction
    cases getKey m.unconfirmedTransactionsIdIndex id <;> rfl
  refine ⟨?_, ?_, ?_⟩
  · unfold getUnconfirmedTransaction
    rw [hidx]
    by_cases hs : (removeUnconfirmedTransaction m id).strayUndefined = true
    · right; simp [hs]
    · left; simp [hs]
  · exact (removeUnconfirmedTransaction_of_none _ id hidx).1
  · rw [(removeUnconfirmedTransaction_of_none _ id hidx).2, hidx2, eraseKey_eraseKey]

/-- What a failed unconfirmed apply leaves behind: private.addUnconfirmedTransaction
and the done step of processUnconfirmedTransaction fail with the error of the
apply, the transaction is in the double-spend registry under its id, and slot
sequence and id index are unchanged, so the lookup of its id gives what it
gave before: no transaction when the id was not in the index. -/
theorem failed_apply_goes_to_registry (lg : Logic) (address : String → String) (m : Module)
    (t : Trs) (broadcast : Bool) (accounts1 : List Account) (e : String)
    (h : applyUnconfirmed lg address m.accounts t = (accounts1, some e)) :
    (addUnconfirmedTransaction lg address m t).2 = some e ∧
    processDone lg address m t broadcast none =
      ((addUnconfirmedTransaction lg address m t).1, .called (some e)) ∧
    getKey (addUnconfirmedTransaction lg address m t).1.doubleSpendingTransactions t.id
      = some t ∧
    (addUnconfirmedTransaction lg address m t).1.unconfirmedTransactions
      = m.unconfirmedTransactions ∧
    (addUnconfirmedTransaction lg address m t).1.unconfirmedTransactionsIdIndex
      = m.unconfirmedTransactionsIdIndex ∧
    getUnconfirmedTransaction (addUnconfirmedTransaction lg address m t).1 t.id
      = getUnconfirmedTransaction m t.id ∧
    (getKey m.unconfirmedTransactionsIdIndex t.id = none →
      ∀ u, getUnconfirmedTransaction (addUnconfirmedTransaction lg address m t).1 t.id
        ≠ some (.transaction u)) := by
  have hadd : addUnconfirmedTransaction lg address m t =
      (addDoubleSpending { m with accounts := accounts1 } t, some e) := by
    unfold addUnconfirmedTransaction
    rw [h]
  refine ⟨by rw [hadd], ?_, ?_, by rw [hadd]; rfl, by rw [hadd]; rfl, by rw [hadd]; rfl, ?_⟩
  · unfold processDone
    simp only [hadd]
  · rw [hadd]
    simp [addDoubleSpending, getKey_setKey]
  · intro hnone u
    rw [hadd]
    simp only [getUnconfirmedTransaction, addDoubleSpending, hnone]
    split <;> simp

theorem getUnconfirmedTransaction_transaction (m : Module) (id : String) (t : Trs)
    (h : getUnconfirmedTransaction m id = some (.transaction t)) :
    ∃ i, getKey m.unconfirmedTransactionsIdIndex id = some i ∧
      m.unconfirmedTransactions[i]? = some (.transaction t) := by
  unfold getUnconfirmedTransaction at h
  cases hk : getKey m.unconfirmedTransactionsIdIndex id with
  | none =>
    rw [hk] at h
    by_cases hs : m.strayUndefined = true <;> simp [hs] at h
  | some i =>
    rw [hk] at h
    exact ⟨i, rfl, by simpa using h⟩

theorem getUnconfirmedTransaction_of_index (m : Module) (id : String) (i : Nat)
    (h : getKey m.unconfirmedTransactionsIdIndex id = some i) :
    getUnconfirmedTransaction m id = m.unconfirmedTransactions[i]? := by
  unfold getUnconfirmedTransaction
  rw [h]
  simp

theorem getUnconfirmedTransaction_of_no_index (m : Module) (id : String)
    (h : getKey m.unconfirmedTransactionsIdIndex id = none) (u : Trs) :
    getUnconfirmedTransaction m id ≠ some (.transaction u) := by
  unfold getUnconfirmedTransaction
  rw [h]
  by_cases hs : m.strayUndefined = true <;> simp [hs]

/-- What a run of `applyUnconfirmedList` over transactions of the pool with
distinct ids leaves: the per-transaction results together with the frame that
the induction carries. -/
theorem applyUnconfirmedList_run (lg : Logic) (address : String → String) :
    ∀ (ts : List Trs) (m : Module),
      (∀ t ∈ ts, getUnconfirmedTransaction m t.id = some (.transaction t)) →
      (ts.map (fun t => t.id)).Nodup →
      ∃ m1, applyUnconfirmedList lg address (ts.map (fun t => t.id)) m = (m1, .called none) ∧
        m1.accounts = applyAccounts lg address ts m.accounts ∧
        (∀ t r, (t, r) ∈ ts.zip (applyResults lg address ts m.accounts) →
          (r = none → getUnconfirmedTransaction m1 t.id = some (.transaction t)) ∧
          (r ≠ none →
            getKey m1.unconfirmedTransactionsIdIndex t.id = none ∧
            (∀ i, getKey m.unconfirmedTransactionsIdIndex t.id = some i →
              m1.unconfirmedTransactions[i]? = some Slot.tombstone) ∧
            getKey m1.doubleSpendingTransactions t.id = some t)) ∧
        (∀ a, a ∉ ts.map (fun t => t.id) →
          getKey m1.unconfirmedTransactionsIdIndex a =
            getKey m.unconfirmedTransactionsIdIndex a ∧
          getKey m1.doubleSpendingTransactions a = getKey m.doubleSpendingTransactions a) ∧
        (∀ j : Nat, (∀ t ∈ ts, getKey m.unconfirmedTransactionsIdIndex t.id ≠ some j) →
          m1.unconfirmedTransactions[j]? = m.unconfirmedTransactions[j]?) ∧
        (∀ j : Nat, m.unconfirmedTransactions[j]? = some Slot.tombstone →
          m1.unconfirmedTransactions[j]? = some Slot.tombstone) := by
  intro ts
  induction ts with
  | nil =>
    intro m _ _
    exact ⟨m, rfl, rfl, by simp [applyResults], fun a _ => ⟨rfl, rfl⟩, fun j _ => rfl,
      fun j h => h⟩
  | cons t rest ih =>
    intro m hpool hnodup
    have ht := hpool t (List.mem_cons_self _ _)
    obtain ⟨i, hi, hslot⟩ := getUnconfirmedTransaction_transaction m t.id t ht
    simp only [List.map_cons, List.nodup_cons] at hnodup
    obtain ⟨hnotin, hnodup_rest⟩ := hnodup
    have hne : ∀ u ∈ rest, u.id ≠ t.id := by
      intro u hu e
      exact hnotin (List.mem_map.mpr ⟨u, hu, e⟩)
    -- the index of another transaction of the list is another slot
    have hother : ∀ u ∈ rest, getKey m.unconfirmedTransactionsIdIndex u.id ≠ some i := by
      intro u hu e
      have hu2 := hpool u (List.mem_cons_of_mem _ hu)
      rw [getUnconfirmedTransaction_of_index m u.id i e, hslot] at hu2
      injection hu2 with hu2
      injection hu2 with hu2
      exact hne u hu (by rw [hu2])
    cases hr : applyUnconfirmed lg address m.accounts t with
    | mk accounts1 r =>
      cases r with
      | none =>
        have hpool1 : ∀ u ∈ rest,
            getUnconfirmedTransaction { m with accounts := accounts1 } u.id =
              some (.transaction u) := fun u hu => hpool u (List.mem_cons_of_mem _ hu)
        obtain ⟨m1, hrun, hacc, hres, hframe, hslots, htomb⟩ :=
          ih { m with accounts := accounts1 } hpool1 hnodup_rest
        refine ⟨m1, ?_, ?_, ?_, ?_, ?_, ?_⟩
        · simp only [List.map_cons]
          unfold applyUnconfirmedList
          simp only [ht, hr]
          exact hrun
        · simp only [applyAccounts, hr]
          exact hacc
        · intro u r hur
          simp only [applyResults, hr, List.zip_cons_cons, List.mem_cons] at hur
          rcases hur with hur | hur
          · injection hur with h1 h2
            subst h1; subst h2
            refine ⟨fun _ => ?_, fun h => absurd rfl h⟩
            have h1 := (hframe u.id hnotin).1
            simp only [] at h1
            rw [getUnconfirmedTransaction_of_index m1 u.id i (by rw [h1, hi]),
              hslots i hother]
            exact hslot
          · exact hres u r hur
        · intro a ha
          simp only [List.map_cons, List.mem_cons, not_or] at ha
          exact hframe a ha.2
        · intro j hj
          exact hslots j (fun u hu => hj u (List.mem_cons_of_mem _ hu))
        · exact htomb
      | some e =>
        have hrem : removeUnconfirmedTransaction { m with accounts := accounts1 } t.id =
            { m with
              accounts := accounts1
              unconfirmedTransactionsIdIndex := eraseKey m.unconfirmedTransactionsIdIndex t.id
              unconfirmedTransactions := m.unconfirmedTransactions.set i .tombstone } := by
          unfold removeUnconfirmedTransaction
          simp only [hi]
        have hidx1 : ∀ a, a ≠ t.id →
            getKey (eraseKey m.unconfirmedTransactionsIdIndex t.id) a =
              getKey m.unconfirmedTransactionsIdIndex a := by
          intro a ha
          have ha2 : ¬ t.id = a := fun e => ha e.symm
          rw [getKey_eraseKey]
          simp [ha2]
        have hset : ∀ j, j ≠ i →
            (m.unconfirmedTransactions.set i Slot.tombstone)[j]? =
              m.unconfirmedTransactions[j]? := by
          intro j hj
          have hj2 : ¬ i = j := fun e => hj e.symm
          simp [List.getElem?_set, hj2]
        have hlt : i < m.unconfirmedTransactions.length := by
          rcases Nat.lt_or_ge i m.unconfirmedTransactions.length with h | h
          · exact h
          · rw [List.getElem?_eq_none h] at hslot
            cases hslot
        have hseti : (m.unconfirmedTransactions.set i Slot.tombstone)[i]? =
            some Slot.tombstone := by
          simp [List.getElem?_set, hlt]
        let m2 : Module := addDoubleSpending
          (removeUnconfirmedTransaction { m with accounts := accounts1 } t.id) t
        have hm2idx : m2.unconfirmedTransactionsIdIndex =
            eraseKey m.unconfirmedTransactionsIdIndex t.id := by
          simp only [m2, hrem, addDoubleSpending]
        have hm2slots : m2.unconfirmedTransactions =
            m.unconfirmedTransactions.set i .tombstone := by
          simp only [m2, hrem, addDoubleSpending]
        have hm2reg : m2.doubleSpendingTransactions =
            setKey m.doubleSpendingTransactions t.id t := by
          simp only [m2, hrem, addDoubleSpending]
        have hm2acc : m2.accounts = accounts1 := by
          simp only [m2, hrem, addDoubleSpending]
        have hpool2 : ∀ u ∈ rest, getUnconfirmedTransaction m2 u.id =
            some (.transaction u) := by
          intro u hu
          have hu2 := hpool u (List.mem_cons_of_mem _ hu)
          obtain ⟨j, hj, hjslot⟩ := getUnconfirmedTransaction_transaction m u.id u hu2
          have hji : j ≠ i := fun e => hother u hu (by rw [hj, e])
          rw [getUnconfirmedTransaction_of_index m2 u.id j
            (by rw [hm2idx, hidx1 u.id (hne u hu)]; exact hj), hm2slots, hset j hji]
          exact hjslot
        obtain ⟨m1, hrun, hacc, hres, hframe, hslots, htomb⟩ := ih m2 hpool2 hnodup_rest
        have hother2 : ∀ u ∈ rest, getKey m2.unconfirmedTransactionsIdIndex u.id ≠ some i := by
          intro u hu
          rw [hm2idx, hidx1 u.id (hne u hu)]
          exact hother u hu
        refine ⟨m1, ?_, ?_, ?_, ?_, ?_, ?_⟩
        · simp only [List.map_cons]
          unfold applyUnconfirmedList
          simp only [ht, hr]
          exact hrun
        · simp only [applyAccounts, hr]
          rw [hacc, hm2acc]
        · intro u r hur
          simp only [applyResults, hr, List.zip_cons_cons, List.mem_cons] at hur
          rcases hur with hur | hur
          · injection hur with h1 h2
            subst h1; subst h2
            refine ⟨fun h => Option.noConfusion h, fun _ => ⟨?_, ?_, ?_⟩⟩
            · rw [(hframe u.id hnotin).1, hm2idx, getKey_eraseKey]
              simp
            · intro i1 hi1
              rw [hi] at hi1
              injection hi1 with hi1
              subst hi1
              apply htomb
              rw [hm2slots]
              exact hseti
            · rw [(hframe u.id hnotin).2, hm2reg, getKey_setKey]
              simp
          · have hu : u ∈ rest := (List.of_mem_zip hur).1
            rw [← hm2acc] at hur
            obtain ⟨h1, h2⟩ := hres u r hur
            refine ⟨h1, fun hrne => ?_⟩
            obtain ⟨h3, h4, h5⟩ := h2 hrne
            refine ⟨h3, fun i1 hi1 => h4 i1 ?_, h5⟩
            rw [hm2idx, hidx1 u.id (hne u hu)]
            exact hi1
        · intro a ha
          simp only [List.map_cons, List.mem_cons, not_or] at ha
          obtain ⟨h1, h2⟩ := hframe a ha.2
          refine ⟨?_, ?_⟩
          · rw [h1, hm2idx, hidx1 a ha.1]
          · have ha2 : ¬ t.id = a := fun e => ha.1 e.symm
            rw [h2, hm2reg, getKey_setKey]
            simp [ha2]
        · intro j hj
          have hji : j ≠ i := fun e => hj t (List.mem_cons_self _ _) (by rw [hi, e])
          rw [hslots j (fun u hu => by
            rw [hm2idx, hidx1 u.id (hne u hu)]
            exact hj u (List.mem_cons_of_mem _ hu)), hm2slots, hset j hji]
        · intro j hj
          apply htomb
          rw [hm2slots]
          by_cases hji : j = i
          · subst hji; exact hseti
          · rw [hset j hji]; exact hj

theorem undoSeries_all_live (lg : Logic)
    (hok : ∀ accounts t sender, (lg.undoUnconfirmed accounts t sender).2 = none) :
    ∀ (ts : List Trs) (accounts : List Account) (ids : List String),
      (undoSeries lg (ts.map Slot.transaction) accounts ids).2 =
        .called none (ids ++ ts.map (fun t => t.id)) := by
  intro ts
  induction ts with
  | nil => intro accounts ids; simp [undoSeries]
  | cons t rest ih =>
    intro accounts ids
    simp only [List.map_cons, undoSeries]
    cases hr : undoUnconfirmed lg accounts t with
    | mk accounts1 err =>
      have herr : err = none := by
        have := hok accounts t (getAccountByPublicKey accounts t.senderPublicKey)
        unfold undoUnconfirmed at hr
        rw [hr] at this
        exact this
      subst herr
      simp only []
      rw [ih accounts1 (ids ++ [t.id])]
      simp

/-- The two branches of processUnconfirmedTransaction: a transaction that is
reported not ready goes straight to the done step without error, so it is
handed to the unconfirmed apply and, when that succeeds, is in the pool
afterwards; a transaction that is reported ready is admitted only when process
delivered a transaction whose id is neither in the id index nor in the
double-spend registry and verify reported no error, and a duplicate id leaves
the module as it was. -/
theorem processUnconfirmedTransaction_gate (lg : Logic) (address : String → String)
    (m : Module) (t : Trs) (broadcast : Bool) :
    (lg.ready t (getAccountByPublicKey m.accounts t.senderPublicKey) = false →
      processUnconfirmedTransaction lg address m t broadcast =
        processDone lg address m t broadcast none ∧
      ((applyUnconfirmed lg address m.accounts t).2 = none →
        (processUnconfirmedTransaction lg address m t broadcast).2 = .called none ∧
        getUnconfirmedTransaction (processUnconfirmedTransaction lg address m t broadcast).1
          t.id = some (.transaction t))) ∧
    (lg.ready t (getAccountByPublicKey m.accounts t.senderPublicKey) = true →
      (∀ m1, processUnconfirmedTransaction lg address m t broadcast = (m1, .called none) →
        ∃ p, lg.process t (getAccountByPublicKey m.accounts t.senderPublicKey) = some p ∧
          getKey m.unconfirmedTransactionsIdIndex p.id = none ∧
          getKey m.doubleSpendingTransactions p.id = none ∧
          lg.verify p (getAccountByPublicKey m.accounts t.senderPublicKey) = none) ∧
      (∀ p, lg.process t (getAccountByPublicKey m.accounts t.senderPublicKey) = some p →
        ((getKey m.unconfirmedTransactionsIdIndex p.id).isSome = true ∨
          (getKey m.doubleSpendingTransactions p.id).isSome = true) →
        processUnconfirmedTransaction lg address m t broadcast =
          (m, .called (some "This transaction already exists")))) := by
  constructor
  · intro hr
    have heq : processUnconfirmedTransaction lg address m t broadcast =
        processDone lg address m t broadcast none := by
      unfold processUnconfirmedTransaction
      simp only [hr, Bool.false_eq_true, not_false_eq_true, if_true]
    refine ⟨heq, fun happly => ?_⟩
    cases hadd : addUnconfirmedTransaction lg address m t with
    | mk m2 e2 =>
      have he2 : e2 = none := by
        unfold addUnconfirmedTransaction at hadd
        cases hap : applyUnconfirmed lg address m.accounts t with
        | mk accounts1 r =>
          rw [hap] at happly
          simp only [] at happly
          subst happly
          simp only [hap] at hadd
          injection hadd with _ h2
          exact h2.symm
      subst he2
      have hdone : processDone lg address m t broadcast none =
          ({ m2 with bus := m2.bus ++ [(t, broadcast)] }, .called none) := by
        unfold processDone
        simp only [hadd]
      rw [heq, hdone]
      refine ⟨rfl, ?_⟩
      obtain ⟨h1, h2, _⟩ := addUnconfirmedTransaction_ok lg address m m2 t hadd
      exact getUnconfirmedTransaction_of_slots _ t _ _ h1 h2
  · intro hr
    constructor
    · intro m1 h
      unfold processUnconfirmedTransaction at h
      simp only [hr, not_true_eq_false, if_false] at h
      cases hp : lg.process t (getAccountByPublicKey m.accounts t.senderPublicKey) with
      | none => simp [hp] at h
      | some p =>
        simp only [hp] at h
        by_cases hdup : (getKey m.unconfirmedTransactionsIdIndex p.id).isSome = true ∨
            (getKey m.doubleSpendingTransactions p.id).isSome = true
        · rw [if_pos hdup] at h
          simp at h
        · rw [if_neg hdup] at h
          simp only [not_or, Bool.not_eq_true] at hdup
          have hnone : ∀ {α : Type} (o : Option α), o.isSome = false → o = none := by
            intro α o ho
            cases o with
            | none => rfl
            | some x => cases ho
          refine ⟨p, rfl, hnone _ hdup.1, hnone _ hdup.2, ?_⟩
          cases hv : lg.verify p (getAccountByPublicKey m.accounts t.senderPublicKey) with
          | none => rfl
          | some e =>
            rw [hv] at h
            simp [processDone] at h
    · intro p hp hdup
      unfold processUnconfirmedTransaction
      simp only [hr, not_true_eq_false, if_false, hp]
      rw [if_pos hdup]

/-- On the ready branch a failed unconfirmed apply leaves the transaction out
of the pool: when the transaction is reported ready, process hands back a
transaction of the same id, that id is neither in the id index nor in the
double-spend registry (otherwise the call ends with "This transaction already
exists" before any apply), verify reports no error and the unconfirmed apply
fails, the call fails with the error of the apply, the transaction is in the
double-spend registry under its id, slots and id index are unchanged and the
lookup of its id gives no transaction. -/
theorem ready_failed_apply_is_not_pooled (lg : Logic) (address : String → String)
    (m : Module) (t p : Trs) (broadcast : Bool) (accounts1 : List Account) (e : String)
    (hr : lg.ready t (getAccountByPublicKey m.accounts t.senderPublicKey) = true)
    (hp : lg.process t (getAccountByPublicKey m.accounts t.senderPublicKey) = some p)
    (hid : p.id = t.id)
    (hnew : ¬ ((getKey m.unconfirmedTransactionsIdIndex p.id).isSome = true ∨
      (getKey m.doubleSpendingTransactions p.id).isSome = true))
    (hv : lg.verify p (getAccountByPublicKey m.accounts t.senderPublicKey) = none)
    (h : applyUnconfirmed lg address m.accounts t = (accounts1, some e)) :
    (processUnconfirmedTransaction lg address m t broadcast).2 = .called (some e) ∧
    getKey (processUnconfirmedTransaction lg address m t broadcast).1.doubleSpendingTransactions
      t.id = some t ∧
    (processUnconfirmedTransaction lg address m t broadcast).1.unconfirmedTransactions
      = m.unconfirmedTransactions ∧
    (processUnconfirmedTransaction lg address m t broadcast).1.unconfirmedTransactionsIdIndex
      = m.unconfirmedTransactionsIdIndex ∧
    ∀ u, getUnconfirmedTransaction (processUnconfirmedTransaction lg address m t broadcast).1
      t.id ≠ some (.transaction u) := by
  have hcall : processUnconfirmedTransaction lg address m t broadcast =
      processDone lg address m t broadcast none := by
    unfold processUnconfirmedTransaction
    simp only [hr, not_true_eq_false, if_false, hp]
    rw [if_neg hnew, hv]
  obtain ⟨_, hdone, hreg, hslots, hidx, _, hlook⟩ :=
    failed_apply_goes_to_registry lg address m t broadcast accounts1 e h
  rw [hcall, hdone]
  refine ⟨rfl, hreg, hslots, hidx, ?_⟩
  apply hlook
  simp only [not_or, Bool.not_eq_true] at hnew
  rw [← hid]
  cases hk : getKey m.unconfirmedTransactionsIdIndex p.id with
  | none => rfl
  | some i => rw [hk] at hnew; simp at hnew

/-- C16 at a concrete input: a transaction that is reported not ready, that
verify would refuse and whose id is already in the double-spend registry is
inserted into the pool: the not-ready branch calls the done step without an
error. -/
theorem not_ready_transaction_is_admitted :
    Example.pendingLogic.ready (Example.trs "a" 10)
      (getAccountByPublicKey Example.spentModule.accounts "k1") = false ∧
    Example.pendingLogic.verify (Example.trs "a" 10)
      (getAccountByPublicKey Example.spentModule.accounts "k1") = some "INVALID_SIGNATURE" ∧
    (getKey Example.spentModule.doubleSpendingTransactions "a").isSome = true ∧
    (processUnconfirmedTransaction Example.pendingLogic Example.address Example.spentModule
      (Example.trs "a" 10) true).2 = .called none ∧
    getUnconfirmedTransaction
      (processUnconfirmedTransaction Example.pendingLogic Example.address
        Example.spentModule (Example.trs "a" 10) true).1 "a" =
      some (.transaction (Example.trs "a" 10)) := by
  with_unfolding_all decide

/-- Witness of C13: the transfer of 10 is admitted on the empty pool and is
then returned under its id. -/
theorem admitted_transaction_is_retrievable_witness :
    processUnconfirmedTransaction Example.logic Example.address Example.emptyModule
      (Example.trs "a" 10) true = (Example.onceModule, .called none) ∧
    getUnconfirmedTransaction Example.onceModule "a" =
      some (.transaction (Example.trs "a" 10)) :=
  ⟨by with_unfolding_all decide,
   (admitted_transaction_is_retrievable Example.logic Example.address Example.emptyModule
      Example.onceModule (Example.trs "a" 10) true).2 (by with_unfolding_all decide)⟩

/-- A failed apply on the empty pool: a transfer of 100 from a sender with
unconfirmed balance 50 fails with INSUFFICIENT_FUNDS, is in the double-spend
registry and not in the pool. -/
theorem failed_apply_goes_to_registry_witness :
    (addUnconfirmedTransaction Example.logic Example.address Example.emptyModule
      (Example.trs "x" 100)).2 = some "INSUFFICIENT_FUNDS" ∧
    getKey (addUnconfirmedTransaction Example.logic Example.address Example.emptyModule
      (Example.trs "x" 100)).1.doubleSpendingTransactions "x" = some (Example.trs "x" 100) ∧
    (addUnconfirmedTransaction Example.logic Example.address Example.emptyModule
      (Example.trs "x" 100)).1.unconfirmedTransactions = [] ∧
    ∀ u, getUnconfirmedTransaction
      (addUnconfirmedTransaction Example.logic Example.address Example.emptyModule
        (Example.trs "x" 100)).1 "x" ≠ some (.transaction u) :=
  have h := failed_apply_goes_to_registry Example.logic Example.address Example.emptyModule
    (Example.trs "x" 100) true [Example.sender] "INSUFFICIENT_FUNDS"
    (by with_unfolding_all decide)
  ⟨h.1, h.2.2.1, h.2.2.2.1, h.2.2.2.2.2.2 (by decide)⟩

/-- C15 at a concrete input: the transfer of 30 is reported not ready and is
admitted on the empty pool, which leaves the sender an unconfirmed balance of
20; a second call with the same transaction goes to the unconfirmed apply
again, which fails; the call fails with INSUFFICIENT_FUNDS, the transaction is
in the double-spend registry under its id and slots and id index are
unchanged, yet the lookup of its id returns it: it was pooled before, and the
not-ready branch reaches the apply without the duplicate check. -/
theorem failed_apply_leaves_pooled_copy :
    processUnconfirmedTransaction Example.pendingLogic Example.address Example.emptyModule
      (Example.trs "a" 30) true = (Example.admittedModule, .called none) ∧
    applyUnconfirmed Example.pendingLogic Example.address Example.admittedModule.accounts
      (Example.trs "a" 30) = (Example.admittedModule.accounts, some "INSUFFICIENT_FUNDS") ∧
    processUnconfirmedTransaction Example.pendingLogic Example.address Example.admittedModule
      (Example.trs "a" 30) true =
      (Example.refusedModule, .called (some "INSUFFICIENT_FUNDS")) ∧
    getKey Example.refusedModule.doubleSpendingTransactions "a" = some (Example.trs "a" 30) ∧
    Example.refusedModule.unconfirmedTransactions =
      Example.admittedModule.unconfirmedTransactions ∧
    Example.refusedModule.unconfirmedTransactionsIdIndex =
      Example.admittedModule.unconfirmedTransactionsIdIndex ∧
    getUnconfirmedTransaction Example.refusedModule "a" =
      some (.transaction (Example.trs "a" 30)) := by
  with_unfolding_all decide

/-- C17 at a concrete input: from the empty pool, two calls of
processUnconfirmedTransaction with the same not-ready transaction put its id
into two live slots (the index names only the second), and a third call with
the same id and an amount the sender cannot cover puts the id into the
double-spend registry while it is still pooled. -/
theorem pool_uniqueness_is_broken :
    processUnconfirmedTransaction Example.pendingLogic Example.address Example.emptyModule
      (Example.trs "a" 10) true = (Example.onceModule, .called none) ∧
    processUnconfirmedTransaction Example.pendingLogic Example.address Example.onceModule
      (Example.trs "a" 10) true = (Example.twiceModule, .called none) ∧
    liveIds Example.twiceModule = ["a", "a"] ∧
    ¬ (liveIds Example.twiceModule).Nodup ∧
    (getKey
      (processUnconfirmedTransaction Example.pendingLogic Example.address Example.twiceModule
        (Example.trs "a" 70) true).1.doubleSpendingTransactions "a").isSome = true ∧
    "a" ∈ liveIds
      (processUnconfirmedTransaction Example.pendingLogic Example.address Example.twiceModule
        (Example.trs "a" 70) true).1 := by
  with_unfolding_all decide

/-- C18: for transactions of the pool with distinct ids, applyUnconfirmedList
on their ids applies them in list order, each on the accounts the previous
apply left, and ends by calling back without error whatever the applies
report; afterwards a transaction whose apply succeeded is still returned by
getUnconfirmedTransaction, and one whose apply failed has no index entry, is
not returned, has its slot tombstoned and is in the double-spend registry. -/
theorem applyUnconfirmedList_demotes_failures (lg : Logic) (address : String → String)
    (ts : List Trs) (m : Module)
    (hpool : ∀ t ∈ ts, getUnconfirmedTransaction m t.id = some (.transaction t))
    (hdistinct : (ts.map (fun t => t.id)).Nodup) :
    ∃ m1, applyUnconfirmedList lg address (ts.map (fun t => t.id)) m = (m1, .called none) ∧
      m1.accounts = applyAccounts lg address ts m.accounts ∧
      ∀ t r, (t, r) ∈ ts.zip (applyResults lg address ts m.accounts) →
        (r = none → getUnconfirmedTransaction m1 t.id = some (.transaction t)) ∧
        (r ≠ none →
          getKey m1.unconfirmedTransactionsIdIndex t.id = none ∧
          (∀ u, getUnconfirmedTransaction m1 t.id ≠ some (.transaction u)) ∧
          (∀ i, getKey m.unconfirmedTransactionsIdIndex t.id = some i →
            m1.unconfirmedTransactions[i]? = some Slot.tombstone) ∧
          getKey m1.doubleSpendingTransactions t.id = some t) := by
  obtain ⟨m1, hrun, hacc, hres, _⟩ := applyUnconfirmedList_run lg address ts m hpool hdistinct
  refine ⟨m1, hrun, hacc, fun t r htr => ?_⟩
  obtain ⟨h1, h2⟩ := hres t r htr
  refine ⟨h1, fun hne => ?_⟩
  obtain ⟨h3, h4, h5⟩ := h2 hne
  exact ⟨h3, getUnconfirmedTransaction_of_no_index m1 t.id h3, h4, h5⟩

/-- Witness of C18: the sender has 50; the transfer of 45 applies, the
transfer of 10 then fails and is demoted, and the batch still ends without
error. -/
theorem applyUnconfirmedList_demotes_failures_witness :
    applyResults Example.logic Example.address
      [Example.trs "big" 45, Example.trs "a" 10] Example.pooledModule.accounts =
      [none, some "INSUFFICIENT_FUNDS"] ∧
    ∃ m1, applyUnconfirmedList Example.logic Example.address ["big", "a"]
        Example.pooledModule = (m1, .called none) ∧
      m1.accounts = applyAccounts Example.logic Example.address
        [Example.trs "big" 45, Example.trs "a" 10] Example.pooledModule.accounts ∧
      ∀ t r, (t, r) ∈ [Example.trs "big" 45, Example.trs "a" 10].zip
          (applyResults Example.logic Example.address
            [Example.trs "big" 45, Example.trs "a" 10] Example.pooledModule.accounts) →
        (r = none → getUnconfirmedTransaction m1 t.id = some (.transaction t)) ∧
        (r ≠ none →
          getKey m1.unconfirmedTransactionsIdIndex t.id = none ∧
          (∀ u, getUnconfirmedTransaction m1 t.id ≠ some (.transaction u)) ∧
          (∀ i, getKey Example.pooledModule.unconfirmedTransactionsIdIndex t.id = some i →
            m1.unconfirmedTransactions[i]? = some Slot.tombstone) ∧
          getKey m1.doubleSpendingTransactions t.id = some t) :=
  ⟨by with_unfolding_all decide,
   applyUnconfirmedList_demotes_failures Example.logic Example.address
     [Example.trs "big" 45, Example.trs "a" 10] Example.pooledModule
     (by with_unfolding_all decide) (by with_unfolding_all decide)⟩

/-- C19 at a concrete input: in a pool whose second slot was emptied by a
removal, undoUnconfirmedList undoes the first transaction and then stops at the
emptied slot: its callback is never invoked and the third slot's transaction
is never undone. -/
theorem undoUnconfirmedList_stalls_at_tombstone :
    getUnconfirmedTransactionList Example.holedModule false =
      [Example.trs "a" 10, Example.trs "c" 5] ∧
    undoUnconfirmedList Example.logic Example.holedModule =
      ({ Example.holedModule with
          accounts := [{ Example.sender with unconfirmedBalance := 60 }] },
        .neverCalled ["a"]) := by
  with_unfolding_all decide

end Transactions

namespace Transfer

theorem calculateFee_of_plain_notation (blockFee : ℚ) (trs : Transactions.Trs)
    (h0 : trs.amount / 100 * blockFee = 0 ∨ 1 / 1000000 ≤ trs.amount / 100 * blockFee)
    (h1 : trs.amount / 100 * blockFee < 1000000000000000000000) :
    calculateFee blockFee trs = max 1 ⌊trs.amount / 100 * blockFee⌋ := by
  have hfloor : ∀ x : ℚ, Rat.floor x = ⌊x⌋ := fun x => rfl
  unfold calculateFee parseInt parseIntNonneg
  simp only []
  rcases h0 with h0 | h0
  · simp [h0]
  · have hpos : (0 : ℚ) < trs.amount / 100 * blockFee := lt_of_lt_of_le (by norm_num) h0
    have hne : trs.amount / 100 * blockFee ≠ 0 := ne_of_gt hpos
    have hnn : ¬ trs.amount / 100 * blockFee < 0 := not_lt.mpr (le_of_lt hpos)
    have hsmall : ¬ trs.amount / 100 * blockFee < 1 / 1000000 := not_lt.mpr h0
    simp only [hnn, hne, hsmall, h1, if_true, if_false, hfloor]
    have hfl : 0 ≤ ⌊trs.amount / 100 * blockFee⌋ := Int.floor_nonneg.mpr (le_of_lt hpos)
    by_cases hz : ⌊trs.amount / 100 * blockFee⌋ = 0
    · simp [hz]
    · simp only [hz, if_false]
      omega

/-- C20 at a concrete input: for amount 1 and block fee rate 0.00005 the
product amount/100 * rate is 0.0000005, which is written 5e-7, so parseInt
reads 5 and calculateFee returns 5, while max(1, floor(0.0000005)) is 1. -/
theorem calculateFee_reads_exponent_notation :
    (1 : ℚ) / 100 * (1 / 20000) = 5 / 10000000 ∧
    calculateFee (1 / 20000) (Transactions.Example.trs "a" 1) = 5 ∧
    max 1 ⌊(1 : ℚ) / 100 * (1 / 20000)⌋ = 1 := by
  refine ⟨by norm_num, by with_unfolding_all decide, ?_⟩
  have h : ⌊(1 : ℚ) / 100 * (1 / 20000)⌋ = 0 := by
    rw [Int.floor_eq_iff]
    constructor <;> norm_num
  rw [h]
  rfl

end Transfer

/-! ## The Transfer handler: verify, apply, undo, ready -/

namespace Transfer

theorem toLower_upper :
    ∀ n : Nat, n < 91 → 65 ≤ n →
      (Char.toLower (Char.ofNat n)).isDigit = (Char.ofNat n).isDigit ∧
      inClass (Char.toLower (Char.ofNat n)) = inClass (Char.ofNat n) := by
  decide

theorem toLower_classes (c : Char) :
    c.toLower.isDigit = c.isDigit ∧ inClass c.toLower = inClass c := by
  by_cases h : c.toNat ≥ 65 ∧ c.toNat ≤ 90
  · have h1 := toLower_upper c.toNat (by omega) h.1
    rw [Char.ofNat_toNat] at h1
    exact h1
  · have h2 : c.toLower = c := by
      unfold Char.toLower
      simp only [h, if_false]
    rw [h2]
    exact ⟨rfl, rfl⟩

theorem afterDigit_map_toLower (l : List Char) :
    afterDigit (l.map Char.toLower) = afterDigit l := by
  induction l with
  | nil => rfl
  | cons c rest ih =>
    cases rest with
    | nil => simp [afterDigit, (toLower_classes c).2]
    | cons d rest1 =>
      simp only [List.map_cons, afterDigit] at ih ⊢
      rw [ih, (toLower_classes c).1]

theorem isAddress_toLowerCase (s : String) : isAddress (toLowerCase s) = isAddress s := by
  unfold isAddress toLowerCase
  cases hs : s.data with
  | nil => simp
  | cons c rest =>
    simp only [List.map_cons]
    rw [afterDigit_map_toLower, (toLower_classes c).1]

theorem inClass_iff (c : Char) : inClass c = true ↔ (c = 'C' ∨ c = 'c' ∨ c = '|') := by
  unfold inClass
  simp only [Bool.or_eq_true, decide_eq_true_eq]
  tauto

theorem afterDigit_iff (l : List Char) :
    afterDigit l = true ↔
      ∃ (ds : List Char) (c : Char), (∀ d ∈ ds, d.isDigit = true) ∧ inClass c = true ∧
        l = ds ++ [c] := by
  induction l with
  | nil =>
    simp [afterDigit]
  | cons a rest ih =>
    cases rest with
    | nil =>
      simp only [afterDigit]
      constructor
      · intro h
        exact ⟨[], a, by simp, h, rfl⟩
      · rintro ⟨ds, c, _, hc, hl⟩
        cases ds with
        | nil =>
          simp only [List.nil_append, List.cons.injEq, and_true] at hl
          rw [hl]; exact hc
        | cons d ds1 =>
          simp only [List.cons_append, List.cons.injEq] at hl
          have := hl.2
          cases ds1 <;> simp at this
    | cons b rest1 =>
      simp only [afterDigit, Bool.and_eq_true] at ih ⊢
      constructor
      · rintro ⟨ha, hrest⟩
        obtain ⟨ds, c, hds, hc, hl⟩ := ih.mp hrest
        refine ⟨a :: ds, c, ?_, hc, ?_⟩
        · intro d hd
          rcases List.mem_cons.mp hd with e | e
          · rw [e]; exact ha
          · exact hds d e
        · rw [hl]; rfl
      · rintro ⟨ds, c, hds, hc, hl⟩
        cases ds with
        | nil =>
          simp at hl
        | cons d ds1 =>
          simp only [List.cons_append, List.cons.injEq] at hl
          refine ⟨?_, ih.mpr ⟨ds1, c, fun x hx => hds x (List.mem_cons_of_mem _ hx), hc, hl.2⟩⟩
          rw [hl.1]
          exact hds d (List.mem_cons_self _ _)

theorem isAddress_iff (s : String) : isAddress s = true ↔ patternFormat s := by
  unfold isAddress patternFormat
  generalize s.data = l
  cases l with
  | nil =>
    simp only [Bool.false_eq_true, false_iff]
    rintro ⟨ds, c, _, _, _, hl⟩
    cases ds <;> simp at hl
  | cons a rest =>
    simp only [Bool.and_eq_true]
    constructor
    · rintro ⟨ha, hrest⟩
      obtain ⟨ds, c, hds, hc, hl⟩ := (afterDigit_iff rest).mp hrest
      refine ⟨a :: ds, c, by simp, ?_, (inClass_iff c).mp hc, ?_⟩
      · intro d hd
        rcases List.mem_cons.mp hd with e | e
        · rw [e]; exact ha
        · exact hds d e
      · rw [hl]; rfl
    · rintro ⟨ds, c, hne, hds, hc, hl⟩
      cases ds with
      | nil => exact absurd rfl hne
      | cons d ds1 =>
        simp only [List.cons_append, List.cons.injEq] at hl
        refine ⟨?_, (afterDigit_iff rest).mpr
          ⟨ds1, c, fun x hx => hds x (List.mem_cons_of_mem _ hx), (inClass_iff c).mpr hc, hl.2⟩⟩
        rw [hl.1]
        exact hds d (List.mem_cons_self _ _)

/-- What `Transfer.verify` decides, for every transaction: it succeeds exactly
when the recipient is one or more digits followed by one of C, c and the bar
and the amount is positive; a recipient outside the pattern gives
INVALID_RECIPIENT whatever the amount, and a recipient within it with an
amount of 0 or less gives INVALID_AMOUNT. -/
theorem verify_result (trs : Transactions.Trs) (sender : Option Transactions.Account) :
    (verify trs sender = .ok trs ↔ patternFormat trs.recipientId ∧ 0 < trs.amount) ∧
    (¬ patternFormat trs.recipientId →
      verify trs sender = .error "TRANSACTIONS.INVALID_RECIPIENT") ∧
    (patternFormat trs.recipientId → trs.amount ≤ 0 →
      verify trs sender = .error "TRANSACTIONS.INVALID_AMOUNT") := by
  unfold verify
  rw [isAddress_toLowerCase]
  by_cases hp : patternFormat trs.recipientId
  · have ha : isAddress trs.recipientId = true := (isAddress_iff _).mpr hp
    by_cases hz : trs.amount ≤ 0
    · simp [ha, hz, hp]
    · have hz1 : 0 < trs.amount := not_le.mp hz
      simp [ha, hz, hp, hz1]
  · have ha : ¬ isAddress trs.recipientId = true := fun h => hp ((isAddress_iff _).mp h)
    simp [ha, hp]

/-- C21 at a concrete input: the recipient `1|` is a digit followed by a bar,
not by a letter C, and the amount is 1; `Transfer.verify` calls back with no
error and the transaction, because within the brackets of `[C|c]` the bar is
one of the accepted characters. -/
theorem verify_accepts_bar_recipient :
    Example.barTrs.recipientId = "1|" ∧
    ¬ addressFormat Example.barTrs.recipientId ∧
    verify Example.barTrs none = .ok Example.barTrs := by
  refine ⟨rfl, ?_, by with_unfolding_all decide⟩
  rintro ⟨ds, _, _, h | h⟩
  · have h1 : ("1|" : String).data = ds ++ ['C'] := h
    have h2 := congrArg List.getLast? h1
    simp at h2
  · have h1 : ("1|" : String).data = ds ++ ['c'] := h
    have h2 := congrArg List.getLast? h1
    simp at h2

/-- C23: for every transaction and sender, `Transfer.ready` returns true
exactly when the sender's multisignature key group is empty or the
transaction carries at least as many signatures as the sender's minimum. -/
theorem ready_iff (trs : Transactions.Trs) (sender : Transactions.Account) :
    ready trs sender = true ↔
      sender.keysgroup = [] ∨ sender.min ≤ trs.signatures.length := by
  unfold ready
  by_cases h : sender.keysgroup = []
  · simp [h]
  · have h1 : sender.keysgroup.length ≠ 0 := by
      intro e
      exact h (List.length_eq_zero.mp e)
    simp [h1, h]

end Transfer

/-! ## Field updates on the object a lookup returned -/

theorem updateFirst_updateFirst {α : Type} (p : α → Bool) (f g : α → α)
    (hp : ∀ a, p (g a) = p a) (l : List α) :
    updateFirst p f (updateFirst p g l) = updateFirst p (fun a => f (g a)) l := by
  induction l with
  | nil => rfl
  | cons x xs ih =>
    by_cases h : p x = true
    · have h1 : p (g x) = true := by rw [hp]; exact h
      simp [updateFirst, h, h1]
    · simp [updateFirst, h, ih]

theorem updateFirst_self {α : Type} (p : α → Bool) (f : α → α)
    (hf : ∀ a, p a = true → f a = a) (l : List α) :
    updateFirst p f l = l := by
  induction l with
  | nil => rfl
  | cons x xs ih =>
    by_cases h : p x = true
    · simp [updateFirst, h, hf x h]
    · simp [updateFirst, h, ih]

theorem find_updateFirst_same {α : Type} (p : α → Bool) (f : α → α)
    (hp : ∀ a, p (f a) = p a) (l : List α) :
    (updateFirst p f l).find? p = (l.find? p).map f := by
  induction l with
  | nil => rfl
  | cons x xs ih =>
    by_cases h : p x = true
    · have h1 : p (f x) = true := by rw [hp]; exact h
      simp [updateFirst, h, List.find?, h1]
    · simp [updateFirst, h, List.find?, ih]

theorem find_updateFirst_other {α : Type} (p q : α → Bool) (f : α → α)
    (hq : ∀ a, q (f a) = q a) (hpq : ∀ a, p a = true → q a = false) (l : List α) :
    (updateFirst p f l).find? q = l.find? q := by
  induction l with
  | nil => rfl
  | cons x xs ih =>
    by_cases h : p x = true
    · have h1 : q x = false := hpq x h
      have h2 : q (f x) = false := by rw [hq]; exact h1
      simp [updateFirst, h, List.find?, h1, h2]
    · by_cases h3 : q x = true
      · simp [updateFirst, h, List.find?, h3]
      · simp [updateFirst, h, List.find?, h3, ih]

namespace Transfer

theorem getAccountByAddress_address (accounts : List Transactions.Account) (address : String)
    (a : Transactions.Account) (h : getAccountByAddress accounts address = some a) :
    a.address = address := by
  unfold getAccountByAddress at h
  have := List.find?_some h
  simpa using this

theorem getAccountOrCreateByAddress_found (accounts : List Transactions.Account)
    (address : String) (a : Transactions.Account)
    (h : getAccountByAddress accounts address = some a) :
    getAccountOrCreateByAddress accounts address = (accounts, a) := by
  unfold getAccountOrCreateByAddress
  rw [h]

theorem getAccountOrCreateByAddress_new (accounts : List Transactions.Account)
    (address : String) (h : getAccountByAddress accounts address = none) :
    getAccountOrCreateByAddress accounts address =
      (accounts ++ [{ address := address, publicKey := none, balance := 0,
                      unconfirmedBalance := 0, keysgroup := [], min := 0 }],
       { address := address, publicKey := none, balance := 0,
         unconfirmedBalance := 0, keysgroup := [], min := 0 }) := by
  unfold getAccountOrCreateByAddress
  rw [h]

theorem getAccountOrCreateByAddress_lookup (accounts : List Transactions.Account)
    (address : String) :
    (getAccountOrCreateByAddress accounts address).2.address = address ∧
    getAccountByAddress (getAccountOrCreateByAddress accounts address).1 address =
      some (getAccountOrCreateByAddress accounts address).2 ∧
    ∀ other, other ≠ address →
      getAccountByAddress (getAccountOrCreateByAddress accounts address).1 other =
        getAccountByAddress accounts other := by
  cases h : getAccountByAddress accounts address with
  | some a =>
    rw [getAccountOrCreateByAddress_found accounts address a h]
    exact ⟨getAccountByAddress_address accounts address a h, h, fun _ _ => rfl⟩
  | none =>
    rw [getAccountOrCreateByAddress_new accounts address h]
    refine ⟨rfl, ?_, ?_⟩
    · unfold getAccountByAddress at h ⊢
      simp only []
      rw [List.find?_append, h]
      simp
    · intro other ho
      unfold getAccountByAddress
      simp only []
      rw [List.find?_append]
      have hne : ¬ address = other := fun e => ho e.symm
      cases List.find? (fun a => decide (a.address = other)) accounts <;> simp [hne]

/-- The accounts `Transfer.apply` leaves: those of the get-or-create with both
balances of the recipient raised by the amount. -/
theorem apply_accounts (accounts : List Transactions.Account) (trs : Transactions.Trs)
    (sender : Option Transactions.Account) :
    apply accounts trs sender =
      (updateFirst (fun a => a.address = trs.recipientId)
        (fun a => { a with balance := a.balance + trs.amount,
                           unconfirmedBalance := a.unconfirmedBalance + trs.amount })
        (getAccountOrCreateByAddress accounts trs.recipientId).1, none) := by
  have hr := (getAccountOrCreateByAddress_lookup accounts trs.recipientId).1
  unfold apply addToBalance addToUnconfirmedBalance
  simp only [hr]
  rw [updateFirst_updateFirst]
  all_goals first
    | rfl
    | (intro a; rfl)

/-- The accounts `Transfer.undo` leaves: those of the get-or-create with both
balances of the recipient lowered by the amount. -/
theorem undo_accounts (accounts : List Transactions.Account) (trs : Transactions.Trs)
    (sender : Option Transactions.Account) :
    undo accounts trs sender =
      (updateFirst (fun a => a.address = trs.recipientId)
        (fun a => { a with balance := a.balance + - trs.amount,
                           unconfirmedBalance := a.unconfirmedBalance + - trs.amount })
        (getAccountOrCreateByAddress accounts trs.recipientId).1, none) := by
  have hr := (getAccountOrCreateByAddress_lookup accounts trs.recipientId).1
  unfold undo addToBalance addToUnconfirmedBalance
  simp only [hr]
  rw [updateFirst_updateFirst]
  all_goals first
    | rfl
    | (intro a; rfl)

/-- After `Transfer.apply` and `Transfer.undo` of the same transaction the
accounts are those the get-or-create of the recipient alone would leave. -/
theorem undo_apply (accounts : List Transactions.Account) (trs : Transactions.Trs)
    (sender : Option Transactions.Account) :
    undo (apply accounts trs sender).1 trs sender =
      ((getAccountOrCreateByAddress accounts trs.recipientId).1, none) := by
  obtain ⟨_, hlook, _⟩ := getAccountOrCreateByAddress_lookup accounts trs.recipientId
  rw [undo_accounts, apply_accounts]
  simp only []
  have hfound : getAccountByAddress
      (updateFirst (fun a => a.address = trs.recipientId)
        (fun a => { a with balance := a.balance + trs.amount,
                           unconfirmedBalance := a.unconfirmedBalance + trs.amount })
        (getAccountOrCreateByAddress accounts trs.recipientId).1) trs.recipientId =
      some { (getAccountOrCreateByAddress accounts trs.recipientId).2 with
             balance := (getAccountOrCreateByAddress accounts trs.recipientId).2.balance +
               trs.amount,
             unconfirmedBalance :=
               (getAccountOrCreateByAddress accounts trs.recipientId).2.unconfirmedBalance +
                 trs.amount } := by
    unfold getAccountByAddress at hlook ⊢
    rw [find_updateFirst_same, hlook]
    all_goals first
      | rfl
      | (intro a; rfl)
  rw [getAccountOrCreateByAddress_found _ _ _ hfound]
  simp only []
  rw [updateFirst_updateFirst, updateFirst_self]
  all_goals first
    | (intro a; rfl)
    | (intro a _; cases a; simp)

/-- C22, amended: for every transfer and every ledger state,
`Transfer.applyUnconfirmed` changes no account and calls back without error;
`Transfer.apply` calls back without error and raises both the confirmed and
the unconfirmed balance of the recipient (an account made with zero balances
when the address was unknown) by exactly the amount; and the account found
under any other address, the sender's included when the sender is not the
recipient, is as before. -/
theorem apply_credits_both_balances (accounts : List Transactions.Account)
    (trs : Transactions.Trs) (sender : Option Transactions.Account) :
    applyUnconfirmed accounts trs sender = (accounts, none) ∧
    (apply accounts trs sender).2 = none ∧
    (getAccountByAddress (apply accounts trs sender).1 trs.recipientId).map
        (fun a => a.balance) =
      some (((getAccountByAddress accounts trs.recipientId).map
        (fun a => a.balance)).getD 0 + trs.amount) ∧
    (getAccountByAddress (apply accounts trs sender).1 trs.recipientId).map
        (fun a => a.unconfirmedBalance) =
      some (((getAccountByAddress accounts trs.recipientId).map
        (fun a => a.unconfirmedBalance)).getD 0 + trs.amount) ∧
    ∀ address, address ≠ trs.recipientId →
      getAccountByAddress (apply accounts trs sender).1 address =
        getAccountByAddress accounts address := by
  obtain ⟨_, hlook, hother⟩ := getAccountOrCreateByAddress_lookup accounts trs.recipientId
  rw [apply_accounts]
  simp only []
  have hrec : getAccountByAddress
      (updateFirst (fun a => a.address = trs.recipientId)
        (fun a => { a with balance := a.balance + trs.amount,
                           unconfirmedBalance := a.unconfirmedBalance + trs.amount })
        (getAccountOrCreateByAddress accounts trs.recipientId).1) trs.recipientId =
      (some (getAccountOrCreateByAddress accounts trs.recipientId).2).map
        (fun a => { a with balance := a.balance + trs.amount,
                           unconfirmedBalance := a.unconfirmedBalance + trs.amount }) := by
    unfold getAccountByAddress at hlook ⊢
    rw [find_updateFirst_same, hlook]
    intro a; rfl
  have hbal : ((getAccountByAddress accounts trs.recipientId).map
        (fun a => a.balance)).getD 0 =
        (getAccountOrCreateByAddress accounts trs.recipientId).2.balance ∧
      ((getAccountByAddress accounts trs.recipientId).map
        (fun a => a.unconfirmedBalance)).getD 0 =
        (getAccountOrCreateByAddress accounts trs.recipientId).2.unconfirmedBalance := by
    cases h : getAccountByAddress accounts trs.recipientId with
    | some a =>
      rw [getAccountOrCreateByAddress_found accounts trs.recipientId a h]
      exact ⟨rfl, rfl⟩
    | none =>
      rw [getAccountOrCreateByAddress_new accounts trs.recipientId h]
      exact ⟨rfl, rfl⟩
  refine ⟨rfl, trivial, ?_, ?_, ?_⟩
  · rw [hrec, hbal.1]; rfl
  · rw [hrec, hbal.2]; rfl
  · intro address ha
    rw [← hother address ha]
    unfold getAccountByAddress
    apply find_updateFirst_other
    · intro a; rfl
    · intro a h1
      have h2 : a.address = trs.recipientId := by simpa using h1
      have h3 : ¬ trs.recipientId = address := fun e => ha e.symm
      simp [h2, h3]

/-- Witness of C22: a transfer of 10 to the account 2C (balance 7, unconfirmed
balance 3): the unconfirmed apply changes nothing, the apply leaves the
recipient with 17 and 13, and the sender 1C is as before. -/
theorem apply_credits_both_balances_witness :
    applyUnconfirmed [Transactions.Example.sender, Example.recipient]
        (Transactions.Example.trs "a" 10) (some Transactions.Example.sender) =
      ([Transactions.Example.sender, Example.recipient], none) ∧
    (getAccountByAddress (apply [Transactions.Example.sender, Example.recipient]
        (Transactions.Example.trs "a" 10) (some Transactions.Example.sender)).1
        (Transactions.Example.trs "a" 10).recipientId).map (fun a => a.balance) =
      some (((getAccountByAddress [Transactions.Example.sender, Example.recipient]
        (Transactions.Example.trs "a" 10).recipientId).map (fun a => a.balance)).getD 0 + 10) ∧
    getAccountByAddress (apply [Transactions.Example.sender, Example.recipient]
        (Transactions.Example.trs "a" 10) (some Transactions.Example.sender)).1 "1C" =
      getAccountByAddress [Transactions.Example.sender, Example.recipient] "1C" :=
  have h := apply_credits_both_balances [Transactions.Example.sender, Example.recipient]
    (Transactions.Example.trs "a" 10) (some Transactions.Example.sender)
  ⟨h.1, h.2.2.1, h.2.2.2.2 "1C" (by decide)⟩

/-- C22 at a concrete input: a transfer of 10 to the account 2C, whose
unconfirmed balance is 3.  After `Transfer.applyUnconfirmed` the unconfirmed
balance of 2C is still 3, not 13; `Transfer.apply` then raises the unconfirmed
balance as well as the confirmed one; and a transfer of 10 from the account 1C
to itself raises the sender's own balances from 50 to 60. -/
theorem applyUnconfirmed_credits_nothing :
    (getAccountByAddress [Transactions.Example.sender, Example.recipient] "2C").map
      (fun a => a.unconfirmedBalance) = some 3 ∧
    (getAccountByAddress (applyUnconfirmed [Transactions.Example.sender, Example.recipient]
      (Transactions.Example.trs "a" 10) (some Transactions.Example.sender)).1 "2C").map
      (fun a => a.unconfirmedBalance) = some 3 ∧
    apply [Transactions.Example.sender, Example.recipient]
      (Transactions.Example.trs "a" 10) (some Transactions.Example.sender) =
      ([Transactions.Example.sender, Example.creditedRecipient], none) ∧
    apply [Transactions.Example.sender]
      { Transactions.Example.trs "a" 10 with recipientId := "1C" }
      (some Transactions.Example.sender) =
      ([{ Transactions.Example.sender with balance := 60, unconfirmedBalance := 60 }],
        none) := by
  with_unfolding_all decide

/-- C27: for every ledger state and transfer, `Transfer.apply` followed by
`Transfer.undo` calls back without error both times and leaves the accounts
as they were when the recipient existed; when it did not, the only change is
the recipient account that the apply made, with both balances 0, at the end
of the accounts; in both cases the account found under any other address is
as before, and the recipient's balances are those from before the apply. -/
theorem undo_reverts_apply (accounts : List Transactions.Account) (trs : Transactions.Trs)
    (sender : Option Transactions.Account) :
    (apply accounts trs sender).2 = none ∧
    (undo (apply accounts trs sender).1 trs sender).2 = none ∧
    (∀ recipient, getAccountByAddress accounts trs.recipientId = some recipient →
      (undo (apply accounts trs sender).1 trs sender).1 = accounts) ∧
    (getAccountByAddress accounts trs.recipientId = none →
      (undo (apply accounts trs sender).1 trs sender).1 =
        accounts ++ [{ address := trs.recipientId, publicKey := none, balance := 0,
                       unconfirmedBalance := 0, keysgroup := [], min := 0 }]) ∧
    (∀ address, address ≠ trs.recipientId →
      getAccountByAddress (undo (apply accounts trs sender).1 trs sender).1 address =
        getAccountByAddress accounts address) ∧
    (getAccountByAddress (undo (apply accounts trs sender).1 trs sender).1
        trs.recipientId).map (fun a => (a.balance, a.unconfirmedBalance)) =
      some (((getAccountByAddress accounts trs.recipientId).map
        (fun a => (a.balance, a.unconfirmedBalance))).getD (0, 0)) := by
  obtain ⟨_, hlook, hother⟩ := getAccountOrCreateByAddress_lookup accounts trs.recipientId
  rw [undo_apply, apply_accounts]
  refine ⟨rfl, rfl, ?_, ?_, ?_, ?_⟩
  · intro recipient h
    rw [getAccountOrCreateByAddress_found accounts trs.recipientId recipient h]
  · intro h
    rw [getAccountOrCreateByAddress_new accounts trs.recipientId h]
  · intro address ha
    exact hother address ha
  · simp only []
    rw [hlook]
    cases h : getAccountByAddress accounts trs.recipientId with
    | some a =>
      rw [getAccountOrCreateByAddress_found accounts trs.recipientId a h]
      rfl
    | none =>
      rw [getAccountOrCreateByAddress_new accounts trs.recipientId h]
      rfl

/-- Witness of C27: for the account 2C with balance 7 and unconfirmed balance
3, a transfer of 10 applied and undone leaves the accounts as they were. -/
theorem undo_reverts_apply_witness :
    (undo (apply [Transactions.Example.sender, Example.recipient]
      (Transactions.Example.trs "a" 10) (some Transactions.Example.sender)).1
      (Transactions.Example.trs "a" 10) (some Transactions.Example.sender)).1 =
      [Transactions.Example.sender, Example.recipient] ∧
    (undo (apply [Transactions.Example.sender]
      (Transactions.Example.trs "a" 10) (some Transactions.Example.sender)).1
      (Transactions.Example.trs "a" 10) (some Transactions.Example.sender)).1 =
      [Transactions.Example.sender] ++ [Example.newRecipient] :=
  ⟨(undo_reverts_apply [Transactions.Example.sender, Example.recipient]
      (Transactions.Example.trs "a" 10) (some Transactions.Example.sender)).2.2.1
      Example.recipient (by decide),
   (undo_reverts_apply [Transactions.Example.sender]
      (Transactions.Example.trs "a" 10) (some Transactions.Example.sender)).2.2.2.1
      (by decide)⟩

end Transfer

/-! ## The forger reward and the account records of a block -/

/-- C24: for every block that pushBlock accepts, the block that passes the
validation and goes to the commit carries a forger reward forForger that is
the sum of fee/2 over exactly its transactions of type 1 and subtype 0, in
exact arithmetic; it is 0 when the block has no such transaction, so
transactions of type 0 add nothing. -/
theorem pushBlock_forForger (env : Env) (curTime : Int) (st : State) (buffer : List UInt8)
    (h : (pushBlock env curTime st buffer).2 = .returned true) :
    ∃ b, validate env curTime st buffer = .next b ∧
      b.forForger =
        ((b.transactions.filter (fun t => t.type = 1 ∧ t.subtype = 0)).map
          (fun t => t.fee / 2)).sum ∧
      ((∀ t ∈ b.transactions, ¬ (t.type = 1 ∧ t.subtype = 0)) → b.forForger = 0) ∧
      pushBlock env curTime st buffer = commit env curTime st b := by
  have hpush : ∀ b, validate env curTime st buffer = .next b →
      pushBlock env curTime st buffer = commit env curTime st b := by
    intro b hb
    unfold pushBlock
    rw [hb]
  unfold pushBlock at h
  cases hv : validate env curTime st buffer with
  | exit o =>
    simp only [hv] at h
    exact absurd h (validate_exit env curTime st buffer o hv)
  | next b1 =>
    obtain ⟨b, w, _, _, hw, _, _, hi, _, _, _, hb1⟩ :=
      validate_next env curTime st buffer b1 hv
    have hc := walk_complete st.ledger curTime b.header.timestamp b.transactions walkStart w
      hw (by simpa [walkStart] using hi)
    have hfilter : b.transactions.filter (fun t => t.type = 1 ∧ t.subtype = 0) =
        b.transactions.filter (fun t => t.type = 1) := by
      apply List.filter_congr
      intro t ht
      have hsub : t.subtype = 0 := (hc.1 t ht).2.2.2
      simp [hsub]
    have hsum : b1.forForger =
        ((b1.transactions.filter (fun t => t.type = 1 ∧ t.subtype = 0)).map
          (fun t => t.fee / 2)).sum := by
      rw [hb1]
      simp only []
      rw [hfilter, hc.2.2.2.1]
      simp [walkStart]
    refine ⟨b1, rfl, hsum, ?_, hpush b1 hv⟩
    intro hnone
    rw [hsum, List.filter_eq_nil_iff.mpr]
    · rfl
    · intro t ht
      simpa using hnone t ht

theorem countAddresses_le (curTime : Int) (m : List (String × AddressRecord)) :
    countAddresses curTime m ≤ m.length := by
  induction m with
  | nil => simp [countAddresses]
  | cons e rest ih =>
    obtain ⟨k, addr⟩ := e
    unfold countAddresses
    split
    · simp
    · simp only [List.length_cons]; omega

theorem countAddresses_eq_length (curTime : Int) (m : List (String × AddressRecord))
    (h : countAddresses curTime m = m.length) :
    ∀ e ∈ m, addressFails curTime e.2 = false := by
  induction m with
  | nil => intro e he; cases he
  | cons e rest ih =>
    obtain ⟨k, addr⟩ := e
    unfold countAddresses at h
    by_cases hf : addressFails curTime addr = true
    · rw [if_pos hf] at h
      simp at h
    · rw [if_neg hf] at h
      simp only [List.length_cons, add_left_inj] at h
      intro e he
      rcases List.mem_cons.mp he with e1 | e1
      · rw [e1]; simpa using hf
      · exact ih h e e1

theorem length_setKey {α : Type} (m : List (String × α)) (k : String) (v : α) :
    (setKey m k v).length = if (getKey m k).isSome then m.length else m.length + 1 := by
  induction m with
  | nil => simp [setKey, getKey]
  | cons e rest ih =>
    obtain ⟨k1, v1⟩ := e
    by_cases h : k1 = k
    · simp [setKey, getKey, h]
    · simp only [setKey, getKey, h, if_false, List.length_cons, ih]
      split <;> rfl

theorem mem_setKey_self {α : Type} (m : List (String × α)) (k : String) (v : α) :
    (k, v) ∈ setKey m k v := by
  induction m with
  | nil => simp [setKey]
  | cons e rest ih =>
    obtain ⟨k1, v1⟩ := e
    by_cases h : k1 = k
    · simp [setKey, h]
    · simp only [setKey, h, if_false]
      exact List.mem_cons_of_mem _ ih

theorem mem_setKey_of_ne {α : Type} (m : List (String × α)) (k : String) (v : α)
    (e : String × α) (he : e ∈ m) (hk : e.1 ≠ k) : e ∈ setKey m k v := by
  induction m with
  | nil => cases he
  | cons e1 rest ih =>
    obtain ⟨k1, v1⟩ := e1
    by_cases h : k1 = k
    · simp only [setKey, h, if_true]
      rcases List.mem_cons.mp he with e2 | e2
      · rw [e2] at hk
        exact absurd h hk
      · exact List.mem_cons_of_mem _ e2
    · simp only [setKey, h, if_false]
      rcases List.mem_cons.mp he with e2 | e2
      · rw [e2]; exact List.mem_cons_self _ _
      · exact List.mem_cons_of_mem _ (ih e2)

theorem mem_storeAddresses (blockId : String) (rs : List AddressRecord) :
    ∀ (m : List (String × AddressRecord)) (e : String × AddressRecord), e ∈ m →
      (∀ r ∈ rs, r.id ≠ e.1) → e ∈ storeAddresses blockId rs m := by
  induction rs with
  | nil => intro m e he _; exact he
  | cons r rs ih =>
    intro m e he hne
    unfold storeAddresses
    apply ih
    · exact mem_setKey_of_ne m r.id _ e he
        (fun h => hne r (List.mem_cons_self _ _) h.symm)
    · intro r2 hr2
      exact hne r2 (List.mem_cons_of_mem _ hr2)

/-- Storing records under their ids gives at most one entry per record, and
one entry per record only when the ids are new and differ from one another;
then every record is in the map. -/
theorem length_storeAddresses (blockId : String) (rs : List AddressRecord) :
    ∀ m : List (String × AddressRecord),
      (storeAddresses blockId rs m).length ≤ m.length + rs.length ∧
      ((storeAddresses blockId rs m).length = m.length + rs.length →
        (rs.map (fun r => r.id)).Nodup ∧ (∀ r ∈ rs, getKey m r.id = none) ∧
        ∀ r ∈ rs, (r.id, { r with blockId := some blockId }) ∈ storeAddresses blockId rs m) := by
  induction rs with
  | nil =>
    intro m
    simp [storeAddresses]
  | cons r rs ih =>
    intro m
    obtain ⟨hle, heq⟩ := ih (setKey m r.id { r with blockId := some blockId })
    have hlen := length_setKey m r.id { r with blockId := some blockId }
    have hlen1 : (setKey m r.id { r with blockId := some blockId }).length ≤ m.length + 1 := by
      rw [hlen]; split <;> omega
    unfold storeAddresses
    simp only [List.length_cons]
    refine ⟨by omega, ?_⟩
    intro hfull
    have hm1 : (setKey m r.id { r with blockId := some blockId }).length = m.length + 1 := by
      omega
    obtain ⟨hnodup, hfresh, hmem⟩ := heq (by omega)
    have hrnone : getKey m r.id = none := by
      cases hg : getKey m r.id with
      | none => rfl
      | some x =>
        rw [hlen, hg] at hm1
        simp at hm1
    have hdiff : ∀ r2 ∈ rs, r.id ≠ r2.id ∧ getKey m r2.id = none := by
      intro r2 hr2
      have h2 := hfresh r2 hr2
      rw [getKey_setKey] at h2
      by_cases hk : r.id = r2.id
      · simp [hk] at h2
      · simp only [hk, if_false] at h2
        exact ⟨hk, h2⟩
    refine ⟨?_, ?_, ?_⟩
    · simp only [List.map_cons, List.nodup_cons, List.mem_map, not_exists, not_and]
      exact ⟨fun r2 hr2 e => (hdiff r2 hr2).1 e.symm, hnodup⟩
    · intro r2 hr2
      rcases List.mem_cons.mp hr2 with e | e
      · rw [e]; exact hrnone
      · exact (hdiff r2 e).2
    · intro r2 hr2
      rcases List.mem_cons.mp hr2 with e | e
      · rw [e]
        apply mem_storeAddresses
        · exact mem_setKey_self _ _ _
        · intro r3 hr3 h3
          exact (hdiff r3 hr3).1 h3.symm
      · exact hmem r2 e

theorem readAddresses_eq (env : Env) (buffer : List UInt8) (blockId : String) :
    ∀ (n off : Nat) (m : List (String × AddressRecord)),
      readAddresses env buffer blockId n off m =
        match decodeAddresses env buffer n off with
        | none => none
        | some (rs, off2) => some (storeAddresses blockId rs m, off2) := by
  intro n
  induction n with
  | zero => intro off m; rfl
  | succ n ih =>
    intro off m
    unfold readAddresses decodeAddresses
    cases hd : env.addressFromByteBuffer buffer off with
    | none => rfl
    | some p =>
      obtain ⟨addr, off1⟩ := p
      simp only []
      rw [ih]
      cases decodeAddresses env buffer n off1 with
      | none => rfl
      | some q => rfl

theorem length_decodeAddresses (env : Env) (buffer : List UInt8) :
    ∀ (n off : Nat) (rs : List AddressRecord) (off2 : Nat),
      decodeAddresses env buffer n off = some (rs, off2) → rs.length = n := by
  intro n
  induction n with
  | zero =>
    intro off rs off2 h
    simp only [decodeAddresses, Option.some.injEq, Prod.mk.injEq] at h
    rw [← h.1]; rfl
  | succ n ih =>
    intro off rs off2 h
    unfold decodeAddresses at h
    cases hd : env.addressFromByteBuffer buffer off with
    | none => simp [hd] at h
    | some p =>
      obtain ⟨addr, off1⟩ := p
      simp only [hd] at h
      cases hr : decodeAddresses env buffer n off1 with
      | none => simp [hr] at h
      | some q =>
        obtain ⟨rs1, off3⟩ := q
        simp only [hr, Option.some.injEq, Prod.mk.injEq] at h
        rw [← h.1, List.length_cons, ih off1 rs1 off3 hr]

theorem loadBlock_payload (env : Env) (curTime : Int) (st : State) (buffer : List UInt8)
    (b : Block) (hl : loadBlock env curTime st buffer = .next b) :
    ∃ off off1 off2, decodeHeader env.float64 buffer = some (b.header, off) ∧
      readTransactions env buffer b.header.numberOfTransactions.toNat off =
        some (b.transactions, off1) ∧
      readAddresses env buffer (env.getId b.header) b.header.numberOfAddresses.toNat off1 [] =
        some (b.addresses, off2) := by
  unfold loadBlock at hl
  cases hd : decodeHeader env.float64 buffer with
  | none => simp [hd] at hl
  | some p =>
    obtain ⟨h, off⟩ := p
    simp only [hd] at hl
    cases hlast : getLastBlock st with
    | none => simp [hlast] at hl
    | some last =>
      simp only [hlast] at hl
      by_cases h1 : last.previousBlock = some h.previousBlock
      · rw [if_pos h1] at hl; cases hl
      · rw [if_neg h1] at hl
        by_cases h2 : h.timestamp > curTime ∨ h.timestamp < last.timestamp
        · rw [if_pos h2] at hl; cases hl
        · rw [if_neg h2] at hl
          by_cases h3 : h.payloadLength > env.maxPayloadLength ∨
              h.payloadLength + env.blockHeaderLength ≠ (buffer.length : Int)
          · rw [if_pos h3] at hl; cases hl
          · rw [if_neg h3] at hl
            by_cases h4 : (getBlock st (env.getId h)).isSome ∨
                ¬ env.verifyGenerationSignature st h ∨ ¬ env.verifyBlockSignature st h
            · rw [if_pos h4] at hl; cases hl
            · rw [if_neg h4] at hl
              cases htx : readTransactions env buffer h.numberOfTransactions.toNat off with
              | none => simp [htx] at hl
              | some q =>
                obtain ⟨txs, off1⟩ := q
                simp only [htx] at hl
                cases had : readAddresses env buffer (env.getId h)
                    h.numberOfAddresses.toNat off1 [] with
                | none => simp [had] at hl
                | some r =>
                  obtain ⟨addrs, off2⟩ := r
                  simp only [had] at hl
                  injection hl with hl
                  subst hl
                  exact ⟨off, off1, off2, rfl, htx, had⟩

theorem pushBlock_of_count_mismatch (env : Env) (curTime : Int) (st : State)
    (buffer : List UInt8) (b : Block) (hl : loadBlock env curTime st buffer = .next b)
    (hc : (countAddresses curTime b.addresses : Int) ≠ b.header.numberOfAddresses) :
    pushBlock env curTime st buffer = (st, .returned false) := by
  unfold pushBlock validate
  simp [hl, hc]

/-- What a matching record count means for the records embedded in the
buffer: their ids differ from one another, none of them fails, and their
number is the declared one. -/
theorem count_matches (env : Env) (curTime : Int) (st : State) (buffer : List UInt8)
    (b : Block) (records : List AddressRecord)
    (hl : loadBlock env curTime st buffer = .next b)
    (hr : embeddedAddresses env buffer = some records)
    (hc : (countAddresses curTime b.addresses : Int) = b.header.numberOfAddresses) :
    (records.map (fun r => r.id)).Nodup ∧ (∀ r ∈ records, addressFails curTime r = false) ∧
      (records.length : Int) = b.header.numberOfAddresses := by
  obtain ⟨off, off1, off2, hd, htx, had⟩ := loadBlock_payload env curTime st buffer b hl
  unfold embeddedAddresses at hr
  simp only [hd, htx] at hr
  rw [readAddresses_eq] at had
  cases hdec : decodeAddresses env buffer b.header.numberOfAddresses.toNat off1 with
  | none => simp [hdec] at hr
  | some q =>
    obtain ⟨rs, off3⟩ := q
    simp only [hdec, Option.some.injEq] at hr had
    subst hr
    have hlen := length_decodeAddresses env buffer _ _ _ _ hdec
    have hmap : b.addresses = storeAddresses (env.getId b.header) rs [] :=
      (congrArg Prod.fst had).symm
    obtain ⟨hle, hfull⟩ := length_storeAddresses (env.getId b.header) rs []
    have hcount := countAddresses_le curTime b.addresses
    rw [← hmap] at hle hfull
    simp only [List.length_nil, zero_add] at hle hfull
    have hn : (rs.length : Int) = b.header.numberOfAddresses := by omega
    have hall : countAddresses curTime b.addresses = b.addresses.length := by omega
    obtain ⟨hnodup, _, hmem⟩ := hfull (by omega)
    refine ⟨hnodup, ?_, hn⟩
    intro r hr
    have hin := countAddresses_eq_length curTime b.addresses hall _ (hmem r hr)
    simpa [addressFails] using hin

theorem takeWhile_of_all {α : Type} (p : α → Bool) (l : List α) (h : ∀ x ∈ l, p x = true) :
    l.takeWhile p = l := by
  induction l with
  | nil => rfl
  | cons x xs ih =>
    rw [List.takeWhile_cons, h x (List.mem_cons_self _ _)]
    simp only [if_true]
    rw [ih (fun y hy => h y (List.mem_cons_of_mem _ hy))]

/-- C25: for every block whose header and payload pushBlock has decoded, with
the account records embedded in the buffer taken in the order met: pushBlock
accepts the block only if the counter of the account-record step equals the
declared numberOfAddresses, and then the number of embedded records that pass
before the first failure equals it too; a block in which an embedded record
fails (timestamp after the current time, or verify or accountVerify false),
or in which two embedded records share an id, is rejected: pushBlock returns
false and the state is unchanged. -/
theorem pushBlock_address_count (env : Env) (curTime : Int) (st : State)
    (buffer : List UInt8) (b : Block) (records : List AddressRecord)
    (hl : loadBlock env curTime st buffer = .next b)
    (hr : embeddedAddresses env buffer = some records) :
    ((pushBlock env curTime st buffer).2 = .returned true →
      (countAddresses curTime b.addresses : Int) = b.header.numberOfAddresses ∧
      (passedBeforeFailure curTime records : Int) = b.header.numberOfAddresses) ∧
    ((countAddresses curTime b.addresses : Int) ≠ b.header.numberOfAddresses →
      pushBlock env curTime st buffer = (st, .returned false)) ∧
    ((∃ r ∈ records, addressFails curTime r = true) →
      pushBlock env curTime st buffer = (st, .returned false)) ∧
    (¬ (records.map (fun r => r.id)).Nodup →
      pushBlock env curTime st buffer = (st, .returned false)) := by
  refine ⟨?_, pushBlock_of_count_mismatch env curTime st buffer b hl, ?_, ?_⟩
  · intro hacc
    obtain ⟨b1, _, hl1, hc, _⟩ := pushBlock_accepted env curTime st buffer hacc
    rw [hl] at hl1
    injection hl1 with hb
    subst hb
    obtain ⟨_, hpass, hn⟩ := count_matches env curTime st buffer b records hl hr hc
    refine ⟨hc, ?_⟩
    unfold passedBeforeFailure
    rw [takeWhile_of_all _ _ (fun r hr1 => by simp [hpass r hr1])]
    exact hn
  · rintro ⟨r, hr1, hfail⟩
    apply pushBlock_of_count_mismatch env curTime st buffer b hl
    intro hc
    have hpass := (count_matches env curTime st buffer b records hl hr hc).2.1 r hr1
    rw [hpass] at hfail
    cases hfail
  · intro hdup
    apply pushBlock_of_count_mismatch env curTime st buffer b hl
    intro hc
    exact hdup (count_matches env curTime st buffer b records hl hr hc).1

/-! ## Index stability of the pool -/

namespace Transactions

theorem split_at_index {α : Type} (l : List α) :
    ∀ (i : Nat) (x : α), l[i]? = some x →
      ∃ s1 s2, l = s1 ++ x :: s2 ∧ ∀ y, l.set i y = s1 ++ y :: s2 := by
  induction l with
  | nil => intro i x h; simp at h
  | cons a rest ih =>
    intro i x h
    cases i with
    | zero =>
      simp only [List.getElem?_cons_zero, Option.some.injEq] at h
      subst h
      exact ⟨[], rest, rfl, fun y => rfl⟩
    | succ j =>
      simp only [List.getElem?_cons_succ] at h
      obtain ⟨s1, s2, h1, h2⟩ := ih j x h
      refine ⟨a :: s1, s2, by rw [h1]; rfl, fun y => ?_⟩
      simp only [List.set_cons_succ, List.cons_append, h2]

/-- C26: for every pool state and ids a and b that differ, each looked up to a
transaction of that id: removeUnconfirmedTransaction(a) leaves the slot
sequence as long as it was, leaves the slot index of b as it was,
getUnconfirmedTransaction(b) still returns the same transaction, and
getUnconfirmedTransactionList(false) afterwards is the list from before with
the transaction of a taken out of its place and everything else in the same
order. -/
theorem removal_keeps_other_indices (m : Module) (a b : String) (ta tb : Trs)
    (hab : a ≠ b)
    (ha : getUnconfirmedTransaction m a = some (.transaction ta)) (haid : ta.id = a)
    (hb : getUnconfirmedTransaction m b = some (.transaction tb)) (hbid : tb.id = b) :
    (removeUnconfirmedTransaction m a).unconfirmedTransactions.length =
      m.unconfirmedTransactions.length ∧
    getKey (removeUnconfirmedTransaction m a).unconfirmedTransactionsIdIndex b =
      getKey m.unconfirmedTransactionsIdIndex b ∧
    getUnconfirmedTransaction (removeUnconfirmedTransaction m a) b = some (.transaction tb) ∧
    ∃ before after,
      getUnconfirmedTransactionList m false = before ++ ta :: after ∧
      getUnconfirmedTransactionList (removeUnconfirmedTransaction m a) false =
        before ++ after := by
  obtain ⟨i, hi, hsi⟩ := getUnconfirmedTransaction_transaction m a ta ha
  obtain ⟨j, hj, hsj⟩ := getUnconfirmedTransaction_transaction m b tb hb
  have hij : i ≠ j := by
    intro e
    rw [e, hsj] at hsi
    have : tb = ta := by simpa using hsi
    apply hab
    rw [← haid, ← hbid, this]
  have hrem : removeUnconfirmedTransaction m a =
      { m with
        unconfirmedTransactionsIdIndex := eraseKey m.unconfirmedTransactionsIdIndex a
        unconfirmedTransactions := m.unconfirmedTransactions.set i .tombstone } := by
    unfold removeUnconfirmedTransaction
    rw [hi]
  have hidx : getKey (removeUnconfirmedTransaction m a).unconfirmedTransactionsIdIndex b =
      getKey m.unconfirmedTransactionsIdIndex b := by
    rw [hrem]
    simp only []
    rw [getKey_eraseKey]
    simp [hab]
  refine ⟨?_, hidx, ?_, ?_⟩
  · rw [hrem]
    simp
  · rw [getUnconfirmedTransaction_of_index _ b j (by rw [hidx]; exact hj), hrem]
    simp only []
    rw [List.getElem?_set_ne hij]
    exact hsj
  · obtain ⟨s1, s2, hs, hset⟩ := split_at_index m.unconfirmedTransactions i _ hsi
    refine ⟨s1.filterMap (fun s => match s with
        | .transaction t => some t
        | .tombstone => none),
      s2.filterMap (fun s => match s with
        | .transaction t => some t
        | .tombstone => none), ?_, ?_⟩
    · unfold getUnconfirmedTransactionList
      simp only [Bool.false_eq_true, if_false]
      rw [hs]
      simp [List.filterMap_append, List.filterMap_cons]
    · rw [hrem]
      unfold getUnconfirmedTransactionList
      simp only [Bool.false_eq_true, if_false]
      rw [hset]
      simp [List.filterMap_append, List.filterMap_cons]

/-- Witness of C26: in the pool holding the transfers `big` and `a`, the
removal of `big` leaves two slots, the index 1 of `a`, the lookup of `a`, and
the list without `big`. -/
theorem removal_keeps_other_indices_witness :
    (removeUnconfirmedTransaction Example.pooledModule "big").unconfirmedTransactions.length =
      Example.pooledModule.unconfirmedTransactions.length ∧
    getKey (removeUnconfirmedTransaction Example.pooledModule
      "big").unconfirmedTransactionsIdIndex "a" =
      getKey Example.pooledModule.unconfirmedTransactionsIdIndex "a" ∧
    getUnconfirmedTransaction (removeUnconfirmedTransaction Example.pooledModule "big") "a" =
      some (.transaction (Example.trs "a" 10)) ∧
    ∃ before after,
      getUnconfirmedTransactionList Example.pooledModule false =
        before ++ Example.trs "big" 45 :: after ∧
      getUnconfirmedTransactionList (removeUnconfirmedTransaction Example.pooledModule "big")
        false = before ++ after :=
  removal_keeps_other_indices Example.pooledModule "big" "a" (Example.trs "big" 45)
    (Example.trs "a" 10) (by decide) (by decide) rfl (by decide) rfl

end Transactions

/-! ## The forger reward and the account records at the example node -/

/-- Witness of C24: in the accepted block of two transfers, the one of type 1
has fee 2 and the forger reward is 1. -/
theorem pushBlock_forForger_witness :
    validate Example.env 10 Example.chain Example.goodBuffer =
      .next { Example.goodBlock with forForger := 1 } ∧
    ∃ b, validate Example.env 10 Example.chain Example.goodBuffer = .next b ∧
      b.forForger =
        ((b.transactions.filter (fun t => t.type = 1 ∧ t.subtype = 0)).map
          (fun t => t.fee / 2)).sum ∧
      ((∀ t ∈ b.transactions, ¬ (t.type = 1 ∧ t.subtype = 0)) → b.forForger = 0) ∧
      pushBlock Example.env 10 Example.chain Example.goodBuffer =
        commit Example.env 10 Example.chain b :=
  ⟨by with_unfolding_all decide,
   pushBlock_forForger Example.env 10 Example.chain Example.goodBuffer
     (by with_unfolding_all decide)⟩

/-- Witness of C25: a block whose second account record has timestamp 11 at
time 10 is rejected, a block whose two account records share the id 9 is
rejected, and in the accepted block of two valid records with different ids
both counts are the declared 2. -/
theorem pushBlock_address_count_witness :
    pushBlock Example.env 10 Example.chain Example.staleBuffer =
      (Example.chain, .returned false) ∧
    pushBlock Example.env 10 Example.chain Example.twinBuffer =
      (Example.chain, .returned false) ∧
    ((countAddresses 10 Example.recordsBlock.addresses : Int) =
        Example.recordsBlock.header.numberOfAddresses ∧
      (passedBeforeFailure 10 [Example.record 8 3, Example.record 9 4] : Int) =
        Example.recordsBlock.header.numberOfAddresses) :=
  ⟨(pushBlock_address_count Example.env 10 Example.chain Example.staleBuffer
      Example.staleBlock [Example.record 8 3, Example.record 9 11]
      (by with_unfolding_all decide) (by with_unfolding_all decide)).2.2.1
      ⟨Example.record 9 11, by simp, by decide⟩,
   (pushBlock_address_count Example.env 10 Example.chain Example.twinBuffer
      Example.twinBlock [Example.record 9 3, Example.record 9 4]
      (by with_unfolding_all decide) (by with_unfolding_all decide)).2.2.2
      (by decide),
   (pushBlock_address_count Example.env 10 Example.chain Example.recordsBuffer
      Example.recordsBlock [Example.record 8 3, Example.record 9 4]
      (by with_unfolding_all decide) (by with_unfolding_all decide)).1
      (by with_unfolding_all decide)⟩

end Crypti
